import Mathlib

/-!
# Function-signature synchronisation (`blocks/functions.js`)

A shallow embedding of `Blockly.PXTBlockly.FunctionUtils`: the signature model and its
XML serialisation (`mutationToDom`, `domToMutation`) and the display reconciler
(`updateDisplay_` and the four phases it runs), followed by theorems about them.

JavaScript objects are embedded as records, mutation of `this` and of the ambient editor as
explicit state passing (`St`), and a propagating `TypeError` as an `Outcome` without a value
that keeps the state reached when the error was raised.
-/

namespace FunctionUtils

/-! ## JavaScript values and DOM nodes -/

/-- JavaScript `String(v)` for a value that is either a string or `null`. -/
def jsString : Option String → String
  | some s => s
  | none => "null"

/-- A DOM node: an element with its attributes and child nodes, or a text node. -/
inductive Node where
  | element (tagName : String) (attributes : List (String × String)) (childNodes : List Node)
  | text (data : String)

/-- The element made by `document.createElement(tagName)` / `goog.dom.createDom(tagName)`. -/
def createElement (tagName : String) : Node :=
  .element tagName [] []

/-- Assignment `obj[k] = v` on a string-keyed table kept in insertion order: an existing
key keeps its position and gets the new value, a new key is added at the end. -/
def assocSet {β : Type} : List (String × β) → String → β → List (String × β)
  | [], k, v => [(k, v)]
  | (k0, v0) :: rest, k, v =>
    if k0 = k then (k0, v) :: rest else (k0, v0) :: assocSet rest k v

/-- Attribute list after `setAttribute(k, v)`. -/
def setAttr (as : List (String × String)) (k v : String) : List (String × String) :=
  assocSet as k v

/-- DOM `setAttribute`. -/
def Node.setAttribute : Node → String → String → Node
  | .element t as cs, k, v => .element t (setAttr as k v) cs
  | .text d, _, _ => .text d

/-- DOM `getAttribute` on an element: the value, or `null` when the attribute is absent. -/
def Node.getAttribute : Node → String → Option String
  | .element _ as _, k => as.lookup k
  | .text _, _ => none

/-- DOM `appendChild`. -/
def Node.appendChild : Node → Node → Node
  | .element t as cs, c => .element t as (cs ++ [c])
  | .text d, _ => .text d

/-- DOM `childNodes`. -/
def Node.childNodes : Node → List Node
  | .element _ _ cs => cs
  | .text _ => []

/-- DOM `tagName` as given at creation (`none` for a text node). -/
def Node.tagName : Node → Option String
  | .element t _ _ => some t
  | .text _ => none

/-- Whether the node is an element, that is, whether it has a `getAttribute` method. -/
def Node.isElement : Node → Bool
  | .element _ _ _ => true
  | .text _ => false

/-! ## Data model -/

/-- The `FunctionParameter` typedef. Each property is a string, or `null` when it was read
from an XML attribute that is absent. -/
structure FunctionParameter where
  id : Option String
  name : Option String
  type : Option String
  deriving DecidableEq

/-- The three block types that share the function utilities. -/
inductive BlockKind where
  | function_declaration
  | function_definition
  | function_call
  deriving DecidableEq

/-- Blockly input types (`Blockly.INPUT_VALUE`, `Blockly.NEXT_STATEMENT`,
`Blockly.DUMMY_INPUT`). -/
inductive InputType where
  | INPUT_VALUE
  | NEXT_STATEMENT
  | DUMMY_INPUT
  deriving DecidableEq

/-- A field on an input row: a plain label (`FieldLabel`) or an editable text field
(`FieldTextInput`). -/
structure Field where
  name : String
  text : Option String
  editable : Bool
  deriving DecidableEq

/-- A block that plugs into a value input: a user expression, a shadow placeholder, an
argument reporter or an argument editor. `id` is the identity of the JavaScript object. -/
structure ChildBlock where
  id : Nat
  type : String
  isShadow : Bool
  fields : List (String × String)
  deriving DecidableEq

/-- A connection of an input: its type check (`none` accepts every type), the shadow DOM
stored on it and the block plugged into it. -/
structure Connection where
  check : Option String
  shadowDom : Option Node
  targetBlock : Option ChildBlock

/-- An entry of `inputList`. -/
structure Input where
  type : InputType
  name : Option String
  connection : Option Connection
  fieldRow : List Field

/-- The state of a declaration, definition or call block that the utilities read and write. -/
structure Block where
  type : BlockKind
  name_ : Option String
  functionId_ : Option String
  arguments_ : List FunctionParameter
  hasStatements_ : Option Bool
  inputList : List Input
  rendered : Bool
  isInsertionMarker : Bool

/-- The stored signature of a block: `name_`, `functionId_` and `arguments_`. -/
structure Signature where
  name : Option String
  functionId : Option String
  arguments : List FunctionParameter
  deriving DecidableEq

/-- The signature held by a block. -/
def Block.signature (b : Block) : Signature :=
  ⟨b.name_, b.functionId_, b.arguments_⟩

/-- All three properties of the parameter are strings. -/
def FunctionParameter.isStrings (a : FunctionParameter) : Bool :=
  a.id.isSome && a.name.isSome && a.type.isSome

/-- A signature as the data model describes it: name, function id and every argument
property are strings. -/
def Signature.isStrings (s : Signature) : Bool :=
  s.name.isSome && s.functionId.isSome && s.arguments.all FunctionParameter.isStrings

/-! ## Serialisation -/

/-- The `argNode` built in the `forEach` of `mutationToDom` for one argument. -/
def argNode (arg : FunctionParameter) : Node :=
  let argNode := createElement "arg"
  let argNode := argNode.setAttribute "name" (jsString arg.name)
  let argNode := argNode.setAttribute "id" (jsString arg.id)
  argNode.setAttribute "type" (jsString arg.type)

/-- The body of the `forEach` in `mutationToDom`: one `arg` element appended per argument. -/
def appendArgNode (container : Node) (arg : FunctionParameter) : Node :=
  container.appendChild (argNode arg)

/-- Embedding of `mutationToDom`. -/
def mutationToDom (this : Block) : Node :=
  let container := createElement "mutation"
  let container := container.setAttribute "name" (jsString this.name_)
  let container := container.setAttribute "functionid" (jsString this.functionId_)
  this.arguments_.foldl appendArgNode container

/-- The record pushed for one child in `domToMutation`. -/
def argOfNode (c : Node) : FunctionParameter :=
  { id := c.getAttribute "id", name := c.getAttribute "name", type := c.getAttribute "type" }

/-- The `forEach` over `childNodes` in `domToMutation`: the list of pushed records, or
`none` when a child has no `getAttribute` (a text node), which raises a `TypeError`. -/
def readArgs (children : List Node) : Option (List FunctionParameter) :=
  if children.all Node.isElement then some (children.map argOfNode) else none

/-! ## Editor state -/

/-- The message strings (`Blockly.Msg`) read by the display code; their values are defined
outside `functions.js`. -/
structure Msg where
  FUNCTIONS_CALL_TITLE : String
  PROCEDURES_DEFNORETURN_TITLE : String

/-- The ambient editor state the utilities touch: the supply of identities for blocks made by
`workspace.newBlock`, the nesting depth of `Blockly.Events.disable()`, the identities of the
blocks disposed so far, the identities of the blocks whose creation was notified, and the id
of the variable that
`Blockly.Variables.getOrCreateVariablePackage(ws, null, Blockly.Msg.VARIABLES_DEFAULT_NAME, '')`
returns. -/
structure World where
  msg : Msg
  defaultVariableId : String
  nextBlockId : Nat
  eventsDisabled : Nat
  disposed : List Nat
  fired : List Nat

/-- The block the method runs on (`this`) together with the ambient editor state. -/
structure St where
  block : Block
  world : World

/-- Result of running a method: `value` is `none` when a `TypeError` propagated out of it,
and `st` is the state reached, also in that case. -/
structure Outcome (α : Type) where
  value : Option α
  st : St

/-- What `disconnectOldBlocks_` records for one input. -/
structure SaveInfo where
  shadow : Option Node
  block : Option ChildBlock

/-- The `connectionMap` object: string keys in insertion order, each holding a `SaveInfo` or
`null`. Keys inherited from `Object.prototype` are not modelled. -/
abbrev ConnectionMap := List (String × Option SaveInfo)

/-- Modelled from the spec: `Blockly.Events.disable()` of the change-notification interface,
one more level of suppression. -/
def World.disableEvents (w : World) : World :=
  { w with eventsDisabled := w.eventsDisabled + 1 }

/-- Modelled from the spec: `Blockly.Events.enable()` of the change-notification interface,
one level of suppression less. -/
def World.enableEvents (w : World) : World :=
  { w with eventsDisabled := w.eventsDisabled - 1 }

/-- The fields a new block of the given type starts with, for the block types defined in
`functions.js` (the `args0` of their `jsonInit`); other block types are defined elsewhere
and start with no field in this model. -/
def initialFields (blockType : String) : List (String × String) :=
  if blockType = "argument_editor_boolean" then [("TEXT", "bool")]
  else if blockType = "argument_editor_string" then [("TEXT", "text")]
  else if blockType = "argument_editor_number" then [("TEXT", "num")]
  else if blockType = "argument_editor_custom" then [("TEXT", "foo")]
  else if blockType = "argument_reporter_boolean" then [("VALUE", "")]
  else if blockType = "argument_reporter_number" then [("VALUE", "")]
  else if blockType = "argument_reporter_string" then [("VALUE", "")]
  else if blockType = "argument_reporter_custom" then [("VALUE", "")]
  else []

/-- Modelled from the spec: `workspace.newBlock(type)` of the node placement interface, a new
non-shadow block with a fresh identity. Its creation is notified exactly when change
notifications are not disabled. -/
def World.newBlock (w : World) (blockType : String) : ChildBlock × World :=
  (⟨w.nextBlockId, blockType, false, initialFields blockType⟩,
    { w with
      nextBlockId := w.nextBlockId + 1
      fired := if w.eventsDisabled = 0 then w.fired ++ [w.nextBlockId] else w.fired })

/-- Modelled from the spec: `block.dispose()` of the node placement interface, recorded as
the block's identity joining the disposed ones. -/
def World.dispose (w : World) (blk : ChildBlock) : World :=
  { w with disposed := w.disposed ++ [blk.id] }

/-- Modelled from the spec: `block.setFieldValue(newValue, name)`; a `null` value changes
nothing. -/
def ChildBlock.setFieldValue (blk : ChildBlock) (newValue : Option String) (name : String) :
    ChildBlock :=
  match newValue with
  | some v => { blk with fields := assocSet blk.fields name v }
  | none => blk

/-- Modelled from the spec: `block.setShadow(shadow)`. -/
def ChildBlock.setShadow (blk : ChildBlock) (shadow : Bool) : ChildBlock :=
  { blk with isShadow := shadow }

/-- Modelled from the spec: `block.getFieldValue(name)`. -/
def ChildBlock.getFieldValue (blk : ChildBlock) (name : String) : Option String :=
  blk.fields.lookup name

/-- Modelled from the spec: "set node's connected child at slot", the effect of
`childBlock.outputConnection.connect(input.connection)` on the input. Whether the types
fit is decided by the surrounding connection validation and is not modelled, and neither is
the unplugging of the block from a slot it was in before. -/
def Input.connect (input : Input) (blk : ChildBlock) : Input :=
  match input.connection with
  | some c => { input with connection := some { c with targetBlock := some blk } }
  | none => input

/-- Modelled from the spec: `input.connection.setShadowDom(dom)`. -/
def Input.setShadowDom (input : Input) (dom : Option Node) : Input :=
  match input.connection with
  | some c => { input with connection := some { c with shadowDom := dom } }
  | none => input

/-- Modelled from the spec: `input.setCheck(check)`. -/
def Input.setCheck (input : Input) (check : Option String) : Input :=
  match input.connection with
  | some c => { input with connection := some { c with check := check } }
  | none => input

/-- Modelled from the spec: "get node's connected child at slot",
`input.connection.targetBlock()`. -/
def Input.targetBlock (input : Input) : Option ChildBlock :=
  input.connection.bind Connection.targetBlock

/-- Modelled from the spec: `input.connection.getShadowDom()`. -/
def Input.getShadowDom (input : Input) : Option Node :=
  input.connection.bind Connection.shadowDom

/-- The type check of the input's connection (`none` when it accepts every type). -/
def Input.check (input : Input) : Option String :=
  input.connection.bind Connection.check

/-- Modelled from the spec: the input made by `appendValueInput(name)`, with a free
connection that accepts every type. -/
def valueInput (name : Option String) : Input :=
  { type := .INPUT_VALUE, name := name, connection := some ⟨none, none, none⟩, fieldRow := [] }

/-- Modelled from the spec: the input made by `appendStatementInput(name)`. -/
def statementInput (name : String) : Input :=
  { type := .NEXT_STATEMENT, name := some name, connection := some ⟨none, none, none⟩,
    fieldRow := [] }

/-- Modelled from the spec: the input made by `appendDummyInput(name).appendField(..)`, a row
without connection carrying one field. -/
def dummyInput (name : String) (field : Field) : Input :=
  { type := .DUMMY_INPUT, name := some name, connection := none, fieldRow := [field] }

/-- Adding an input at the end of `inputList`, as every `append*Input` does. -/
def Block.appendInput (this : Block) (input : Input) : Block :=
  { this with inputList := this.inputList ++ [input] }

/-- Modelled from the spec: `moveInputBefore('STACK', null)`: the first input named `STACK`
goes to the end of the list; `none` when there is no such input, where Blockly raises an
error. -/
def moveStackToEnd : List Input → Option (List Input)
  | [] => none
  | x :: xs =>
    if x.name = some "STACK" then some (xs ++ [x])
    else (moveStackToEnd xs).map (fun ys => x :: ys)

/-- Modelled from the spec: `removeInput('STACK', true)`: the first input named `STACK` is
dropped, and nothing happens when there is none. -/
def removeStack : List Input → List Input
  | [] => []
  | x :: xs => if x.name = some "STACK" then xs else x :: removeStack xs

/-- Embedding of `setStatements_`. -/
def setStatements_ (this : Block) (hasStatements : Bool) : Block :=
  if this.hasStatements_ = some hasStatements then this
  else if hasStatements then
    { this.appendInput (statementInput "STACK") with hasStatements_ := some true }
  else
    { this with inputList := removeStack this.inputList, hasStatements_ := some false }

/-! ## Display reconciler -/

/-- The loop of `disconnectOldBlocks_` from a given input on: the map filled so far and the
inputs as the loop leaves them. -/
def disconnectInputs : List Input → ConnectionMap → ConnectionMap × List Input
  | [], connectionMap => (connectionMap, [])
  | input :: rest, connectionMap =>
    match input.connection with
    | some c =>
      if input.name ≠ some "STACK" then
        let saveInfo : SaveInfo := { shadow := c.shadowDom, block := c.targetBlock }
        let r := disconnectInputs rest (assocSet connectionMap (jsString input.name) (some saveInfo))
        (r.1, { input with connection := some { c with shadowDom := none, targetBlock := none } }
          :: r.2)
      else
        let r := disconnectInputs rest connectionMap
        (r.1, input :: r.2)
    | none =>
      let r := disconnectInputs rest connectionMap
      (r.1, input :: r.2)

/-- Embedding of `disconnectOldBlocks_`: the returned map and the block afterwards. -/
def disconnectOldBlocks_ (this : Block) : ConnectionMap × Block :=
  let r := disconnectInputs this.inputList []
  (r.1, { this with inputList := r.2 })

/-- The loop of `removeAllInputs_`: the value of `stackInput` when the loop ends. -/
def findStackInput (inputList : List Input) : Option Input :=
  inputList.foldl (fun stackInput input => if input.name = some "STACK" then some input else stackInput)
    none

/-- Embedding of `removeAllInputs_`. -/
def removeAllInputs_ (this : Block) : Block :=
  { this with inputList :=
      match findStackInput this.inputList with
      | some stackInput => [stackInput]
      | none => [] }

/-- Embedding of `getShadowBlockInfoFromType_`: block type, field name and field value. -/
def getShadowBlockInfoFromType_ (argumentType : Option String) (w : World) :
    String × String × String :=
  if argumentType = some "boolean" then ("logic_boolean", "BOOL", "TRUE")
  else if argumentType = some "number" then ("math_number", "NUM", "1")
  else if argumentType = some "string" then ("text", "TEXT", "abc")
  else ("variables_get", "VAR", w.defaultVariableId)

/-- Embedding of `buildShadowDom_`. `goog.dom.createDom('field', null, fieldValue)` adds a
text child unless the value is the empty string. -/
def buildShadowDom_ (w : World) (argumentType : Option String) : Node :=
  let shadowDom := createElement "shadow"
  let info := getShadowBlockInfoFromType_ argumentType w
  let shadowDom := shadowDom.setAttribute "type" info.1
  let fieldDom : Node := .element "field" [] (if info.2.2 = "" then [] else [.text info.2.2])
  let fieldDom := fieldDom.setAttribute "name" info.2.1
  shadowDom.appendChild fieldDom

/-- Embedding of `attachShadow_`: the input with the new shadow block connected, and the
editor state afterwards. -/
def attachShadow_ (input : Input) (argumentType : Option String) (w : World) : Input × World :=
  let info := getShadowBlockInfoFromType_ argumentType w
  let w := w.disableEvents
  let r := w.newBlock info.1
  let newBlock := r.1.setFieldValue (some info.2.2) info.2.1
  let newBlock := newBlock.setShadow true
  let w := r.2.enableEvents
  (input.connect newBlock, w)

/-- Embedding of `createArgumentReporter_`. -/
def createArgumentReporter_ (arg : FunctionParameter) (w : World) : ChildBlock × World :=
  let blockType :=
    if arg.type = some "boolean" then "argument_reporter_boolean"
    else if arg.type = some "number" then "argument_reporter_number"
    else if arg.type = some "string" then "argument_reporter_string"
    else "argument_reporter_custom"
  let w := w.disableEvents
  let r := w.newBlock blockType
  let newBlock := r.1.setShadow true
  let newBlock := newBlock.setFieldValue arg.name "VALUE"
  (newBlock, r.2.enableEvents)

/-- Embedding of `createArgumentEditor_`. -/
def createArgumentEditor_ (argumentType displayName : Option String) (w : World) :
    ChildBlock × World :=
  let w := w.disableEvents
  let r :=
    if argumentType = some "boolean" then w.newBlock "argument_editor_boolean"
    else if argumentType = some "string" then w.newBlock "argument_editor_string"
    else if argumentType = some "number" then w.newBlock "argument_editor_number"
    else w.newBlock "argument_editor_custom"
  let newBlock := r.1.setFieldValue displayName "TEXT"
  let newBlock := newBlock.setShadow true
  (newBlock, r.2.enableEvents)

/-- The head of the three `populateArgumentOn*_` functions:
`if (connectionMap && (arg.id in connectionMap)) { saveInfo = connectionMap[arg.id]; .. }`.
The result holds `oldBlock` and `oldShadow` (both `null` when the key is not in the map); it
is `none` when the stored `saveInfo` is `null`, where reading `saveInfo['block']` raises a
`TypeError`. -/
def readSaved (connectionMap : Option ConnectionMap) (id : Option String) : Option SaveInfo :=
  match connectionMap with
  | none => some ⟨none, none⟩
  | some cm =>
    match cm.lookup (jsString id) with
    | none => some ⟨none, none⟩
    | some none => none
    | some (some saveInfo) => some saveInfo

/-- What a `populateArgument_` leaves behind: the connection map, the input it was given and
the editor state, each as mutated. -/
structure Populated where
  connectionMap : Option ConnectionMap
  input : Input
  world : World

/-- Embedding of `populateArgumentOnCaller_`; `none` when the `TypeError` of `readSaved` is
raised, which is before any effect. -/
def populateArgumentOnCaller_ (arg : FunctionParameter) (connectionMap : Option ConnectionMap)
    (input : Input) (w : World) : Option Populated :=
  match readSaved connectionMap arg.id with
  | none => none
  | some old =>
    match connectionMap, old.block with
    | some cm, some oldBlock =>
      let cm := assocSet cm (jsString input.name) none
      let input := input.connect oldBlock
      let shadowDom :=
        match old.shadow with
        | some oldShadow => oldShadow
        | none => buildShadowDom_ w arg.type
      some ⟨some cm, input.setShadowDom (some shadowDom), w⟩
    | _, _ =>
      let r := attachShadow_ input arg.type w
      some ⟨connectionMap, r.1, r.2⟩

/-- Embedding of `populateArgumentOnDefinition_`. -/
def populateArgumentOnDefinition_ (arg : FunctionParameter)
    (connectionMap : Option ConnectionMap) (input : Input) (w : World) : Option Populated :=
  match readSaved connectionMap arg.id with
  | none => none
  | some old =>
    match connectionMap, old.block with
    | some cm, some oldBlock =>
      let argumentReporter := oldBlock.setFieldValue arg.name "VALUE"
      let cm := assocSet cm (jsString input.name) none
      some ⟨some cm, input.connect argumentReporter, w⟩
    | _, _ =>
      let r := createArgumentReporter_ arg w
      some ⟨connectionMap, input.connect r.1, r.2⟩

/-- Embedding of `populateArgumentOnDeclaration_`. -/
def populateArgumentOnDeclaration_ (arg : FunctionParameter)
    (connectionMap : Option ConnectionMap) (input : Input) (w : World) : Option Populated :=
  match readSaved connectionMap arg.id with
  | none => none
  | some _ =>
    let r := createArgumentEditor_ arg.type arg.name w
    some ⟨connectionMap, input.connect r.1, r.2⟩

/-- The `populateArgument_` entry of the block type's method table. -/
def populateArgument_ (kind : BlockKind) (arg : FunctionParameter)
    (connectionMap : Option ConnectionMap) (input : Input) (w : World) : Option Populated :=
  match kind with
  | .function_call => populateArgumentOnCaller_ arg connectionMap input w
  | .function_definition => populateArgumentOnDefinition_ arg connectionMap input w
  | .function_declaration => populateArgumentOnDeclaration_ arg connectionMap input w

/-- Whether the type is one of the three built-in ones. -/
def isPrimitiveType (type : Option String) : Bool :=
  type = some "boolean" || type = some "string" || type = some "number"

/-- The input name `createAllInputs_` computes for an argument. -/
def inputName (arg : FunctionParameter) : Option String :=
  if arg.type ≠ some "boolean" ∧ arg.type ≠ some "string" ∧ arg.type ≠ some "number" then
    some (jsString arg.id ++ "_" ++ jsString arg.type)
  else arg.id

/-- The check `createAllInputs_` sets on the input of an argument (`none`: no `setCheck`). -/
def checkOfType (type : Option String) : Option String :=
  if type = some "boolean" then some "Boolean"
  else if type = some "string" then some "String"
  else if type = some "number" then some "Number"
  else none

/-- The input `createAllInputs_` appends for an argument, before it is populated. -/
def newArgInput (arg : FunctionParameter) : Input :=
  let input := valueInput (inputName arg)
  match checkOfType arg.type with
  | some check => input.setCheck (some check)
  | none => input

/-- The body of the `forEach` over `arguments_` in `createAllInputs_`, for one argument. -/
def createArgInput (arg : FunctionParameter) (connectionMap : Option ConnectionMap) (st : St) :
    Outcome (Option ConnectionMap) :=
  let input := newArgInput arg
  match populateArgument_ st.block.type arg connectionMap input st.world with
  | none => ⟨none, { st with block := st.block.appendInput input }⟩
  | some p => ⟨some p.connectionMap, ⟨st.block.appendInput p.input, p.world⟩⟩

/-- The `forEach` over `arguments_` in `createAllInputs_`. -/
def createArgInputs : List FunctionParameter → Option ConnectionMap → St →
    Outcome (Option ConnectionMap)
  | [], connectionMap, st => ⟨some connectionMap, st⟩
  | arg :: rest, connectionMap, st =>
    match createArgInput arg connectionMap st with
    | ⟨some connectionMap, st⟩ => createArgInputs rest connectionMap st
    | ⟨none, st⟩ => ⟨none, st⟩

/-- The main label text chosen by the `switch (this.type)` of `createAllInputs_`. -/
def labelText (msg : Msg) : BlockKind → String
  | .function_call => msg.FUNCTIONS_CALL_TITLE
  | .function_definition => msg.PROCEDURES_DEFNORETURN_TITLE
  | .function_declaration => msg.PROCEDURES_DEFNORETURN_TITLE

/-- The title row: `appendDummyInput().appendField(labelText, 'function_title')`. -/
def titleInput (msg : Msg) (kind : BlockKind) : Input :=
  dummyInput "" ⟨"function_title", some (labelText msg kind), false⟩

/-- Embedding of `addLabelEditor_`; the editor shows `text || ''`. -/
def addLabelEditor_ (this : Block) (text : Option String) : Block :=
  this.appendInput (dummyInput "function_name" ⟨"function_name", some (text.getD ""), true⟩)

/-- Embedding of `addLabelField_`. -/
def addLabelField_ (this : Block) (text : Option String) : Block :=
  this.appendInput (dummyInput "function_name" ⟨"function_name", text, false⟩)

/-- The `addFunctionLabel_` entry of the block type's method table. -/
def addFunctionLabel_ (this : Block) (text : Option String) : Block :=
  match this.type with
  | .function_declaration => addLabelEditor_ this text
  | .function_definition => addLabelField_ this text
  | .function_call => addLabelField_ this text

/-- The end of `createAllInputs_`, run when the argument loop completed: the statement input
goes back to the end if the block has statements. -/
def moveStackInput (r : Outcome (Option ConnectionMap)) : Outcome (Option ConnectionMap) :=
  match r with
  | ⟨none, st⟩ => ⟨none, st⟩
  | ⟨some connectionMap, st⟩ =>
    if st.block.hasStatements_ = some true then
      match moveStackToEnd st.block.inputList with
      | some inputList =>
        ⟨some connectionMap, { st with block := { st.block with inputList := inputList } }⟩
      | none => ⟨none, st⟩
    else ⟨some connectionMap, st⟩

/-- Embedding of `createAllInputs_`; the value is the connection map as the populate calls
left it. -/
def createAllInputs_ (connectionMap : Option ConnectionMap) (st : St) :
    Outcome (Option ConnectionMap) :=
  let this := st.block.appendInput (titleInput st.world.msg st.block.type)
  let this := addFunctionLabel_ this st.block.name_
  moveStackInput (createArgInputs st.block.arguments_ connectionMap ⟨this, st.world⟩)

/-- The loop of `deleteShadows_` over the entries of the map. -/
def deleteShadowEntries : ConnectionMap → World → ConnectionMap × World
  | [], w => ([], w)
  | (id, saveInfo) :: rest, w =>
    match saveInfo with
    | some ⟨shadow, some block⟩ =>
      if block.isShadow then
        let r := deleteShadowEntries rest (w.dispose block)
        ((id, none) :: r.1, r.2)
      else
        let r := deleteShadowEntries rest w
        ((id, some ⟨shadow, some block⟩) :: r.1, r.2)
    | other =>
      let r := deleteShadowEntries rest w
      ((id, other) :: r.1, r.2)

/-- Embedding of `deleteShadows_`: the map and the editor state afterwards. -/
def deleteShadows_ (connectionMap : Option ConnectionMap) (w : World) :
    Option ConnectionMap × World :=
  match connectionMap with
  | some cm =>
    let r := deleteShadowEntries cm w
    (some r.1, r.2)
  | none => (none, w)

/-- The end of `updateDisplay_`, run when `createAllInputs_` completed: `deleteShadows_` and
the restoring of `rendered`. `initSvg` and `render` draw the block and change nothing that
is modelled. -/
def finishDisplay (wasRendered : Bool) (r : Outcome (Option ConnectionMap)) : Outcome Unit :=
  match r with
  | ⟨none, st⟩ => ⟨none, st⟩
  | ⟨some connectionMap, st⟩ =>
    let d := deleteShadows_ connectionMap st.world
    ⟨some (), ⟨{ st.block with rendered := wasRendered }, d.2⟩⟩

/-- Embedding of `updateDisplay_`. -/
def updateDisplay_ (st : St) : Outcome Unit :=
  let wasRendered := st.block.rendered
  let this := { st.block with rendered := false }
  let r := disconnectOldBlocks_ this
  let connectionMap := r.1
  let this := removeAllInputs_ r.2
  finishDisplay wasRendered (createAllInputs_ (some connectionMap) ⟨this, st.world⟩)

/-- Embedding of `domToMutation`. A child without `getAttribute` raises the `TypeError`
before anything is assigned; when `xmlElement` itself is not an element the error comes
after `arguments_` was assigned. -/
def domToMutation (xmlElement : Node) (st : St) : Outcome Unit :=
  match readArgs xmlElement.childNodes with
  | none => ⟨none, st⟩
  | some args =>
    let this := { st.block with arguments_ := args }
    if xmlElement.isElement then
      let this := { this with name_ := xmlElement.getAttribute "name" }
      let this := { this with functionId_ := xmlElement.getAttribute "functionid" }
      updateDisplay_ ⟨this, st.world⟩
    else ⟨none, ⟨this, st.world⟩⟩

/-- No argument's `id`, read as a key of the connection map, is the slot key of an argument
before it. Under this condition no populate call finds an entry that an earlier call of the
same rebuild set to `null`. -/
def keysDistinct (args : List FunctionParameter) : Prop :=
  args.Pairwise fun a b => jsString b.id ≠ jsString (inputName a)

/-! ## Creation of synthetic blocks when `newBlock` throws -/

/-- Modelled from the spec: `workspace.newBlock(type)` when it may throw, as Blockly does for a
block type it does not know: `none` stands for the exception, raised before anything
changed. -/
def World.newBlockE (fails : String → Bool) (w : World) (blockType : String) :
    Option (ChildBlock × World) :=
  if fails blockType then none else some (w.newBlock blockType)

/-- Embedding of `attachShadow_` with its `try` and `finally`: the value is the input with the
shadow connected, or `none` when the exception of `newBlock` leaves the function, after
`finally` ran. -/
def attachShadow_E (fails : String → Bool) (input : Input) (argumentType : Option String)
    (w : World) : Option Input × World :=
  let info := getShadowBlockInfoFromType_ argumentType w
  let w := w.disableEvents
  match w.newBlockE fails info.1 with
  | none => (none, w.enableEvents)
  | some r =>
    let newBlock := r.1.setFieldValue (some info.2.2) info.2.1
    let newBlock := newBlock.setShadow true
    (some (input.connect newBlock), r.2.enableEvents)

/-- Embedding of `createArgumentReporter_` with its `try` and `finally`. -/
def createArgumentReporter_E (fails : String → Bool) (arg : FunctionParameter) (w : World) :
    Option ChildBlock × World :=
  let blockType :=
    if arg.type = some "boolean" then "argument_reporter_boolean"
    else if arg.type = some "number" then "argument_reporter_number"
    else if arg.type = some "string" then "argument_reporter_string"
    else "argument_reporter_custom"
  let w := w.disableEvents
  match w.newBlockE fails blockType with
  | none => (none, w.enableEvents)
  | some r =>
    let newBlock := r.1.setShadow true
    let newBlock := newBlock.setFieldValue arg.name "VALUE"
    (some newBlock, r.2.enableEvents)

/-- Embedding of `createArgumentEditor_` with its `try` and `finally`. -/
def createArgumentEditor_E (fails : String → Bool) (argumentType displayName : Option String)
    (w : World) : Option ChildBlock × World :=
  let w := w.disableEvents
  let blockType :=
    if argumentType = some "boolean" then "argument_editor_boolean"
    else if argumentType = some "string" then "argument_editor_string"
    else if argumentType = some "number" then "argument_editor_number"
    else "argument_editor_custom"
  match w.newBlockE fails blockType with
  | none => (none, w.enableEvents)
  | some r =>
    let newBlock := r.1.setFieldValue displayName "TEXT"
    let newBlock := newBlock.setShadow true
    (some newBlock, r.2.enableEvents)

/-! ## Example data -/

/-- An editor state to run the examples in. -/
def exampleWorld : World :=
  { msg := ⟨"call", "function"⟩
    defaultVariableId := "v0"
    nextBlockId := 100
    eventsDisabled := 0
    disposed := []
    fired := [] }

/-- A `function_call` block as its `init` leaves it: empty name, no argument, empty function
id and no input. -/
def freshCall : Block :=
  { type := BlockKind.function_call
    name_ := some ""
    functionId_ := some ""
    arguments_ := []
    hasStatements_ := none
    inputList := []
    rendered := false
    isInsertionMarker := false }

/-- A serialized signature without `functionid` and with an `arg` child without `name`:
`<mutation name="foo"><arg id="a" type="number"/></mutation>`. -/
def malformedMutation : Node :=
  .element "mutation" [("name", "foo")] [.element "arg" [("id", "a"), ("type", "number")] []]

/-- A block holding the signature `foo(x: number, s: Sprite)` of function `F1`. -/
def exampleSource : Block :=
  { freshCall with
    name_ := some "foo"
    functionId_ := some "F1"
    arguments_ := [⟨some "a", some "x", some "number"⟩, ⟨some "b", some "s", some "Sprite"⟩] }

/-- Modelled from the spec: the editor plugging a block into the value input with the given
name ("set node's connected child at slot"), as when the user drops an expression on it.
Only the attachment is modelled, not what happens to the placeholder that was there. -/
def plugIn (this : Block) (name : String) (blk : ChildBlock) : Block :=
  { this with inputList :=
      this.inputList.map fun i => if i.name = some name then i.connect blk else i }

/-- A user-authored (non-shadow) numeric expression. -/
def numberExpression : ChildBlock :=
  ⟨7, "math_arithmetic", false, []⟩

/-- A user-authored (non-shadow) expression of the custom type `Sprite`. -/
def spriteExpression : ChildBlock :=
  ⟨8, "sprites_create", false, []⟩

/-- The argument `s: Sprite` with id `a`. -/
def spriteArg : FunctionParameter :=
  ⟨some "a", some "s", some "Sprite"⟩

/-- A call of `foo(s: Sprite)` after its first rebuild. -/
def spriteCallBuilt : St :=
  (updateDisplay_ ⟨{ freshCall with
    name_ := some "foo", functionId_ := some "F1", arguments_ := [spriteArg] },
    exampleWorld⟩).st

/-- The call of `foo(s: Sprite)` with a user expression plugged into the slot of `s`. -/
def spriteCallFilled : St :=
  ⟨plugIn spriteCallBuilt.block "a_Sprite" spriteExpression, spriteCallBuilt.world⟩

/-- A call of `foo(x: number)`, the argument having id `a`, after its first rebuild. -/
def numberCallBuilt : St :=
  (updateDisplay_ ⟨{ freshCall with
    name_ := some "foo", functionId_ := some "F1",
    arguments_ := [⟨some "a", some "x", some "number"⟩] },
    exampleWorld⟩).st

/-- The call of `foo(x: number)` with a user expression plugged into the slot of `x`. -/
def numberCallFilled : St :=
  ⟨plugIn numberCallBuilt.block "a" numberExpression, numberCallBuilt.world⟩

/-- The filled call after the type of the argument with id `a` changed from `number` to the
custom type `Sprite`, before the display is rebuilt. -/
def numberCallRetyped : St :=
  ⟨{ numberCallFilled.block with arguments_ := [⟨some "a", some "x", some "Sprite"⟩] },
    numberCallFilled.world⟩

/-- A call whose only argument has the id `STACK`, after its first rebuild. -/
def stackCallOnce : St :=
  (updateDisplay_ ⟨{ freshCall with
    name_ := some "foo", functionId_ := some "F1",
    arguments_ := [⟨some "STACK", some "x", some "number"⟩] },
    exampleWorld⟩).st

/-- The same call after a second rebuild with the signature unchanged. -/
def stackCallTwice : St :=
  (updateDisplay_ stackCallOnce).st

/-- A `function_definition` block as its `init` leaves it (`createAllInputs_()` on the empty
signature, then `setStatements_(true)`), holding the signature `foo(x: number, s: Sprite)`. -/
def exampleDefinition : St :=
  ⟨{ setStatements_ (createAllInputs_ none
        ⟨{ freshCall with type := BlockKind.function_definition }, exampleWorld⟩).st.block true with
      name_ := some "foo"
      functionId_ := some "F1"
      arguments_ := [⟨some "a", some "x", some "number"⟩, ⟨some "b", some "s", some "Sprite"⟩] },
    exampleWorld⟩

/-- The built call of `foo(x: number)`, its slot still holding the placeholder, after the
type of the argument with id `a` changed to the custom type `Sprite`. -/
def numberCallBuiltRetyped : St :=
  ⟨{ numberCallBuilt.block with arguments_ := [⟨some "a", some "x", some "Sprite"⟩] },
    numberCallBuilt.world⟩

/-- The example definition after its first rebuild: reporters on the slots `a` and
`b_Sprite`. -/
def definitionBuilt : St :=
  (updateDisplay_ exampleDefinition).st

/-- The built definition after the type of the argument with id `a` changed from `number` to
the custom type `Image`. -/
def definitionRetyped : St :=
  ⟨{ definitionBuilt.block with
      arguments_ := [⟨some "a", some "x", some "Image"⟩, ⟨some "b", some "s", some "Sprite"⟩] },
    definitionBuilt.world⟩

/-- A detached argument reporter of the custom kind, labelled `s`. -/
def spriteReporter : ChildBlock :=
  ⟨9, "argument_reporter_custom", true, [("VALUE", "s")]⟩

/-- The block of a connection map entry if the entry is not `null` and its block is a shadow
block. -/
def shadowBlockOf (e : Option SaveInfo) : Option ChildBlock :=
  match e with
  | some ⟨_, some block⟩ => if block.isShadow then some block else none
  | _ => none

/-- A `function_declaration` block as its `init` leaves it: `createAllInputs_()` on the empty
signature, then `setStatements_(true)`. -/
def freshDeclaration : Block :=
  setStatements_ (createAllInputs_ none
    ⟨{ freshCall with type := BlockKind.function_declaration }, exampleWorld⟩).st.block true

/-- A declaration whose only argument has the id `STACK`, after its first rebuild. -/
def stackDeclarationOnce : St :=
  (updateDisplay_ ⟨{ freshDeclaration with
    name_ := some "foo", functionId_ := some "F1",
    arguments_ := [⟨some "STACK", some "x", some "number"⟩] },
    exampleWorld⟩).st

/-- A declaration of `foo(x: number, s: Sprite)` after its first rebuild. -/
def declarationBuilt : St :=
  (updateDisplay_ ⟨{ freshDeclaration with
    name_ := some "foo", functionId_ := some "F1",
    arguments_ := [⟨some "a", some "x", some "number"⟩, ⟨some "b", some "s", some "Sprite"⟩] },
    exampleWorld⟩).st

/-- The call whose argument has the id `STACK`, with a user expression plugged into its slot
and the argument renamed from `x` to `y`, before the display is rebuilt. -/
def stackCallRenamed : St :=
  ⟨{ plugIn stackCallOnce.block "STACK" numberExpression with
      arguments_ := [⟨some "STACK", some "y", some "number"⟩] },
    stackCallOnce.world⟩

/-- The renamed call after its rebuild, the argument renamed once more, from `y` to `z`,
before the display is rebuilt again. -/
def stackCallRenamedAgain : St :=
  ⟨{ (updateDisplay_ stackCallRenamed).st.block with
      arguments_ := [⟨some "STACK", some "z", some "number"⟩] },
    (updateDisplay_ stackCallRenamed).st.world⟩

/-- The argument editor with identity `n` for an argument: the block that
`createArgumentEditor_` returns when the next block identity is `n`. Its kind follows the
argument's type and its `TEXT` field shows the argument's name. -/
def argumentEditor (n : Nat) (arg : FunctionParameter) : ChildBlock :=
  let blockType :=
    if arg.type = some "boolean" then "argument_editor_boolean"
    else if arg.type = some "string" then "argument_editor_string"
    else if arg.type = some "number" then "argument_editor_number"
    else "argument_editor_custom"
  ((⟨n, blockType, false, initialFields blockType⟩ : ChildBlock).setFieldValue arg.name
    "TEXT").setShadow true

/-! ## Enforcement on change events -/

/-- The event types the handlers tell apart (`Blockly.Events.BLOCK_CREATE`, `BLOCK_DELETE`,
`END_DRAG`); `OTHER` stands for every other type. -/
inductive EventType where
  | BLOCK_CREATE
  | BLOCK_DELETE
  | END_DRAG
  | OTHER
  deriving DecidableEq

/-- The properties of a change event that the handlers read. -/
structure Event where
  type : EventType
  group : String
  ids : List String
  allNestedIds : List String

/-- The workspace of a block: whether it is a flyout, and the blocks in it. -/
structure Workspace where
  isFlyout : Bool
  blocks : List Block

/-- The root block of an argument reporter (`getRootBlock()`): a declaration, definition or
call block, or a block of another type, of which the type and the shadow flag are kept. -/
inductive Root where
  | function (b : Block)
  | other (type : String) (isShadow : Bool)

/-- The helpers and constants the handlers and the declaration editing use that are defined
outside `functions.js`: `Blockly.Functions.getDefinition`, `isShadowArgumentReporter`,
`isReporterOfType` and `findUniqueParamName`, `String.prototype.localeCompare`,
`Blockly.SNAP_RADIUS` and `Blockly.Msg.FUNCTIONS_DEFAULT_BOOLEAN_ARG_NAME`. Coordinates are
taken to be integers. -/
structure Env where
  getDefinition : Option String → Workspace → Option Block
  isShadowArgumentReporter : Root → Bool
  isReporterOfType : Option String → String → Bool
  findUniqueParamName : String → List (Option String) → String
  localeCompare : String → String → Int
  SNAP_RADIUS : Int
  FUNCTIONS_DEFAULT_BOOLEAN_ARG_NAME : String

/-- A change a handler makes through a helper defined elsewhere:
`Blockly.Functions.mutateCallersAndDefinition(name, workspace, mutation)`,
`Blockly.Xml.domToWorkspace(xml, workspace)` and `block.dispose(healStack, ..)` on the block
with the given id. -/
inductive Change where
  | mutateCallersAndDefinition (name : Option String) (mutation : Node)
  | domToWorkspace (xml : Node)
  | dispose (blockId : String) (healStack : Bool)

/-- The editor as the handlers see it: the ambient event group (`Blockly.Events.getGroup()`),
the names `getDefinition` was asked for, and the changes made, each with the ambient group at
the time it was made. -/
structure Editor where
  group : String
  lookups : List (Option String)
  changes : List (String × Change)

/-- Modelled from the spec: `Blockly.Events.setGroup(state)` with a string, which sets the
ambient "current group id"; `setGroup(false)` is `setGroup ""`. -/
def Editor.setGroup (ed : Editor) (state : String) : Editor :=
  { ed with group := state }

/-- A change made under the ambient group. -/
def Editor.change (ed : Editor) (c : Change) : Editor :=
  { ed with changes := ed.changes ++ [(ed.group, c)] }

/-- A call of `getDefinition` for the given name. -/
def Editor.lookup (ed : Editor) (name : Option String) : Editor :=
  { ed with lookups := ed.lookups ++ [name] }

/-- A `function_call` block as `onCallerChange` sees it: the signature-holding state, the
block id, the workspace (`none` after disposal), the `RTL` flag and the position returned by
`getRelativeToSurfaceXY()`. -/
structure Caller where
  block : Block
  id : String
  workspace : Option Workspace
  RTL : Bool
  x : Int
  y : Int

/-- An argument reporter as `onReporterChange` sees it: block id, block type, workspace, the
value of its `VALUE` field and its root block. -/
structure Reporter where
  id : String
  type : String
  workspace : Option Workspace
  value : Option String
  root : Root

/-- The loop of `hasArgument` from a given argument on. -/
def hasArgumentFrom (env : Env) (argName : Option String) (reporterType : String) :
    List FunctionParameter → Bool
  | [] => false
  | a :: rest =>
    if a.name = argName ∧ env.isReporterOfType a.type reporterType = true then true
    else hasArgumentFrom env argName reporterType rest

/-- Embedding of `hasArgument`: the returned boolean and the block afterwards. -/
def hasArgument (env : Env) (this : Block) (argName : Option String) (reporterType : String) :
    Bool × Block :=
  (hasArgumentFrom env argName reporterType this.arguments_, this)

/-- The copy-and-sort `args.slice(); args.sort((a, b) => a.name.localeCompare(b.name))`. A
list of fewer than two arguments is returned as it is, the comparator never being called.
The comparator raises a `TypeError` when the name it is called on is `null`; which arguments
it is called on is up to the engine, so a longer list with a `null` name is taken to raise
(`none`). Otherwise the result is the stable sort, which is what `sort` returns for a
consistent comparator. -/
def sortByName (env : Env) (args : List FunctionParameter) : Option (List FunctionParameter) :=
  if args.length < 2 then some args
  else if args.all (fun a => a.name.isSome) then
    some (args.insertionSort fun a b => env.localeCompare (jsString a.name) (jsString b.name) ≤ 0)
  else none

/-- The `xml` element `onCallerChange` hands to `domToWorkspace` when it creates a definition
for the call. -/
def definitionXml (env : Env) (this : Caller) : Node :=
  let xml := createElement "xml"
  let block := createElement "block"
  let block := block.setAttribute "type" "function_definition"
  let x := this.x + env.SNAP_RADIUS * (if this.RTL then -1 else 1)
  let y := this.y + env.SNAP_RADIUS * 2
  let block := block.setAttribute "x" (toString x)
  let block := block.setAttribute "y" (toString y)
  let mutation := mutationToDom this.block
  let block := block.appendChild mutation
  xml.appendChild block

/-- Embedding of `onCallerChange`: the editor afterwards, or `none` when the comparator of
`sort` raised a `TypeError`. `JSON.stringify(thisArgs) !== JSON.stringify(defArgs)` holds
exactly when the two lists of `id`, `name`, `type` records differ, all records being built
with the properties in this order. -/
def onCallerChange (env : Env) (this : Caller) (event : Event) (ed : Editor) : Option Editor :=
  match this.workspace with
  | none => some ed
  | some workspace =>
    if workspace.isFlyout then some ed
    else if event.type = EventType.BLOCK_CREATE ∧ this.id ∈ event.ids then
      let name := this.block.name_
      let ed := ed.lookup name
      match env.getDefinition name workspace with
      | some definition =>
        match sortByName env definition.arguments_, sortByName env this.block.arguments_ with
        | some defArgs, some thisArgs =>
          if thisArgs ≠ defArgs then
            some (ed.change
              (Change.mutateCallersAndDefinition definition.name_ (mutationToDom definition)))
          else some ed
        | _, _ => none
      | none =>
        let ed := ed.setGroup event.group
        let ed := ed.change (Change.domToWorkspace (definitionXml env this))
        some (ed.setGroup "")
    else if event.type = EventType.BLOCK_DELETE then
      let name := this.block.name_
      let ed := ed.lookup name
      match env.getDefinition name workspace with
      | some _ => some ed
      | none =>
        let ed := ed.setGroup event.group
        let ed := ed.change (Change.dispose this.id true)
        some (ed.setGroup "")
    else some ed

/-- Whether the root block is of type `function_definition`. -/
def Root.isDefinition : Root → Bool
  | .function b => b.type = BlockKind.function_definition
  | .other _ _ => false

/-- The call `rootBlock.hasArgument(argName, reporterType)` on a root block that is a
definition. -/
def Root.hasArgument (env : Env) (root : Root) (argName : Option String)
    (reporterType : String) : Bool :=
  match root with
  | .function b => (FunctionUtils.hasArgument env b argName reporterType).1
  | .other _ _ => false

/-- Embedding of `onReporterChange`. -/
def onReporterChange (env : Env) (this : Reporter) (event : Event) (ed : Editor) : Editor :=
  match this.workspace with
  | none => ed
  | some workspace =>
    if workspace.isFlyout then ed
    else
      let thisWasCreated := event.type = EventType.BLOCK_CREATE ∧ this.id ∈ event.ids
      let thisWasDragged := event.type = EventType.END_DRAG ∧ this.id ∈ event.allNestedIds
      if thisWasCreated ∨ thisWasDragged then
        let rootBlock := this.root
        let thisArgName := this.value
        if env.isShadowArgumentReporter rootBlock = false ∧
            (rootBlock.isDefinition = false ∨
              rootBlock.hasArgument env thisArgName this.type = false) then
          let ed := ed.setGroup event.group
          let ed := ed.change (Change.dispose this.id false)
          ed.setGroup ""
        else ed
      else ed

/-! ## Example data for the handlers -/

/-- Modelled from the spec: stand-ins for the helpers of `Env`, to run the examples with.
`getDefinition` finds the first definition block of the workspace with the given name, a
shadow argument reporter is a shadow block of one of the four reporter types, and a reporter
type fits an argument type when it is the reporter type `createArgumentReporter_` chooses for
it. -/
def exampleEnv : Env :=
  { getDefinition := fun name ws =>
      ws.blocks.find? fun b => b.type = BlockKind.function_definition ∧ b.name_ = name
    isShadowArgumentReporter := fun r =>
      match r with
      | .other t sh => sh && (t = "argument_reporter_boolean" || t = "argument_reporter_number"
          || t = "argument_reporter_string" || t = "argument_reporter_custom")
      | .function _ => false
    isReporterOfType := fun argType reporterType =>
      reporterType = (if argType = some "boolean" then "argument_reporter_boolean"
        else if argType = some "number" then "argument_reporter_number"
        else if argType = some "string" then "argument_reporter_string"
        else "argument_reporter_custom")
    findUniqueParamName := fun defaultName names =>
      if some defaultName ∈ names then defaultName ++ "2" else defaultName
    localeCompare := fun a b => if a < b then -1 else if a = b then 0 else 1
    SNAP_RADIUS := 48
    FUNCTIONS_DEFAULT_BOOLEAN_ARG_NAME := "bool" }

/-- The editor before a handler runs: some ambient group `g0`, nothing looked up or changed. -/
def exampleEditor : Editor :=
  { group := "g0", lookups := [], changes := [] }

/-- A definition of `foo(x: number)` for function `F1`, the argument having id `a`. -/
def fooDefinition : Block :=
  { freshCall with
    type := BlockKind.function_definition
    name_ := some "foo"
    functionId_ := some "F1"
    arguments_ := [⟨some "a", some "x", some "number"⟩] }

/-- A workspace that is not a flyout and holds the definition of `foo`. -/
def fooWorkspace : Workspace :=
  { isFlyout := false, blocks := [fooDefinition] }

/-- A workspace that is not a flyout and holds no block. -/
def emptyWorkspace : Workspace :=
  { isFlyout := false, blocks := [] }

/-- A flyout workspace that holds no block. -/
def flyoutWorkspace : Workspace :=
  { isFlyout := true, blocks := [] }

/-- A call with the given name, function id and arguments, with block id `c1`, at position
`(10, 20)` in the given workspace. -/
def exampleCaller (name functionId : String) (args : List FunctionParameter)
    (ws : Option Workspace) : Caller :=
  { block := { freshCall with
      name_ := some name, functionId_ := some functionId, arguments_ := args }
    id := "c1"
    workspace := ws
    RTL := false
    x := 10
    y := 20 }

/-- The creation event of the block `c1`, in group `g1`. -/
def createEvent : Event :=
  { type := EventType.BLOCK_CREATE, group := "g1", ids := ["c1"], allNestedIds := [] }

/-- A deletion event in group `g1`. -/
def deleteEvent : Event :=
  { type := EventType.BLOCK_DELETE, group := "g1", ids := ["d1"], allNestedIds := [] }

/-- A number reporter labelled `x` with block id `c1` on the given root, in a workspace that
is not a flyout. -/
def exampleReporter (root : Root) (ws : Option Workspace) : Reporter :=
  { id := "c1", type := "argument_reporter_number", workspace := ws, value := some "x",
    root := root }

/-- What is observed of the editor in the examples: the ambient group, the names looked up,
and the group of every change made with its kind (`mutate`, `insert` or `dispose`). -/
def Editor.summary (ed : Editor) : String × List (Option String) × List (String × String) :=
  (ed.group, ed.lookups, ed.changes.map fun c =>
    (c.1, match c.2 with
      | .mutateCallersAndDefinition _ _ => "mutate"
      | .domToWorkspace _ => "insert"
      | .dispose _ _ => "dispose"))

/-! ## Editing the declaration -/

/-- Embedding of `focusLastEditor_`: `none` when a `TypeError` is raised, which happens when
the list has a single input, when the row or the editor block has no field to open, and when
a value input holds no block. Centering the view and opening the field editor change
nothing that is modelled. -/
def focusLastEditor_ (this : Block) : Option Unit :=
  if this.inputList.length > 0 then
    if this.inputList.length < 2 then none
    else
      match this.inputList.get? (this.inputList.length - 2) with
      | none => none
      | some newInput =>
        if newInput.type = InputType.DUMMY_INPUT then
          match newInput.fieldRow with
          | _ :: _ => some ()
          | [] => none
        else if newInput.type = InputType.INPUT_VALUE then
          match newInput.targetBlock with
          | some target => if (target.fields.lookup "TEXT").isSome then some () else none
          | none => none
        else some ()
  else some ()

/-- Embedding of `addParam_`; `uid` is the value `Blockly.utils.genUid()` returns in this
call. Hiding the widget div changes nothing that is modelled. -/
def addParam_ (env : Env) (uid : String) (typeName defaultName : String) (st : St) :
    Outcome Unit :=
  let argName := env.findUniqueParamName defaultName (st.block.arguments_.map fun a => a.name)
  let this := { st.block with
    arguments_ := st.block.arguments_ ++ [⟨some uid, some argName, some typeName⟩] }
  match updateDisplay_ ⟨this, st.world⟩ with
  | ⟨some _, st1⟩ => ⟨focusLastEditor_ st1.block, st1⟩
  | ⟨none, st1⟩ => ⟨none, st1⟩

/-- Embedding of `addBooleanExternal`. -/
def addBooleanExternal (env : Env) (uid : String) (st : St) : Outcome Unit :=
  addParam_ env uid "boolean" env.FUNCTIONS_DEFAULT_BOOLEAN_ARG_NAME st

/-- The call `s.substr(start)`, a character being a UTF-16 code unit; exact for strings
without characters outside the Basic Multilingual Plane. -/
def substr (s : String) (start : Nat) : String :=
  String.mk (s.data.drop start)

/-- The call `s.substr(start, length)`, under the same reading of a character. -/
def substrLength (s : String) (start length : Nat) : String :=
  String.mk ((s.data.drop start).take length)

/-- The loop of `updateDeclarationMutation_` from a given input on: whether it completed
(`none`: a `TypeError` was raised) and the block as it leaves it. -/
def readDeclarationInputs : List Input → Block → Option Unit × Block
  | [], this => (some (), this)
  | input :: rest, this =>
    match input.type with
    | .NEXT_STATEMENT => readDeclarationInputs rest this
    | .DUMMY_INPUT =>
      match input.fieldRow with
      | field :: _ => readDeclarationInputs rest { this with name_ := field.text }
      | [] => (none, this)
    | .INPUT_VALUE =>
      match input.targetBlock with
      | none => (none, this)
      | some target =>
        if target.type = "argument_editor_custom" then
          match input.name with
          | none => (none, this)
          | some name =>
            readDeclarationInputs rest { this with
              arguments_ := this.arguments_ ++
                [⟨some (substrLength name 0 20), target.getFieldValue "TEXT",
                  some (substr name 21)⟩] }
        else
          let typeName :=
            if target.type = "argument_editor_boolean" then "boolean"
            else if target.type = "argument_editor_string" then "string"
            else if target.type = "argument_editor_number" then "number"
            else ""
          readDeclarationInputs rest { this with
            arguments_ := this.arguments_ ++
              [⟨input.name, target.getFieldValue "TEXT", some typeName⟩] }

/-- Embedding of `updateDeclarationMutation_`, which is also the `updateFunctionSignature` of
the declaration block. -/
def updateDeclarationMutation_ (this : Block) : Option Unit × Block :=
  readDeclarationInputs (this.inputList.drop 1) { this with arguments_ := [] }

/-- A field object, told from every other by the block it sits on (`none`: a row of the
declaration block itself) and its name there. -/
structure FieldRef where
  owner : Option Nat
  name : String

/-- The test of `removeFieldCallback` on one input: `target.getField(field.name) === field`
on an input with a connection that holds a block, and `input.fieldRow[j] == field` for some
`j` on an input without connection. -/
def fieldOnInput (field : FieldRef) (input : Input) : Bool :=
  match input.connection with
  | some c =>
    match c.targetBlock with
    | none => false
    | some target => field.owner = some target.id && (target.fields.lookup field.name).isSome
  | none => field.owner = none && input.fieldRow.any fun f => f.name = field.name

/-- Whether a JavaScript value that is a string or `null` is truthy. -/
def isTruthy : Option String → Bool
  | some s => s ≠ ""
  | none => false

/-- The search loop of `removeFieldCallback` from a given input on, `inputNameToRemove` being
the value found so far. -/
def findInputName (field : FieldRef) : List Input → Option String → Option String
  | [], inputNameToRemove => inputNameToRemove
  | input :: rest, inputNameToRemove =>
    if isTruthy inputNameToRemove then inputNameToRemove
    else findInputName field rest
      (if fieldOnInput field input then input.name else inputNameToRemove)

/-- Modelled from the spec: `removeInput(name)`: the first input with that name leaves the
list and a shadow block attached to it is disposed; `none` when there is no such input,
where Blockly raises an error. -/
def removeInput (name : String) : List Input → World → Option (List Input × World)
  | [], _ => none
  | input :: rest, w =>
    if input.name = some name then
      match input.targetBlock with
      | some block => some (rest, if block.isShadow then w.dispose block else w)
      | none => some (rest, w)
    else (removeInput name rest w).map fun r => (input :: r.1, r.2)

/-- Embedding of `removeFieldCallback`. -/
def removeFieldCallback (field : FieldRef) (st : St) : Outcome Unit :=
  let inputNameToRemove := findInputName field st.block.inputList none
  match inputNameToRemove with
  | some name =>
    if name ≠ "" then
      match removeInput name st.block.inputList st.world with
      | none => ⟨none, st⟩
      | some r =>
        match updateDeclarationMutation_ { st.block with inputList := r.1 } with
        | (none, this) => ⟨none, ⟨this, r.2⟩⟩
        | (some _, this) => updateDisplay_ ⟨this, r.2⟩
    else ⟨some (), st⟩
  | none => ⟨some (), st⟩

/-- The value input of an argument holding the argument editor with identity `m`: what the
argument loop of `createAllInputs_` appends for the argument on a declaration when the next
block identity is `m`. -/
def editorInput (m : Nat) (a : FunctionParameter) : Input :=
  (newArgInput a).connect (argumentEditor m a)

/-- A declaration of `foo(x: number, s: Sprite)` whose custom-typed argument has an id of 20
characters, after its first rebuild. -/
def declarationLongId : St :=
  (updateDisplay_ ⟨{ freshDeclaration with
    name_ := some "foo", functionId_ := some "F1",
    arguments_ := [⟨some "a", some "x", some "number"⟩,
      ⟨some "abcdefghijklmnopqrst", some "s", some "Sprite"⟩] },
    exampleWorld⟩).st

/-! ## Observations used in the statements -/

/-- The slot layout of a block: type, name and type check of every input, in order. -/
def slotLayout (this : Block) : List (InputType × Option String × Option String) :=
  this.inputList.map fun i => (i.type, i.name, i.check)

/-- The parameter slots of a block: name and type check of every value input, in order. -/
def valueSlots (this : Block) : List (Option String × Option String) :=
  (this.inputList.filter fun i => i.type = InputType.INPUT_VALUE).map fun i => (i.name, i.check)

/-- For every input, its name and the identity of the block plugged into it. -/
def attachments (this : Block) : List (Option String × Option Nat) :=
  this.inputList.map fun i => (i.name, i.targetBlock.map ChildBlock.id)

/-! ## Serialisation: lemmas -/

theorem jsString_some (s : String) : jsString (some s) = s := rfl

theorem argNode_eq (arg : FunctionParameter) :
    argNode arg = .element "arg"
      [("name", jsString arg.name), ("id", jsString arg.id), ("type", jsString arg.type)] [] := by
  simp [argNode, createElement, Node.setAttribute, setAttr, assocSet]

theorem foldl_appendArgNode (args : List FunctionParameter) (t : String)
    (as : List (String × String)) (cs : List Node) :
    args.foldl appendArgNode (.element t as cs) = .element t as (cs ++ args.map argNode) := by
  induction args generalizing cs with
  | nil => simp
  | cons a rest ih => simp [List.foldl, appendArgNode, Node.appendChild, ih]

theorem mutationToDom_eq (this : Block) :
    mutationToDom this = .element "mutation"
      [("name", jsString this.name_), ("functionid", jsString this.functionId_)]
      (this.arguments_.map argNode) := by
  simp [mutationToDom, createElement, Node.setAttribute, setAttr, assocSet, foldl_appendArgNode]

theorem argOfNode_argNode (arg : FunctionParameter) :
    argOfNode (argNode arg)
      = ⟨some (jsString arg.id), some (jsString arg.name), some (jsString arg.type)⟩ := by
  simp [argNode_eq, argOfNode, Node.getAttribute, List.lookup]

theorem readArgs_map_argNode (args : List FunctionParameter) :
    readArgs (args.map argNode) = some (args.map fun a =>
      ⟨some (jsString a.id), some (jsString a.name), some (jsString a.type)⟩) := by
  have h : (args.map argNode).all Node.isElement = true := by
    simp [List.all_eq_true, argNode_eq, Node.isElement]
  simp [readArgs, h, argOfNode_argNode]

/-! ## Display reconciler: what a rebuild changes -/

theorem Input.connect_type (input : Input) (blk : ChildBlock) :
    (input.connect blk).type = input.type := by
  obtain ⟨t, n, c, f⟩ := input
  cases c <;> rfl

theorem Input.connect_name (input : Input) (blk : ChildBlock) :
    (input.connect blk).name = input.name := by
  obtain ⟨t, n, c, f⟩ := input
  cases c <;> rfl

theorem Input.connect_check (input : Input) (blk : ChildBlock) :
    (input.connect blk).check = input.check := by
  obtain ⟨t, n, c, f⟩ := input
  cases c <;> rfl

theorem Input.setShadowDom_type (input : Input) (dom : Option Node) :
    (input.setShadowDom dom).type = input.type := by
  obtain ⟨t, n, c, f⟩ := input
  cases c <;> rfl

theorem Input.setShadowDom_name (input : Input) (dom : Option Node) :
    (input.setShadowDom dom).name = input.name := by
  obtain ⟨t, n, c, f⟩ := input
  cases c <;> rfl

theorem Input.setShadowDom_check (input : Input) (dom : Option Node) :
    (input.setShadowDom dom).check = input.check := by
  obtain ⟨t, n, c, f⟩ := input
  cases c <;> rfl

theorem newArgInput_type (arg : FunctionParameter) :
    (newArgInput arg).type = InputType.INPUT_VALUE := by
  unfold newArgInput
  cases checkOfType arg.type <;> rfl

theorem newArgInput_name (arg : FunctionParameter) :
    (newArgInput arg).name = inputName arg := by
  unfold newArgInput
  cases checkOfType arg.type <;> rfl

theorem newArgInput_check (arg : FunctionParameter) :
    (newArgInput arg).check = checkOfType arg.type := by
  unfold newArgInput
  cases h : checkOfType arg.type <;> rfl

/-- A populate call leaves type, name and type check of the input as they were. -/
theorem populateArgument_input (kind : BlockKind) (arg : FunctionParameter)
    (cm : Option ConnectionMap) (input : Input) (w : World) (p : Populated)
    (h : populateArgument_ kind arg cm input w = some p) :
    p.input.type = input.type ∧ p.input.name = input.name ∧ p.input.check = input.check := by
  cases kind
  · -- declaration
    simp only [populateArgument_, populateArgumentOnDeclaration_] at h
    cases hr : readSaved cm arg.id with
    | none => simp [hr] at h
    | some old =>
      simp only [hr, Option.some.injEq] at h
      subst h
      simp [Input.connect_type, Input.connect_name, Input.connect_check]
  · -- definition
    simp only [populateArgument_, populateArgumentOnDefinition_] at h
    cases hr : readSaved cm arg.id with
    | none => simp [hr] at h
    | some old =>
      simp only [hr] at h
      split at h <;>
      · simp only [Option.some.injEq] at h
        subst h
        simp [Input.connect_type, Input.connect_name, Input.connect_check]
  · -- call
    simp only [populateArgument_, populateArgumentOnCaller_] at h
    cases hr : readSaved cm arg.id with
    | none => simp [hr] at h
    | some old =>
      simp only [hr] at h
      split at h <;>
      · simp only [Option.some.injEq] at h
        subst h
        simp [attachShadow_, Input.connect_type, Input.connect_name, Input.connect_check,
          Input.setShadowDom_type, Input.setShadowDom_name, Input.setShadowDom_check]

/-- One round of the argument loop appends one value input with the argument's slot key and
type check, and changes nothing else on the block. -/
theorem createArgInput_block (arg : FunctionParameter) (cm : Option ConnectionMap) (st : St) :
    ∃ i : Input, i.type = InputType.INPUT_VALUE ∧ i.name = inputName arg ∧
      i.check = checkOfType arg.type ∧
      (createArgInput arg cm st).st.block = st.block.appendInput i := by
  cases h : populateArgument_ st.block.type arg cm (newArgInput arg) st.world with
  | none =>
    exact ⟨newArgInput arg, newArgInput_type arg, newArgInput_name arg, newArgInput_check arg,
      by simp [createArgInput, h]⟩
  | some p =>
    obtain ⟨h1, h2, h3⟩ := populateArgument_input _ _ _ _ _ _ h
    exact ⟨p.input, by rw [h1, newArgInput_type], by rw [h2, newArgInput_name],
      by rw [h3, newArgInput_check], by simp [createArgInput, h]⟩

/-- The argument loop appends value inputs and changes nothing else on the block; when it
completes, the appended inputs are those of the arguments, in order. -/
theorem createArgInputs_block (args : List FunctionParameter) :
    ∀ (cm : Option ConnectionMap) (st : St), ∃ l : List Input,
      (createArgInputs args cm st).st.block
        = { st.block with inputList := st.block.inputList ++ l } ∧
      (∀ i ∈ l, i.type = InputType.INPUT_VALUE) ∧
      ((createArgInputs args cm st).value.isSome →
        l.map (fun i => (i.name, i.check))
          = args.map fun a => (inputName a, checkOfType a.type)) := by
  induction args with
  | nil =>
    intro cm st
    exact ⟨[], by simp [createArgInputs], by simp, by simp⟩
  | cons a rest ih =>
    intro cm st
    obtain ⟨i, hi1, hi2, hi3, hi4⟩ := createArgInput_block a cm st
    rcases hc : createArgInput a cm st with ⟨v, st1⟩
    rw [hc] at hi4
    simp only at hi4
    cases v with
    | none =>
      refine ⟨[i], ?_, ?_, ?_⟩
      · simp [createArgInputs, hc, hi4, Block.appendInput]
      · simp [hi1]
      · simp [createArgInputs, hc]
    | some cm1 =>
      obtain ⟨l, hl1, hl2, hl3⟩ := ih cm1 st1
      refine ⟨i :: l, ?_, ?_, ?_⟩
      · simp [createArgInputs, hc, hl1, hi4, Block.appendInput]
      · intro j hj
        rcases List.mem_cons.1 hj with rfl | hj
        · exact hi1
        · exact hl2 j hj
      · intro hv
        simp only [createArgInputs, hc] at hv
        simp [hl3 hv, hi2, hi3]

theorem addFunctionLabel_eq (this : Block) (text : Option String) :
    ∃ f : Input, f.type = InputType.DUMMY_INPUT ∧ f.name = some "function_name" ∧
      f.check = none ∧ addFunctionLabel_ this text = this.appendInput f := by
  unfold addFunctionLabel_
  cases this.type
  · exact ⟨dummyInput "function_name" ⟨"function_name", some (text.getD ""), true⟩,
      rfl, rfl, rfl, rfl⟩
  · exact ⟨dummyInput "function_name" ⟨"function_name", text, false⟩, rfl, rfl, rfl, rfl⟩
  · exact ⟨dummyInput "function_name" ⟨"function_name", text, false⟩, rfl, rfl, rfl, rfl⟩

/-- The input list `createAllInputs_` builds before the statement input is moved: what was
there, the title row, the name row `f` and the argument inputs `l`. -/
theorem createAllInputs_ok (cm : Option ConnectionMap) (st : St) (cm1 : Option ConnectionMap)
    (h : (createAllInputs_ cm st).value = some cm1) :
    ∃ (f : Input) (l final : List Input),
      f.type = InputType.DUMMY_INPUT ∧ f.name = some "function_name" ∧ f.check = none ∧
      (∀ i ∈ l, i.type = InputType.INPUT_VALUE) ∧
      l.map (fun i => (i.name, i.check))
        = st.block.arguments_.map (fun a => (inputName a, checkOfType a.type)) ∧
      (createAllInputs_ cm st).st.block = { st.block with inputList := final } ∧
      (if st.block.hasStatements_ = some true then
        moveStackToEnd
          (st.block.inputList ++ titleInput st.world.msg st.block.type :: f :: l) = some final
       else final = st.block.inputList ++ titleInput st.world.msg st.block.type :: f :: l) := by
  obtain ⟨f, hf1, hf2, hfc, hf3⟩ := addFunctionLabel_eq
    (st.block.appendInput (titleInput st.world.msg st.block.type)) st.block.name_
  obtain ⟨l, hl1, hl2, hl3⟩ := createArgInputs_block st.block.arguments_ cm
    ⟨addFunctionLabel_ (st.block.appendInput (titleInput st.world.msg st.block.type))
      st.block.name_, st.world⟩
  rcases hc : createArgInputs st.block.arguments_ cm
    ⟨addFunctionLabel_ (st.block.appendInput (titleInput st.world.msg st.block.type))
      st.block.name_, st.world⟩ with ⟨v, st1⟩
  rw [hc] at hl1 hl3
  simp only at hl1 hl3
  have hcr : createAllInputs_ cm st = moveStackInput ⟨v, st1⟩ := by
    rw [← hc]; rfl
  cases v with
  | none => simp [hcr, moveStackInput] at h
  | some cm2 =>
    simp only [hcr, moveStackInput] at h ⊢
    have hst1 : st1.block = { st.block with
        inputList := st.block.inputList ++ titleInput st.world.msg st.block.type :: f :: l } := by
      rw [hl1, hf3]; simp [Block.appendInput]
    have hhs : st1.block.hasStatements_ = st.block.hasStatements_ := by rw [hst1]
    have hil : st1.block.inputList
        = st.block.inputList ++ titleInput st.world.msg st.block.type :: f :: l := by rw [hst1]
    by_cases hs : st.block.hasStatements_ = some true
    · rw [if_pos (hhs.trans hs)] at h ⊢
      cases hm : moveStackToEnd st1.block.inputList with
      | none => simp [hm] at h
      | some moved =>
        refine ⟨f, l, moved, hf1, hf2, hfc, hl2, hl3 rfl, ?_, ?_⟩
        · simp [hst1]
        · rw [if_pos hs, ← hil, hm]
    · rw [if_neg (fun hh => hs (hhs.symm.trans hh))] at h ⊢
      refine ⟨f, l, st.block.inputList ++ titleInput st.world.msg st.block.type :: f :: l,
        hf1, hf2, hfc, hl2, hl3 rfl, ?_, ?_⟩
      · exact hst1
      · rw [if_neg hs]

/-- In every outcome `createAllInputs_` changes nothing on the block but its input list. -/
theorem createAllInputs_frame (cm : Option ConnectionMap) (st : St) :
    ∃ l : List Input, (createAllInputs_ cm st).st.block = { st.block with inputList := l } := by
  obtain ⟨f, _, _, _, hf3⟩ := addFunctionLabel_eq
    (st.block.appendInput (titleInput st.world.msg st.block.type)) st.block.name_
  obtain ⟨l, hl1, _, _⟩ := createArgInputs_block st.block.arguments_ cm
    ⟨addFunctionLabel_ (st.block.appendInput (titleInput st.world.msg st.block.type))
      st.block.name_, st.world⟩
  rcases hc : createArgInputs st.block.arguments_ cm
    ⟨addFunctionLabel_ (st.block.appendInput (titleInput st.world.msg st.block.type))
      st.block.name_, st.world⟩ with ⟨v, st1⟩
  rw [hc] at hl1
  simp only at hl1
  have hst1 : st1.block = { st.block with
      inputList := st.block.inputList ++ titleInput st.world.msg st.block.type :: f :: l } := by
    rw [hl1, hf3]; simp [Block.appendInput]
  have hcr : createAllInputs_ cm st = moveStackInput ⟨v, st1⟩ := by
    rw [← hc]; rfl
  rw [hcr]
  cases v with
  | none => exact ⟨_, hst1⟩
  | some cm2 =>
    simp only [moveStackInput]
    split
    · split
      · rename_i moved _
        exact ⟨moved, by simp [hst1]⟩
      · exact ⟨_, hst1⟩
    · exact ⟨_, hst1⟩

/-- Disconnecting changes no input name, so the statement input found afterwards is the one
found before. -/
theorem findStackInput_disconnectInputs (xs : List Input) :
    ∀ (cm : ConnectionMap) (acc : Option Input),
      (disconnectInputs xs cm).2.foldl
          (fun stackInput input => if input.name = some "STACK" then some input else stackInput) acc
        = xs.foldl
          (fun stackInput input => if input.name = some "STACK" then some input else stackInput)
          acc := by
  induction xs with
  | nil => intro cm acc; rfl
  | cons x rest ih =>
    intro cm acc
    cases hc : x.connection with
    | none => simp [disconnectInputs, hc, ih]
    | some c =>
      by_cases hn : x.name = some "STACK"
      · simp [disconnectInputs, hc, hn, ih]
      · simp [disconnectInputs, hc, hn, ih]

/-- The input list left by the Disconnect and Clear phases: the last input named `STACK`, if
there is one. -/
theorem removeAllInputs_disconnectOldBlocks (this : Block) :
    removeAllInputs_ (disconnectOldBlocks_ this).2
      = { this with inputList := (removeAllInputs_ this).inputList } := by
  simp [removeAllInputs_, disconnectOldBlocks_, findStackInput, findStackInput_disconnectInputs]

/-- In every outcome `updateDisplay_` changes nothing on the block but its input list and
`rendered`. -/
theorem updateDisplay_frame (st : St) :
    ∃ (l : List Input) (rd : Bool),
      (updateDisplay_ st).st.block = { st.block with inputList := l, rendered := rd } := by
  obtain ⟨l, hl⟩ := createAllInputs_frame
    (some (disconnectOldBlocks_ { st.block with rendered := false }).1)
    ⟨removeAllInputs_ (disconnectOldBlocks_ { st.block with rendered := false }).2, st.world⟩
  rcases hc : createAllInputs_
    (some (disconnectOldBlocks_ { st.block with rendered := false }).1)
    ⟨removeAllInputs_ (disconnectOldBlocks_ { st.block with rendered := false }).2, st.world⟩
    with ⟨v, st1⟩
  rw [hc] at hl
  simp only [removeAllInputs_disconnectOldBlocks] at hl
  have hu : updateDisplay_ st = finishDisplay st.block.rendered ⟨v, st1⟩ := by
    rw [← hc]; rfl
  rw [hu]
  cases v with
  | none => exact ⟨l, false, by simp [finishDisplay, hl]⟩
  | some cm1 => exact ⟨l, st.block.rendered, by simp [finishDisplay, hl]⟩

/-- The signature of the block is the same after `updateDisplay_`, in every outcome. -/
theorem updateDisplay_signature (st : St) :
    (updateDisplay_ st).st.block.signature = st.block.signature := by
  obtain ⟨l, rd, h⟩ := updateDisplay_frame st
  rw [h]; rfl

/-- The input list after a completed `updateDisplay_`: the statement input kept by the Clear
phase, the title row, the name row `f` and the argument inputs `l`, with the statement
input moved to the end if the block has statements. -/
theorem updateDisplay_ok (st : St) (h : (updateDisplay_ st).value = some ()) :
    ∃ (f : Input) (l final : List Input),
      f.type = InputType.DUMMY_INPUT ∧ f.name = some "function_name" ∧ f.check = none ∧
      (∀ i ∈ l, i.type = InputType.INPUT_VALUE) ∧
      l.map (fun i => (i.name, i.check))
        = st.block.arguments_.map (fun a => (inputName a, checkOfType a.type)) ∧
      (updateDisplay_ st).st.block = { st.block with inputList := final } ∧
      (if st.block.hasStatements_ = some true then
        moveStackToEnd ((removeAllInputs_ st.block).inputList
          ++ titleInput st.world.msg st.block.type :: f :: l) = some final
       else final = (removeAllInputs_ st.block).inputList
          ++ titleInput st.world.msg st.block.type :: f :: l) := by
  rcases hc : createAllInputs_
    (some (disconnectOldBlocks_ { st.block with rendered := false }).1)
    ⟨removeAllInputs_ (disconnectOldBlocks_ { st.block with rendered := false }).2, st.world⟩
    with ⟨v, st1⟩
  have hu : updateDisplay_ st = finishDisplay st.block.rendered ⟨v, st1⟩ := by
    rw [← hc]; rfl
  cases v with
  | none => simp [hu, finishDisplay] at h
  | some cm1 =>
    obtain ⟨f, l, final, hf1, hf2, hfc, hl1, hl2, hb, hfin⟩ := createAllInputs_ok
      (some (disconnectOldBlocks_ { st.block with rendered := false }).1)
      ⟨removeAllInputs_ (disconnectOldBlocks_ { st.block with rendered := false }).2, st.world⟩
      cm1 (by rw [hc])
    rw [hc] at hb
    simp only [removeAllInputs_disconnectOldBlocks] at hb hl2 hfin
    refine ⟨f, l, final, hf1, hf2, hfc, hl1, hl2, ?_, ?_⟩
    · simp [hu, finishDisplay, hb]
    · exact hfin

/-! ## The statement input in the Clear and Rebuild phases -/

theorem findStackInput_foldl_of_not_mem (xs : List Input) (acc : Option Input)
    (h : ∀ i ∈ xs, i.name ≠ some "STACK") :
    xs.foldl (fun stackInput input => if input.name = some "STACK" then some input else stackInput)
      acc = acc := by
  induction xs generalizing acc with
  | nil => rfl
  | cons x rest ih =>
    have hx : x.name ≠ some "STACK" := h x (List.mem_cons_self _ _)
    simp only [List.foldl_cons, if_neg hx]
    exact ih acc fun i hi => h i (List.mem_cons_of_mem _ hi)

/-- The Clear phase keeps the last input named `STACK`. -/
theorem findStackInput_append_cons (pre post : List Input) (s : Input)
    (hn : s.name = some "STACK") (hpost : ∀ i ∈ post, i.name ≠ some "STACK") :
    findStackInput (pre ++ s :: post) = some s := by
  simp only [findStackInput, List.foldl_append, List.foldl_cons, if_pos hn]
  exact findStackInput_foldl_of_not_mem post _ hpost

theorem findStackInput_foldl_mem (xs : List Input) (acc : Option Input) (s : Input)
    (h : xs.foldl
      (fun stackInput input => if input.name = some "STACK" then some input else stackInput)
      acc = some s) :
    acc = some s ∨ (s ∈ xs ∧ s.name = some "STACK") := by
  induction xs generalizing acc with
  | nil => exact Or.inl h
  | cons x rest ih =>
    simp only [List.foldl_cons] at h
    rcases ih _ h with h1 | ⟨h1, h2⟩
    · by_cases hx : x.name = some "STACK"
      · rw [if_pos hx] at h1
        have : x = s := Option.some.inj h1
        subst this
        exact Or.inr ⟨List.mem_cons_self _ _, hx⟩
      · rw [if_neg hx] at h1
        exact Or.inl h1
    · exact Or.inr ⟨List.mem_cons_of_mem _ h1, h2⟩

theorem findStackInput_some (xs : List Input) (s : Input) (h : findStackInput xs = some s) :
    s ∈ xs ∧ s.name = some "STACK" := by
  rcases findStackInput_foldl_mem xs none s h with h1 | h1
  · cases h1
  · exact h1

theorem findStackInput_foldl_isSome (xs : List Input) (acc : Option Input)
    (h : acc.isSome = true ∨ ∃ i ∈ xs, i.name = some "STACK") :
    (xs.foldl
      (fun stackInput input => if input.name = some "STACK" then some input else stackInput)
      acc).isSome = true := by
  induction xs generalizing acc with
  | nil =>
    rcases h with h | ⟨i, hi, _⟩
    · exact h
    · cases hi
  | cons x rest ih =>
    simp only [List.foldl_cons]
    apply ih
    by_cases hx : x.name = some "STACK"
    · left; simp [hx]
    · rcases h with h | ⟨i, hi, hn⟩
      · left; simpa [hx] using h
      · rcases List.mem_cons.1 hi with rfl | hi
        · exact absurd hn hx
        · exact Or.inr ⟨i, hi, hn⟩

theorem findStackInput_isSome (xs : List Input) (h : ∃ i ∈ xs, i.name = some "STACK") :
    ∃ s, findStackInput xs = some s :=
  Option.isSome_iff_exists.1 (findStackInput_foldl_isSome xs none (Or.inr h))

theorem findStackInput_none (xs : List Input) (h : findStackInput xs = none) :
    ∀ i ∈ xs, i.name ≠ some "STACK" := by
  intro i hi hn
  obtain ⟨s, hs⟩ := findStackInput_isSome xs ⟨i, hi, hn⟩
  rw [h] at hs
  cases hs

theorem moveStackToEnd_cons_stack (s : Input) (xs : List Input) (hn : s.name = some "STACK") :
    moveStackToEnd (s :: xs) = some (xs ++ [s]) := by
  simp [moveStackToEnd, hn]

theorem moveStackToEnd_of_not_mem (xs : List Input) (h : ∀ i ∈ xs, i.name ≠ some "STACK") :
    moveStackToEnd xs = none := by
  induction xs with
  | nil => rfl
  | cons x rest ih =>
    have hx : x.name ≠ some "STACK" := h x (List.mem_cons_self _ _)
    simp [moveStackToEnd, hx, ih fun i hi => h i (List.mem_cons_of_mem _ hi)]

/-! ## When a rebuild completes -/

theorem lookup_assocSet {β : Type} (m : List (String × β)) (k : String) (v : β) (k1 : String) :
    (assocSet m k v).lookup k1 = if k1 = k then some v else m.lookup k1 := by
  induction m with
  | nil =>
    by_cases h : k1 = k
    · simp [assocSet, List.lookup, h]
    · have h2 : (k1 == k) = false := by simpa using h
      simp [assocSet, List.lookup, h, h2]
  | cons p rest ih =>
    obtain ⟨k0, v0⟩ := p
    by_cases h0 : k0 = k
    · by_cases h : k1 = k
      · simp [assocSet, List.lookup, h0, h]
      · have h2 : (k1 == k) = false := by simpa using h
        simp [assocSet, List.lookup, h0, h, h2]
    · by_cases h1 : k1 = k0
      · have h3 : k1 ≠ k := fun hh => h0 (h1.symm.trans hh)
        simp [assocSet, List.lookup, h0, h1, h3, Ne.symm h0]
      · have h2 : (k1 == k0) = false := by simpa using h1
        simp [assocSet, List.lookup, h0, h2, ih]

/-- The map made by the Disconnect phase holds no `null`. -/
theorem disconnectInputs_lookup (xs : List Input) :
    ∀ (cm : ConnectionMap), (∀ k, cm.lookup k ≠ some none) →
      ∀ k, (disconnectInputs xs cm).1.lookup k ≠ some none := by
  induction xs with
  | nil => intro cm h k; exact h k
  | cons x rest ih =>
    intro cm h k
    cases hc : x.connection with
    | none => simpa [disconnectInputs, hc] using ih cm h k
    | some c =>
      by_cases hn : x.name = some "STACK"
      · simpa [disconnectInputs, hc, hn] using ih cm h k
      · have h2 : ∀ k, (assocSet cm (jsString x.name)
            (some (⟨c.shadowDom, c.targetBlock⟩ : SaveInfo))).lookup k ≠ some none := by
          intro k2
          rw [lookup_assocSet]
          split
          · simp
          · exact h k2
        simpa [disconnectInputs, hc, hn] using ih _ h2 k

theorem readSaved_some (cm : ConnectionMap) (id : Option String)
    (h : cm.lookup (jsString id) ≠ some none) :
    ∃ old, readSaved (some cm) id = some old := by
  cases hl : cm.lookup (jsString id) with
  | none => exact ⟨⟨none, none⟩, by simp [readSaved, hl]⟩
  | some e =>
    cases e with
    | none => exact absurd hl h
    | some info => exact ⟨info, by simp [readSaved, hl]⟩

/-- A populate call completes unless the entry under the argument's `id` is `null`, and it
changes the map at most by setting the entry under the input's name to `null`. -/
theorem populateArgument_complete (kind : BlockKind) (arg : FunctionParameter)
    (cm : ConnectionMap) (input : Input) (w : World)
    (h : cm.lookup (jsString arg.id) ≠ some none) :
    ∃ p, populateArgument_ kind arg (some cm) input w = some p ∧
      (p.connectionMap = some cm ∨
        p.connectionMap = some (assocSet cm (jsString input.name) none)) := by
  obtain ⟨old, hold⟩ := readSaved_some cm arg.id h
  cases kind
  · simp only [populateArgument_, populateArgumentOnDeclaration_, hold]
    exact ⟨_, rfl, Or.inl rfl⟩
  · cases hb : old.block with
    | none =>
      simp only [populateArgument_, populateArgumentOnDefinition_, hold, hb]
      exact ⟨_, rfl, Or.inl rfl⟩
    | some blk =>
      simp only [populateArgument_, populateArgumentOnDefinition_, hold, hb]
      exact ⟨_, rfl, Or.inr rfl⟩
  · cases hb : old.block with
    | none =>
      simp only [populateArgument_, populateArgumentOnCaller_, hold, hb]
      exact ⟨_, rfl, Or.inl rfl⟩
    | some blk =>
      simp only [populateArgument_, populateArgumentOnCaller_, hold, hb]
      exact ⟨_, rfl, Or.inr rfl⟩

theorem createArgInput_complete (arg : FunctionParameter) (cm : ConnectionMap) (st : St)
    (h : cm.lookup (jsString arg.id) ≠ some none) :
    ∃ cm1 st1, createArgInput arg (some cm) st = ⟨some (some cm1), st1⟩ ∧
      (cm1 = cm ∨ cm1 = assocSet cm (jsString (inputName arg)) none) := by
  obtain ⟨p, hp, hcm⟩ := populateArgument_complete st.block.type arg cm (newArgInput arg)
    st.world h
  rw [newArgInput_name] at hcm
  simp only [createArgInput, hp]
  rcases hcm with hcm | hcm
  · exact ⟨cm, _, by rw [hcm], Or.inl rfl⟩
  · exact ⟨_, _, by rw [hcm], Or.inr rfl⟩

/-- The argument loop completes when every `null` of the map sits under a key in `done` and
no argument's `id` is in `done` or is the slot key of an argument before it. -/
theorem createArgInputs_complete (args : List FunctionParameter) :
    ∀ (cm : ConnectionMap) (st : St) (done : List String),
      (∀ k, cm.lookup k = some none → k ∈ done) → keysDistinct args →
      (∀ a ∈ args, jsString a.id ∉ done) →
      (createArgInputs args (some cm) st).value.isSome = true := by
  induction args with
  | nil => intro cm st done _ _ _; rfl
  | cons a rest ih =>
    intro cm st done hnull hk hdone
    have ha : cm.lookup (jsString a.id) ≠ some none := fun hh =>
      hdone a (List.mem_cons_self _ _) (hnull _ hh)
    obtain ⟨cm1, st1, hc, hcm⟩ := createArgInput_complete a cm st ha
    simp only [createArgInputs, hc]
    have hk2 := List.pairwise_cons.1 hk
    apply ih cm1 st1 (jsString (inputName a) :: done) _ hk2.2
    · intro b hb
      simp only [List.mem_cons, not_or]
      exact ⟨hk2.1 b hb, hdone b (List.mem_cons_of_mem _ hb)⟩
    · intro k hkn
      rcases hcm with rfl | rfl
      · exact List.mem_cons_of_mem _ (hnull k hkn)
      · rw [lookup_assocSet] at hkn
        by_cases hkk : k = jsString (inputName a)
        · rw [hkk]; exact List.mem_cons_self _ _
        · rw [if_neg hkk] at hkn
          exact List.mem_cons_of_mem _ (hnull k hkn)

/-- The method `updateDisplay_` completes when the keys of the arguments do not clash and a block that
has statements has an input named `STACK`. -/
theorem updateDisplay_complete (st : St) (hk : keysDistinct st.block.arguments_)
    (hflag : st.block.hasStatements_ = some true →
      ∃ i ∈ st.block.inputList, i.name = some "STACK") :
    (updateDisplay_ st).value = some () := by
  have hnull : ∀ k, (disconnectOldBlocks_ { st.block with rendered := false }).1.lookup k
      = some none → k ∈ ([] : List String) := by
    intro k hk0
    exact absurd hk0 (disconnectInputs_lookup _ [] (by simp [List.lookup]) k)
  obtain ⟨f, hf1, hf2, hfc, hf3⟩ := addFunctionLabel_eq
    ((removeAllInputs_ (disconnectOldBlocks_ { st.block with rendered := false }).2).appendInput
      (titleInput st.world.msg st.block.type)) st.block.name_
  have hargs := createArgInputs_complete st.block.arguments_
    (disconnectOldBlocks_ { st.block with rendered := false }).1
    ⟨addFunctionLabel_
      ((removeAllInputs_ (disconnectOldBlocks_ { st.block with rendered := false }).2).appendInput
        (titleInput st.world.msg st.block.type)) st.block.name_, st.world⟩
    [] hnull hk (by simp)
  obtain ⟨l, hl1, _, _⟩ := createArgInputs_block st.block.arguments_
    (some (disconnectOldBlocks_ { st.block with rendered := false }).1)
    ⟨addFunctionLabel_
      ((removeAllInputs_ (disconnectOldBlocks_ { st.block with rendered := false }).2).appendInput
        (titleInput st.world.msg st.block.type)) st.block.name_, st.world⟩
  rcases hc : createArgInputs st.block.arguments_
    (some (disconnectOldBlocks_ { st.block with rendered := false }).1)
    ⟨addFunctionLabel_
      ((removeAllInputs_ (disconnectOldBlocks_ { st.block with rendered := false }).2).appendInput
        (titleInput st.world.msg st.block.type)) st.block.name_, st.world⟩ with ⟨v, st1⟩
  rw [hc] at hargs hl1
  simp only at hl1
  have hu : updateDisplay_ st = finishDisplay st.block.rendered (moveStackInput ⟨v, st1⟩) := by
    rw [← hc]; rfl
  rw [hu]
  cases v with
  | none => simp at hargs
  | some cm1 =>
    rw [hf3, removeAllInputs_disconnectOldBlocks] at hl1
    have hhs : st1.block.hasStatements_ = st.block.hasStatements_ := by rw [hl1]; rfl
    have hil : st1.block.inputList = (removeAllInputs_ st.block).inputList
        ++ titleInput st.world.msg st.block.type :: f :: l := by
      rw [hl1]; simp [Block.appendInput, removeAllInputs_]
    by_cases hs : st.block.hasStatements_ = some true
    · obtain ⟨s, hfs⟩ := findStackInput_isSome _ (hflag hs)
      have hsn := (findStackInput_some _ _ hfs).2
      have hkeep : (removeAllInputs_ st.block).inputList = [s] := by
        simp [removeAllInputs_, hfs]
      rw [hkeep] at hil
      have hm : moveStackToEnd st1.block.inputList
          = some ((titleInput st.world.msg st.block.type :: f :: l) ++ [s]) := by
        rw [hil]; exact moveStackToEnd_cons_stack s _ hsn
      simp [moveStackInput, hhs, hs, hm, finishDisplay]
    · simp [moveStackInput, hhs, hs, finishDisplay]

/-- The input list after a completed `updateDisplay_` on a block whose `hasStatements_` flag
is backed by an input named `STACK`: the title row, the name row and one value input per
argument, and the input kept by the Clear phase at the end if the block has statements and
at the front otherwise. -/
theorem updateDisplay_inputList (st : St) (h : (updateDisplay_ st).value = some ())
    (hflag : st.block.hasStatements_ = some true →
      ∃ i ∈ st.block.inputList, i.name = some "STACK") :
    ∃ (f : Input) (l : List Input),
      f.type = InputType.DUMMY_INPUT ∧ f.name = some "function_name" ∧ f.check = none ∧
      (∀ i ∈ l, i.type = InputType.INPUT_VALUE) ∧
      l.map (fun i => (i.name, i.check))
        = st.block.arguments_.map (fun a => (inputName a, checkOfType a.type)) ∧
      (updateDisplay_ st).st.block = { st.block with inputList :=
        (if st.block.hasStatements_ = some true then
          titleInput st.world.msg st.block.type :: f :: l ++ (removeAllInputs_ st.block).inputList
        else
          (removeAllInputs_ st.block).inputList
            ++ titleInput st.world.msg st.block.type :: f :: l) } := by
  obtain ⟨f, l, final, hf1, hf2, hfc, hl1, hl2, hb, hfin⟩ := updateDisplay_ok st h
  refine ⟨f, l, hf1, hf2, hfc, hl1, hl2, ?_⟩
  by_cases hs : st.block.hasStatements_ = some true
  · rw [if_pos hs] at hfin ⊢
    obtain ⟨s, hfs⟩ := findStackInput_isSome _ (hflag hs)
    have hsn := (findStackInput_some _ _ hfs).2
    have hkeep : (removeAllInputs_ st.block).inputList = [s] := by
      simp [removeAllInputs_, hfs]
    rw [hkeep] at hfin ⊢
    have hm := moveStackToEnd_cons_stack s (titleInput st.world.msg st.block.type :: f :: l) hsn
    simp only [List.singleton_append] at hfin
    rw [hm] at hfin
    rw [hb, ← Option.some.inj hfin]
  · rw [if_neg hs] at hfin ⊢
    rw [hb, hfin]

theorem map_layout_of_value (l : List Input) (h : ∀ i ∈ l, i.type = InputType.INPUT_VALUE) :
    l.map (fun i => (i.type, i.name, i.check))
      = (l.map fun i => (i.name, i.check)).map fun p => (InputType.INPUT_VALUE, p.1, p.2) := by
  induction l with
  | nil => rfl
  | cons x rest ih =>
    simp only [List.map_cons, ih fun i hi => h i (List.mem_cons_of_mem _ hi),
      h x (List.mem_cons_self _ _)]

/-- What the Clear phase keeps is an input of the block named `STACK`. -/
theorem removeAllInputs_mem (this : Block) :
    ∀ i ∈ (removeAllInputs_ this).inputList, i ∈ this.inputList ∧ i.name = some "STACK" := by
  intro i hi
  unfold removeAllInputs_ at hi
  cases hf : findStackInput this.inputList with
  | none => simp [hf] at hi
  | some s =>
    simp only [hf, List.mem_singleton] at hi
    subst hi
    exact findStackInput_some _ _ hf

/-- The slot layout after a completed `updateDisplay_`. -/
theorem updateDisplay_slotLayout (st : St) (h : (updateDisplay_ st).value = some ())
    (hflag : st.block.hasStatements_ = some true →
      ∃ i ∈ st.block.inputList, i.name = some "STACK") :
    slotLayout (updateDisplay_ st).st.block =
      if st.block.hasStatements_ = some true then
        (InputType.DUMMY_INPUT, some "", none)
          :: (InputType.DUMMY_INPUT, some "function_name", none)
          :: (st.block.arguments_.map fun a =>
                (InputType.INPUT_VALUE, inputName a, checkOfType a.type))
          ++ slotLayout (removeAllInputs_ st.block)
      else
        slotLayout (removeAllInputs_ st.block)
          ++ (InputType.DUMMY_INPUT, some "", none)
          :: (InputType.DUMMY_INPUT, some "function_name", none)
          :: (st.block.arguments_.map fun a =>
                (InputType.INPUT_VALUE, inputName a, checkOfType a.type)) := by
  obtain ⟨f, l, hf1, hf2, hfc, hl1, hl2, hb⟩ := updateDisplay_inputList st h hflag
  have hl : l.map (fun i => (i.type, i.name, i.check))
      = st.block.arguments_.map fun a =>
          (InputType.INPUT_VALUE, inputName a, checkOfType a.type) := by
    rw [map_layout_of_value l hl1, hl2, List.map_map]; rfl
  have ht : ((titleInput st.world.msg st.block.type).type,
      (titleInput st.world.msg st.block.type).name,
      (titleInput st.world.msg st.block.type).check)
      = (InputType.DUMMY_INPUT, some "", none) := rfl
  rw [hb]
  by_cases hs : st.block.hasStatements_ = some true
  · simp only [slotLayout, if_pos hs, List.map_cons, List.map_append, hl, ht, hf1, hf2, hfc,
      List.cons_append]
  · simp only [slotLayout, if_neg hs, List.map_cons, List.map_append, hl, ht, hf1, hf2, hfc]

/-- The input kept by the Clear phase is the same in the next rebuild, when no slot key of an
argument is `STACK`. -/
theorem removeAllInputs_updateDisplay (st : St) (h : (updateDisplay_ st).value = some ())
    (hflag : st.block.hasStatements_ = some true →
      ∃ i ∈ st.block.inputList, i.name = some "STACK")
    (hkeys : ∀ a ∈ st.block.arguments_, inputName a ≠ some "STACK") :
    (removeAllInputs_ (updateDisplay_ st).st.block).inputList
      = (removeAllInputs_ st.block).inputList := by
  obtain ⟨f, l, hf1, hf2, hfc, hl1, hl2, hb⟩ := updateDisplay_inputList st h hflag
  have hln : ∀ i ∈ l, i.name ≠ some "STACK" := by
    intro i hi
    have hmem : (i.name, i.check) ∈ l.map (fun i => (i.name, i.check)) :=
      List.mem_map.2 ⟨i, hi, rfl⟩
    rw [hl2] at hmem
    obtain ⟨a, ha, hai⟩ := List.mem_map.1 hmem
    have : inputName a = i.name := congrArg Prod.fst hai
    rw [← this]
    exact hkeys a ha
  have hrest : ∀ i ∈ titleInput st.world.msg st.block.type :: f :: l,
      i.name ≠ some "STACK" := by
    intro i hi
    rcases List.mem_cons.1 hi with rfl | hi
    · simp [titleInput, dummyInput]
    · rcases List.mem_cons.1 hi with rfl | hi
      · simp [hf2]
      · exact hln i hi
  rw [hb]
  cases hf : findStackInput st.block.inputList with
  | none =>
    have hkeep : (removeAllInputs_ st.block).inputList = [] := by
      simp [removeAllInputs_, hf]
    have hs : st.block.hasStatements_ ≠ some true := fun hs => by
      obtain ⟨s, hfs⟩ := findStackInput_isSome _ (hflag hs)
      rw [hf] at hfs
      cases hfs
    have hnone : findStackInput (titleInput st.world.msg st.block.type :: f :: l) = none :=
      findStackInput_foldl_of_not_mem _ none hrest
    simp [removeAllInputs_, hf, hs, hnone]
  | some s =>
    have hsn := (findStackInput_some _ _ hf).2
    have hkeep : (removeAllInputs_ st.block).inputList = [s] := by
      simp [removeAllInputs_, hf]
    by_cases hs : st.block.hasStatements_ = some true
    · have hfind : findStackInput ((titleInput st.world.msg st.block.type :: f :: l) ++ s :: [])
          = some s := findStackInput_append_cons _ [] s hsn (by simp)
      simp only [List.cons_append] at hfind
      simp [removeAllInputs_, hf, hs, hfind]
    · have hfind : findStackInput ([] ++ s :: (titleInput st.world.msg st.block.type :: f :: l))
          = some s := findStackInput_append_cons [] _ s hsn hrest
      simp only [List.nil_append] at hfind
      simp [removeAllInputs_, hf, hs, hfind]

/-! ## Serialisation: theorems -/

/-- What `domToMutation` stores from an element whose children are all elements: the `name`
and `functionid` attributes and one record per child, each attribute as `getAttribute`
returns it. It is stored before the display is rebuilt and stays in every outcome. -/
theorem domToMutation_signature (xmlElement : Node) (st : St)
    (h1 : xmlElement.isElement = true) (h2 : xmlElement.childNodes.all Node.isElement = true) :
    (domToMutation xmlElement st).st.block.signature
      = ⟨xmlElement.getAttribute "name", xmlElement.getAttribute "functionid",
          xmlElement.childNodes.map argOfNode⟩ := by
  simp only [domToMutation, readArgs, h2, h1, if_true]
  rw [updateDisplay_signature]
  rfl

theorem map_strings (args : List FunctionParameter)
    (h : args.all FunctionParameter.isStrings = true) :
    (args.map fun a =>
      (⟨some (jsString a.id), some (jsString a.name), some (jsString a.type)⟩ :
        FunctionParameter)) = args := by
  induction args with
  | nil => rfl
  | cons a rest ih =>
    simp only [List.all_cons, Bool.and_eq_true] at h
    simp only [List.map_cons, ih h.2]
    congr 1
    have ha := h.1
    simp only [FunctionParameter.isStrings, Bool.and_eq_true, Option.isSome_iff_exists] at ha
    obtain ⟨⟨⟨x, hx⟩, ⟨y, hy⟩⟩, ⟨z, hz⟩⟩ := ha
    obtain ⟨i, n, t⟩ := a
    simp only at hx hy hz
    subst hx hy hz
    rfl

theorem domToMutation_mutationToDom_raw (src : Block) (st : St) :
    (domToMutation (mutationToDom src) st).st.block.signature
      = ⟨some (jsString src.name_), some (jsString src.functionId_),
          src.arguments_.map fun a =>
            ⟨some (jsString a.id), some (jsString a.name), some (jsString a.type)⟩⟩ := by
  have hall : (src.arguments_.map argNode).all Node.isElement = true := by
    simp [List.all_eq_true, argNode_eq, Node.isElement]
  rw [mutationToDom_eq, domToMutation_signature (.element "mutation"
    [("name", jsString src.name_), ("functionid", jsString src.functionId_)]
    (src.arguments_.map argNode)) st rfl hall]
  simp [Node.getAttribute, Node.childNodes, List.lookup, argOfNode_argNode]

/-- On the node made by `mutationToDom`, `domToMutation` is the assignment of the three
fields followed by `updateDisplay_`. -/
theorem domToMutation_mutationToDom_run (src : Block) (st : St) :
    domToMutation (mutationToDom src) st
      = updateDisplay_ ⟨{ st.block with
          arguments_ := src.arguments_.map fun a =>
            ⟨some (jsString a.id), some (jsString a.name), some (jsString a.type)⟩
          name_ := some (jsString src.name_)
          functionId_ := some (jsString src.functionId_) }, st.world⟩ := by
  rw [mutationToDom_eq]
  simp [domToMutation, Node.childNodes, readArgs_map_argNode, Node.isElement, Node.getAttribute,
    List.lookup]

/-- Claim C1. For every signature `S` of strings (name, function id and the `id`, `name` and
`type` of every argument), running `domToMutation` on the node that `mutationToDom` makes
for `S` leaves the block with `name_`, `functionId_` and `arguments_` equal to those of `S`,
the arguments in the same order. This holds on every block, in every editor state and in
every outcome of the display rebuild; the run completes when the argument ids do not clash
with earlier slot keys and a block that has statements has its `STACK` input. -/
theorem domToMutation_mutationToDom (src : Block) (st : St)
    (h : src.signature.isStrings = true) :
    (domToMutation (mutationToDom src) st).st.block.signature = src.signature ∧
    (keysDistinct src.arguments_ →
      (st.block.hasStatements_ = some true →
        ∃ i ∈ st.block.inputList, i.name = some "STACK") →
      (domToMutation (mutationToDom src) st).value = some ()) := by
  have h0 := h
  simp only [Signature.isStrings, Block.signature, Bool.and_eq_true,
    Option.isSome_iff_exists] at h
  obtain ⟨⟨⟨n, hn⟩, ⟨f, hf⟩⟩, hargs⟩ := h
  constructor
  · rw [domToMutation_mutationToDom_raw, map_strings _ hargs, hn, hf]
    simp [Block.signature, hn, hf, jsString]
  · intro hk hflag
    rw [domToMutation_mutationToDom_run, map_strings _ hargs]
    exact updateDisplay_complete _ hk hflag

/-- The round trip of C1 on the signature `foo(x: number, s: Sprite)`, read into a fresh call
block. -/
theorem domToMutation_mutationToDom_witness :
    (domToMutation (mutationToDom exampleSource) ⟨freshCall, exampleWorld⟩).st.block.signature
      = exampleSource.signature ∧
    (domToMutation (mutationToDom exampleSource) ⟨freshCall, exampleWorld⟩).value = some () :=
  ⟨(domToMutation_mutationToDom exampleSource ⟨freshCall, exampleWorld⟩ (by decide)).1,
   (domToMutation_mutationToDom exampleSource ⟨freshCall, exampleWorld⟩ (by decide)).2
     (by unfold keysDistinct; decide) (by decide)⟩

/-- Claim C2. For every signature, serialising it with `mutationToDom`, deserialising the node
with `domToMutation` and serialising the block again with `mutationToDom` gives a node equal
to the first one: same tag, same attributes, same `arg` children in the same order. -/
theorem mutationToDom_domToMutation_mutationToDom (src : Block) (st : St) :
    mutationToDom (domToMutation (mutationToDom src) st).st.block = mutationToDom src := by
  have h := domToMutation_mutationToDom_raw src st
  simp only [Block.signature, Signature.mk.injEq] at h
  obtain ⟨h1, h2, h3⟩ := h
  rw [mutationToDom_eq, h1, h2, h3, mutationToDom_eq]
  simp [jsString, argNode_eq]

/-- Claim C3. For a signature with name `name`, function id `functionId` and arguments `args`
(triples of id, name and type), `mutationToDom` makes a node tagged `mutation` with the
attributes `name = name` and `functionid = functionId` and with exactly one child per
argument, in the order of the signature, the child of an argument being tagged `arg` and
carrying the argument's `name`, `id` and `type`. -/
theorem mutationToDom_node (this : Block) (name functionId : String)
    (args : List (String × String × String))
    (hn : this.name_ = some name) (hf : this.functionId_ = some functionId)
    (ha : this.arguments_ = args.map fun a => ⟨some a.1, some a.2.1, some a.2.2⟩) :
    mutationToDom this = .element "mutation" [("name", name), ("functionid", functionId)]
      (args.map fun a =>
        .element "arg" [("name", a.2.1), ("id", a.1), ("type", a.2.2)] []) := by
  rw [mutationToDom_eq, hn, hf, ha]
  simp [jsString, argNode_eq]

/-- The node of C3 for the signature `foo(x: number, s: Sprite)` of function `F1`. -/
theorem mutationToDom_node_witness :
    mutationToDom exampleSource = .element "mutation" [("name", "foo"), ("functionid", "F1")]
      [.element "arg" [("name", "x"), ("id", "a"), ("type", "number")] [],
       .element "arg" [("name", "s"), ("id", "b"), ("type", "Sprite")] []] :=
  mutationToDom_node exampleSource "foo" "F1"
    [("a", "x", "number"), ("b", "s", "Sprite")] rfl rfl rfl

/-- Claim C4 fails as stated. Given `<mutation name="foo"><arg id="a" type="number"/></mutation>`,
which lacks `functionid` and the `name` of its `arg`, `domToMutation` leaves a fresh call
block with the signature it read, name `foo`, function id `null` and one argument with name
`null`: not the empty signature. -/
theorem domToMutation_malformed_stored :
    (domToMutation malformedMutation ⟨freshCall, exampleWorld⟩).st.block.signature
      = ⟨some "foo", none, [⟨some "a", none, some "number"⟩]⟩ ∧
    (domToMutation malformedMutation ⟨freshCall, exampleWorld⟩).st.block.signature
      ≠ ⟨some "", some "", []⟩ := by
  have h : (domToMutation malformedMutation ⟨freshCall, exampleWorld⟩).st.block.signature
      = ⟨some "foo", none, [⟨some "a", none, some "number"⟩]⟩ := by
    rw [domToMutation_signature malformedMutation ⟨freshCall, exampleWorld⟩ rfl rfl]; rfl
  exact ⟨h, by rw [h]; decide⟩

/-- Claim C4, amended. When `domToMutation` is given an element (with element children) that
lacks a required attribute, the block stores the signature as read: `name_` and
`functionId_` are the `name` and `functionid` attributes and there is one argument per
child with its `id`, `name` and `type` attributes, where every absent attribute is stored
as `null` and every present one as it is. There is no fallback to an empty signature. -/
theorem domToMutation_stores_as_read (xmlElement : Node) (st : St)
    (h1 : xmlElement.isElement = true) (h2 : xmlElement.childNodes.all Node.isElement = true) :
    (domToMutation xmlElement st).st.block.name_ = xmlElement.getAttribute "name" ∧
    (domToMutation xmlElement st).st.block.functionId_ = xmlElement.getAttribute "functionid" ∧
    (domToMutation xmlElement st).st.block.arguments_
      = xmlElement.childNodes.map fun c =>
          ⟨c.getAttribute "id", c.getAttribute "name", c.getAttribute "type"⟩ := by
  have h := domToMutation_signature xmlElement st h1 h2
  simp only [Block.signature, Signature.mk.injEq] at h
  exact ⟨h.1, h.2.1, h.2.2⟩

/-- The amended C4 on the malformed node of the counterexample. -/
theorem domToMutation_stores_as_read_witness :
    (domToMutation malformedMutation ⟨freshCall, exampleWorld⟩).st.block.name_ = some "foo" ∧
    (domToMutation malformedMutation ⟨freshCall, exampleWorld⟩).st.block.functionId_ = none ∧
    (domToMutation malformedMutation ⟨freshCall, exampleWorld⟩).st.block.arguments_
      = [⟨some "a", none, some "number"⟩] :=
  domToMutation_stores_as_read malformedMutation ⟨freshCall, exampleWorld⟩ rfl rfl

/-! ## Display reconciler: theorems -/

/-- Claim C5, evaluated where the code breaks it. A call of `foo(s: Sprite)` is built, the user
plugs an expression (block 8) into the slot of `s`, and `updateDisplay_` runs again with the
signature unchanged. The run completes, the signature is the same, but the slot of `s` now
holds a new shadow placeholder (block 101): the user expression is attached to no slot any
more. It was saved under the slot key `a_Sprite` and looked up under the argument id `a`. -/
theorem updateDisplay_drops_custom_expression :
    attachments spriteCallFilled.block
      = [(some "", none), (some "function_name", none), (some "a_Sprite", some 8)] ∧
    (updateDisplay_ spriteCallFilled).value = some () ∧
    (updateDisplay_ spriteCallFilled).st.block.signature = spriteCallFilled.block.signature ∧
    attachments (updateDisplay_ spriteCallFilled).st.block
      = [(some "", none), (some "function_name", none), (some "a_Sprite", some 101)] ∧
    (updateDisplay_ spriteCallFilled).st.world.disposed = [] := by
  decide

/-- Claim C6, evaluated where the claim fails. The argument with id `a` of a call has a user
expression (block 7) on its `number` slot `a`; its type changes to the custom type `Sprite`
and `updateDisplay_` runs. The new slot has the key `a_Sprite` and accepts every type, and
it holds the old expression, block 7: the expression was reattached, and no placeholder
block was created (the supply of block identities did not move). -/
theorem updateDisplay_reattaches_after_retype :
    attachments numberCallFilled.block
      = [(some "", none), (some "function_name", none), (some "a", some 7)] ∧
    valueSlots numberCallFilled.block = [(some "a", some "Number")] ∧
    (updateDisplay_ numberCallRetyped).value = some () ∧
    valueSlots (updateDisplay_ numberCallRetyped).st.block = [(some "a_Sprite", none)] ∧
    attachments (updateDisplay_ numberCallRetyped).st.block
      = [(some "", none), (some "function_name", none), (some "a_Sprite", some 7)] ∧
    (updateDisplay_ numberCallRetyped).st.world.nextBlockId
      = numberCallRetyped.world.nextBlockId := by
  decide

theorem append_underscore_inj (i1 t1 i2 t2 : String) (hl : i1.length = i2.length)
    (h : i1 ++ "_" ++ t1 = i2 ++ "_" ++ t2) : i1 = i2 ∧ t1 = t2 := by
  have hd := congrArg String.data h
  simp only [String.data_append, List.append_assoc] at hd
  have hl2 : i1.data.length = i2.data.length := hl
  obtain ⟨h1, h2⟩ := List.append_inj hd hl2
  have h3 := List.append_cancel_left h2
  exact ⟨String.ext h1, String.ext h3⟩

/-- Claim C7 fails as stated. The argument with id `a_b` and type `c` and the argument
with id `a` and type `b_c` are both of a custom type and get the same slot key `a_b_c`, so
the key of a custom-typed argument does not determine its id and type. -/
theorem inputName_collision :
    isPrimitiveType (some "c") = false ∧ isPrimitiveType (some "b_c") = false ∧
    inputName ⟨some "a_b", some "p", some "c"⟩ = some "a_b_c" ∧
    inputName ⟨some "a", some "p", some "b_c"⟩ = some "a_b_c" ∧
    (some "a_b" : Option String) ≠ some "a" ∧ (some "c" : Option String) ≠ some "b_c" := by
  decide

/-- Claim C7, amended. The input that `createAllInputs_` appends for an argument is named by
the argument's id alone when the type is `boolean`, `string` or `number`, and by
`id + '_' + type` for every other type. For custom types the key determines id and type
among arguments whose ids have the same length (as the 20-character ids of
`Blockly.utils.genUid` have). -/
theorem inputName_key (id name type : String) :
    (∀ (cm : Option ConnectionMap) (st : St), ∃ i : Input,
      (createArgInput ⟨some id, some name, some type⟩ cm st).st.block.inputList
        = st.block.inputList ++ [i] ∧
      i.name = inputName ⟨some id, some name, some type⟩) ∧
    (type = "boolean" ∨ type = "string" ∨ type = "number" →
      inputName ⟨some id, some name, some type⟩ = some id) ∧
    (¬ (type = "boolean" ∨ type = "string" ∨ type = "number") →
      inputName ⟨some id, some name, some type⟩ = some (id ++ "_" ++ type)) ∧
    (∀ id2 name2 type2 : String,
      ¬ (type = "boolean" ∨ type = "string" ∨ type = "number") →
      ¬ (type2 = "boolean" ∨ type2 = "string" ∨ type2 = "number") →
      id.length = id2.length →
      inputName ⟨some id, some name, some type⟩ = inputName ⟨some id2, some name2, some type2⟩ →
      id = id2 ∧ type = type2) := by
  have hcustom : ∀ (i n t : String), ¬ (t = "boolean" ∨ t = "string" ∨ t = "number") →
      inputName ⟨some i, some n, some t⟩ = some (i ++ "_" ++ t) := by
    intro i n t ht
    simp only [not_or] at ht
    simp [inputName, ht.1, ht.2.1, ht.2.2, jsString]
  refine ⟨?_, ?_, hcustom id name type, ?_⟩
  · intro cm st
    obtain ⟨i, _, hi2, _, hi4⟩ := createArgInput_block ⟨some id, some name, some type⟩ cm st
    exact ⟨i, by rw [hi4]; rfl, hi2⟩
  · intro ht
    rcases ht with ht | ht | ht <;> simp [inputName, ht]
  · intro id2 name2 type2 ht ht2 hlen hkey
    rw [hcustom id name type ht, hcustom id2 name2 type2 ht2] at hkey
    exact append_underscore_inj id type id2 type2 hlen (Option.some.inj hkey)

/-- The amended C7 on the arguments `x: number` and `s: Sprite`. -/
theorem inputName_key_witness :
    inputName ⟨some "a", some "x", some "number"⟩ = some "a" ∧
    inputName ⟨some "b", some "s", some "Sprite"⟩ = some "b_Sprite" ∧
    ("b" = "b" ∧ "Sprite" = "Sprite") :=
  ⟨(inputName_key "a" "x" "number").2.1 (by decide),
   (inputName_key "b" "s" "Sprite").2.2.1 (by decide),
   (inputName_key "b" "s" "Sprite").2.2.2 "b" "t" "Sprite" (by decide) (by decide) rfl rfl⟩

/-- Claim C8 fails as stated. A call whose only argument has the id `STACK` (type `number`)
is rebuilt twice with the signature unchanged. Both runs complete. After the first the call
has one value slot; the second run passes that slot over in the Disconnect phase and keeps
it in the Clear phase, because of its name, and adds a new one: two value slots for one
argument, and a slot layout that differs from the one before the re-run. -/
theorem updateDisplay_stack_key_duplicates :
    (updateDisplay_ stackCallOnce).value = some () ∧
    stackCallTwice.block.signature = stackCallOnce.block.signature ∧
    stackCallOnce.block.arguments_.length = 1 ∧
    valueSlots stackCallOnce.block = [(some "STACK", some "Number")] ∧
    valueSlots stackCallTwice.block
      = [(some "STACK", some "Number"), (some "STACK", some "Number")] ∧
    slotLayout stackCallTwice.block ≠ slotLayout stackCallOnce.block := by
  decide

/-- Claim C8, amended. Take a block on which `STACK` names nothing but a statement input, and
has such an input if `hasStatements_` is set. `updateDisplay_` (Clear, then
`createAllInputs_`) completes when the argument ids do not clash with earlier slot keys.
Whenever it completes, the value inputs are exactly one per argument of the signature, in
the order of the signature, named by the slot key, with the check `Boolean` for type
`boolean`, `String` for `string`, `Number` for `number` and no check for every other type:
they depend on the signature only. When in addition no slot key is `STACK`, a re-run with
the signature unchanged completes and gives the same slot layout. -/
theorem updateDisplay_parameter_slots (st : St)
    (hstack : ∀ i ∈ st.block.inputList, i.name = some "STACK" →
      i.type = InputType.NEXT_STATEMENT)
    (hflag : st.block.hasStatements_ = some true →
      ∃ i ∈ st.block.inputList, i.name = some "STACK") :
    (keysDistinct st.block.arguments_ → (updateDisplay_ st).value = some ()) ∧
    ((updateDisplay_ st).value = some () →
      valueSlots (updateDisplay_ st).st.block
        = st.block.arguments_.map fun a =>
            (inputName a,
              if a.type = some "boolean" then some "Boolean"
              else if a.type = some "string" then some "String"
              else if a.type = some "number" then some "Number"
              else none)) ∧
    (keysDistinct st.block.arguments_ →
      (∀ a ∈ st.block.arguments_, inputName a ≠ some "STACK") →
      (updateDisplay_ (updateDisplay_ st).st).value = some () ∧
      (updateDisplay_ (updateDisplay_ st).st).st.block.signature = st.block.signature ∧
      slotLayout (updateDisplay_ (updateDisplay_ st).st).st.block
        = slotLayout (updateDisplay_ st).st.block) := by
  refine ⟨fun hk => updateDisplay_complete st hk hflag, ?_, ?_⟩
  · intro h
    obtain ⟨f, l, hf1, hf2, hfc, hl1, hl2, hb⟩ := updateDisplay_inputList st h hflag
    have hkeep : ((removeAllInputs_ st.block).inputList.filter
        fun i => i.type = InputType.INPUT_VALUE) = [] := by
      rw [List.filter_eq_nil_iff]
      intro i hi
      obtain ⟨hmem, hname⟩ := removeAllInputs_mem st.block i hi
      simp [hstack i hmem hname]
    have hl : (l.filter fun i => i.type = InputType.INPUT_VALUE) = l := by
      rw [List.filter_eq_self]
      intro i hi
      simp [hl1 i hi]
    have ht : (titleInput st.world.msg st.block.type).type ≠ InputType.INPUT_VALUE := by
      simp [titleInput, dummyInput]
    have hf : f.type ≠ InputType.INPUT_VALUE := by simp [hf1]
    have hvs : valueSlots (updateDisplay_ st).st.block = l.map fun i => (i.name, i.check) := by
      rw [hb]
      by_cases hs : st.block.hasStatements_ = some true
      · simp [valueSlots, hs, List.filter_cons, ht, hf, hkeep, hl]
      · simp [valueSlots, hs, List.filter_cons, ht, hf, hkeep, hl]
    rw [hvs, hl2]
    rfl
  · intro hk hkeys
    have h1 := updateDisplay_complete st hk hflag
    obtain ⟨l1, rd, hfr⟩ := updateDisplay_frame st
    have hargs : (updateDisplay_ st).st.block.arguments_ = st.block.arguments_ := by rw [hfr]
    have hhs : (updateDisplay_ st).st.block.hasStatements_ = st.block.hasStatements_ := by
      rw [hfr]
    have hkeep := removeAllInputs_updateDisplay st h1 hflag hkeys
    have hflag2 : (updateDisplay_ st).st.block.hasStatements_ = some true →
        ∃ i ∈ (updateDisplay_ st).st.block.inputList, i.name = some "STACK" := by
      intro hs
      rw [hhs] at hs
      obtain ⟨s, hfs⟩ := findStackInput_isSome _ (hflag hs)
      have hs1 : s ∈ (removeAllInputs_ (updateDisplay_ st).st.block).inputList := by
        rw [hkeep]; simp [removeAllInputs_, hfs]
      obtain ⟨hm, hn⟩ := removeAllInputs_mem _ s hs1
      exact ⟨s, hm, hn⟩
    have h2 := updateDisplay_complete (updateDisplay_ st).st (by rw [hargs]; exact hk) hflag2
    refine ⟨h2, ?_, ?_⟩
    · rw [updateDisplay_signature, updateDisplay_signature]
    · rw [updateDisplay_slotLayout _ h2 hflag2, updateDisplay_slotLayout st h1 hflag, hargs, hhs]
      simp only [slotLayout, hkeep]

/-- The amended C8 on a definition of `foo(x: number, s: Sprite)`: the rebuild completes, the
value slots are `a` with check `Number` and `b_Sprite` without check, and a re-run gives the
same layout. -/
theorem updateDisplay_parameter_slots_witness :
    (updateDisplay_ exampleDefinition).value = some () ∧
    valueSlots (updateDisplay_ exampleDefinition).st.block
      = [(some "a", some "Number"), (some "b_Sprite", none)] ∧
    slotLayout (updateDisplay_ (updateDisplay_ exampleDefinition).st).st.block
      = slotLayout (updateDisplay_ exampleDefinition).st.block := by
  have hall : exampleDefinition.block.inputList.all (fun i =>
      decide (i.name = some "STACK" → i.type = InputType.NEXT_STATEMENT)) = true := by decide
  have hany : exampleDefinition.block.inputList.any (fun i =>
      decide (i.name = some "STACK")) = true := by decide
  have hk : keysDistinct exampleDefinition.block.arguments_ := by
    unfold keysDistinct; decide
  have hkeys : ∀ a ∈ exampleDefinition.block.arguments_, inputName a ≠ some "STACK" := by
    decide
  have h := updateDisplay_parameter_slots exampleDefinition
    (fun i hi => of_decide_eq_true (List.all_eq_true.1 hall i hi))
    (fun _ => by
      obtain ⟨i, hi, hn⟩ := List.any_eq_true.1 hany
      exact ⟨i, hi, of_decide_eq_true hn⟩)
  exact ⟨h.1 hk, h.2.1 (h.1 hk), (h.2.2 hk hkeys).2.2⟩

/-- Claim C9. Take a block that has the statement-body slot: `hasStatements_` is set and the
last input named `STACK` is a statement input `s`. `updateDisplay_` completes when the
argument ids do not clash with earlier slot keys, and whenever it completes the input list
is the title row, the function-name row, one value input per argument and then `s`: the
statement input is the last entry and the only statement input of the list. -/
theorem updateDisplay_stack_last (st : St) (pre post : List Input) (s : Input)
    (hs : st.block.hasStatements_ = some true)
    (hl : st.block.inputList = pre ++ s :: post)
    (hn : s.name = some "STACK") (ht : s.type = InputType.NEXT_STATEMENT)
    (hpost : ∀ i ∈ post, i.name ≠ some "STACK") :
    (keysDistinct st.block.arguments_ → (updateDisplay_ st).value = some ()) ∧
    ((updateDisplay_ st).value = some () →
      ∃ (f : Input) (l : List Input),
        f.type = InputType.DUMMY_INPUT ∧ f.name = some "function_name" ∧
        (∀ i ∈ l, i.type = InputType.INPUT_VALUE) ∧
        l.map (fun i => i.name) = st.block.arguments_.map inputName ∧
        (updateDisplay_ st).st.block.inputList
          = titleInput st.world.msg st.block.type :: f :: l ++ [s] ∧
        (updateDisplay_ st).st.block.inputList.getLast? = some s ∧
        ((updateDisplay_ st).st.block.inputList.filter
          fun i => i.type = InputType.NEXT_STATEMENT) = [s]) := by
  have hflag : st.block.hasStatements_ = some true →
      ∃ i ∈ st.block.inputList, i.name = some "STACK" :=
    fun _ => ⟨s, by rw [hl]; simp, hn⟩
  refine ⟨fun hk => updateDisplay_complete st hk hflag, ?_⟩
  intro h
  obtain ⟨f, l, hf1, hf2, hfc, hl1, hl2, hb⟩ := updateDisplay_inputList st h hflag
  have hkeep : (removeAllInputs_ st.block).inputList = [s] := by
    simp [removeAllInputs_, hl, findStackInput_append_cons pre post s hn hpost]
  have hlist : (updateDisplay_ st).st.block.inputList
      = titleInput st.world.msg st.block.type :: f :: l ++ [s] := by
    rw [hb]; simp [hs, hkeep]
  have hnames : l.map (fun i => i.name) = st.block.arguments_.map inputName := by
    have := congrArg (List.map Prod.fst) hl2
    simpa [List.map_map, Function.comp] using this
  have hlf : (l.filter fun i => i.type = InputType.NEXT_STATEMENT) = [] := by
    rw [List.filter_eq_nil_iff]
    intro i hi
    simp [hl1 i hi]
  refine ⟨f, l, hf1, hf2, hl1, hnames, hlist, ?_, ?_⟩
  · rw [hlist]
    exact List.getLast?_concat (titleInput st.world.msg st.block.type :: f :: l)
  · rw [hlist]
    simp [List.filter_cons, List.filter_append, titleInput, dummyInput, hf1, hlf, ht]

/-- C9 on a definition of `foo(x: number, s: Sprite)` as `init` and `setStatements_(true)`
leave it: the rebuild completes and the statement input `STACK` comes last. -/
theorem updateDisplay_stack_last_witness :
    (updateDisplay_ exampleDefinition).value = some () ∧
    (updateDisplay_ exampleDefinition).st.block.inputList.getLast?
      = some (statementInput "STACK") := by
  have h := updateDisplay_stack_last exampleDefinition
    [titleInput exampleWorld.msg BlockKind.function_definition,
      dummyInput "function_name" ⟨"function_name", some "", false⟩]
    [] (statementInput "STACK") rfl rfl rfl rfl (by simp)
  have hk : keysDistinct exampleDefinition.block.arguments_ := by
    unfold keysDistinct; decide
  obtain ⟨f, l, _, _, _, _, _, hlast, _⟩ := h.2 (h.1 hk)
  exact ⟨h.1 hk, hlast⟩

/-- Claim C10, evaluated where the code breaks it. The argument `s: Sprite` with id `a` has the
slot key `a_Sprite`, and the connection map holds under that key a detached user expression
(block 8). `populateArgumentOnCaller_` looks the entry up under `a`, does not find it, and
takes the other branch: the slot gets a newly created shadow placeholder (block 100, of type
`variables_get`), the expression is not reattached, no shadow DOM is set on the slot and the
entry stays in the map. -/
theorem populateArgumentOnCaller_misses_custom_key :
    inputName spriteArg = some "a_Sprite" ∧
    (newArgInput spriteArg).name = some "a_Sprite" ∧
    (populateArgumentOnCaller_ spriteArg
        (some [("a_Sprite", some ⟨none, some spriteExpression⟩)])
        (newArgInput spriteArg) exampleWorld).map
      (fun p => (p.input.targetBlock, p.input.getShadowDom.isSome, p.world.nextBlockId,
        p.connectionMap.map fun cm => cm.map fun e => (e.1, e.2.map fun i => i.block)))
      = some (some ⟨100, "variables_get", true, [("VAR", "v0")]⟩, false, 101,
          some [("a_Sprite", some (some spriteExpression))]) :=
  ⟨rfl, rfl, rfl⟩

/-! ## Placeholder and child strategies: theorems -/

theorem World.enable_disable (w : World) : w.disableEvents.enableEvents = w := by
  simp [World.disableEvents, World.enableEvents]

/-- The fresh branch of `populateArgumentOnCaller_`, taken when `readSaved` finds no block. -/
theorem populateArgumentOnCaller_fresh_eq (arg : FunctionParameter) (cm : ConnectionMap)
    (input : Input) (w : World)
    (h : cm.lookup (jsString arg.id) = none ∨
      ∃ sh, cm.lookup (jsString arg.id) = some (some ⟨sh, none⟩)) :
    populateArgumentOnCaller_ arg (some cm) input w
      = some ⟨some cm,
          input.connect
            (if arg.type = some "boolean" then
              ⟨w.nextBlockId, "logic_boolean", true, [("BOOL", "TRUE")]⟩
            else if arg.type = some "number" then
              ⟨w.nextBlockId, "math_number", true, [("NUM", "1")]⟩
            else if arg.type = some "string" then
              ⟨w.nextBlockId, "text", true, [("TEXT", "abc")]⟩
            else ⟨w.nextBlockId, "variables_get", true, [("VAR", w.defaultVariableId)]⟩),
          { w with nextBlockId := w.nextBlockId + 1 }⟩ := by
  have hold : ∃ old, readSaved (some cm) arg.id = some old ∧ old.block = none := by
    rcases h with h | ⟨sh, h⟩
    · exact ⟨⟨none, none⟩, by simp [readSaved, h], rfl⟩
    · exact ⟨⟨sh, none⟩, by simp [readSaved, h], rfl⟩
  obtain ⟨old, hold, hb⟩ := hold
  simp only [populateArgumentOnCaller_, hold, hb, attachShadow_, getShadowBlockInfoFromType_]
  by_cases h1 : arg.type = some "boolean"
  · simp [h1, World.newBlock, World.disableEvents, World.enableEvents, initialFields,
      ChildBlock.setFieldValue, ChildBlock.setShadow, assocSet]
  · by_cases h2 : arg.type = some "number"
    · simp [h1, h2, World.newBlock, World.disableEvents, World.enableEvents, initialFields,
        ChildBlock.setFieldValue, ChildBlock.setShadow, assocSet]
    · by_cases h3 : arg.type = some "string"
      · simp [h1, h2, h3, World.newBlock, World.disableEvents, World.enableEvents,
          initialFields, ChildBlock.setFieldValue, ChildBlock.setShadow, assocSet]
      · simp [h1, h2, h3, World.newBlock, World.disableEvents, World.enableEvents,
          initialFields, ChildBlock.setFieldValue, ChildBlock.setShadow, assocSet]

theorem newArgInput_connect_targetBlock (arg : FunctionParameter) (blk : ChildBlock) :
    ((newArgInput arg).connect blk).targetBlock = some blk := by
  unfold newArgInput
  cases checkOfType arg.type <;> rfl

/-- Claim C11, evaluated where the claim fails. The argument with id `a` has the custom type
`Sprite`, so its slot key is `a_Sprite`, and the map holds nothing under that key: no
detached child exists for the slot key. The map holds a detached expression (block 7) under
the id `a`. `populateArgumentOnCaller_` looks under the id, reattaches block 7 and creates no
placeholder block (the supply of block identities does not move). -/
theorem populateArgumentOnCaller_reattaches_by_id :
    inputName ⟨some "a", some "x", some "Sprite"⟩ = some "a_Sprite" ∧
    ([("a", some (⟨none, some numberExpression⟩ : SaveInfo))] : ConnectionMap).lookup "a_Sprite"
      = none ∧
    (populateArgumentOnCaller_ ⟨some "a", some "x", some "Sprite"⟩
        (some [("a", some ⟨none, some numberExpression⟩)])
        (newArgInput ⟨some "a", some "x", some "Sprite"⟩) exampleWorld).map
      (fun p => (p.input.name, p.input.targetBlock, p.world.nextBlockId))
      = some (some "a_Sprite", some numberExpression, 100) :=
  ⟨rfl, rfl, rfl⟩

/-- Claim C11, amended. Call strategy, fresh branch. When the connection map holds no detached
child under the argument's id (no entry, or an entry without block), `populateArgumentOnCaller_`
completes, leaves the map as it is and connects to the slot a newly created shadow block
chosen by the argument's type: `logic_boolean` with `BOOL = TRUE` for `boolean`,
`math_number` with `NUM = 1` for `number`, `text` with `TEXT = abc` for `string` and
`variables_get` for every other type. In particular the input that `createAllInputs_`
appends on a call for such a `string` argument is a value input named by the argument's id,
with the check `String`, holding the `text` placeholder. For an argument of a primitive type
the id is the slot key, so the same holds when the map holds no detached child under the
slot key. -/
theorem populateArgumentOnCaller_fresh (arg : FunctionParameter) (cm : ConnectionMap)
    (input : Input) (w : World) :
    ((cm.lookup (jsString arg.id) = none ∨
        ∃ sh, cm.lookup (jsString arg.id) = some (some ⟨sh, none⟩)) →
      populateArgumentOnCaller_ arg (some cm) input w
        = some ⟨some cm,
            input.connect
              (if arg.type = some "boolean" then
                ⟨w.nextBlockId, "logic_boolean", true, [("BOOL", "TRUE")]⟩
              else if arg.type = some "number" then
                ⟨w.nextBlockId, "math_number", true, [("NUM", "1")]⟩
              else if arg.type = some "string" then
                ⟨w.nextBlockId, "text", true, [("TEXT", "abc")]⟩
              else ⟨w.nextBlockId, "variables_get", true, [("VAR", w.defaultVariableId)]⟩),
            { w with nextBlockId := w.nextBlockId + 1 }⟩ ∧
      (∀ st : St, st.block.type = BlockKind.function_call → arg.type = some "string" →
        ∃ i : Input,
          (createArgInput arg (some cm) st).st.block.inputList = st.block.inputList ++ [i] ∧
          i.type = InputType.INPUT_VALUE ∧ i.name = arg.id ∧ i.check = some "String" ∧
          i.targetBlock = some ⟨st.world.nextBlockId, "text", true, [("TEXT", "abc")]⟩)) ∧
    (isPrimitiveType arg.type = true →
      (cm.lookup (jsString (inputName arg)) = none ∨
        ∃ sh, cm.lookup (jsString (inputName arg)) = some (some ⟨sh, none⟩)) →
      populateArgumentOnCaller_ arg (some cm) input w
        = some ⟨some cm,
            input.connect
              (if arg.type = some "boolean" then
                ⟨w.nextBlockId, "logic_boolean", true, [("BOOL", "TRUE")]⟩
              else if arg.type = some "number" then
                ⟨w.nextBlockId, "math_number", true, [("NUM", "1")]⟩
              else ⟨w.nextBlockId, "text", true, [("TEXT", "abc")]⟩),
            { w with nextBlockId := w.nextBlockId + 1 }⟩) := by
  constructor
  · intro h
    refine ⟨populateArgumentOnCaller_fresh_eq arg cm input w h, ?_⟩
    intro st hk ht
    have hp := populateArgumentOnCaller_fresh_eq arg cm (newArgInput arg) st.world h
    refine ⟨(newArgInput arg).connect ⟨st.world.nextBlockId, "text", true, [("TEXT", "abc")]⟩,
      ?_, ?_, ?_, ?_, ?_⟩
    · simp [createArgInput, hk, populateArgument_, hp, ht, Block.appendInput]
    · rw [Input.connect_type, newArgInput_type]
    · rw [Input.connect_name, newArgInput_name]
      simp [inputName, ht]
    · rw [Input.connect_check, newArgInput_check]
      simp [checkOfType, ht]
    · exact newArgInput_connect_targetBlock arg _
  · intro hp h
    have hin : inputName arg = arg.id := by
      unfold isPrimitiveType at hp
      unfold inputName
      by_cases h1 : arg.type = some "boolean"
      · simp [h1]
      · by_cases h2 : arg.type = some "string"
        · simp [h2]
        · by_cases h3 : arg.type = some "number"
          · simp [h3]
          · simp [h1, h2, h3] at hp
    rw [hin] at h
    rw [populateArgumentOnCaller_fresh_eq arg cm input w h]
    unfold isPrimitiveType at hp
    by_cases h1 : arg.type = some "boolean"
    · simp [h1]
    · by_cases h2 : arg.type = some "number"
      · simp [h2]
      · by_cases h3 : arg.type = some "string"
        · simp [h3]
        · simp [h1, h2, h3] at hp

/-- The amended C11 on a call of `foo(x: number)` that gains the argument `y: string` with id
`b`, the map holding only the expression detached from the slot of `x`. -/
theorem populateArgumentOnCaller_fresh_witness :
    ∃ i : Input,
      (createArgInput ⟨some "b", some "y", some "string"⟩
          (some [("a", some ⟨none, some numberExpression⟩)]) numberCallFilled).st.block.inputList
        = numberCallFilled.block.inputList ++ [i] ∧
      i.type = InputType.INPUT_VALUE ∧ i.name = some "b" ∧ i.check = some "String" ∧
      i.targetBlock = some ⟨101, "text", true, [("TEXT", "abc")]⟩ :=
  ((populateArgumentOnCaller_fresh ⟨some "b", some "y", some "string"⟩
    [("a", some ⟨none, some numberExpression⟩)] (newArgInput ⟨some "b", some "y", some "string"⟩)
    exampleWorld).1 (Or.inl rfl)).2 numberCallFilled rfl rfl

/-- Claim C12, evaluated where the code breaks it. The argument `s: Sprite` with id `a` has the
slot key `a_Sprite`, and the connection map holds under that key the reporter detached from
the slot (block 9). `populateArgumentOnDefinition_` looks the entry up under `a`, does not
find it, and attaches a newly created reporter (block 100) instead of the detached one; the
entry stays in the map, so that `deleteShadows_` disposes the old reporter. -/
theorem populateArgumentOnDefinition_misses_custom_key :
    inputName spriteArg = some "a_Sprite" ∧
    (populateArgumentOnDefinition_ spriteArg
        (some [("a_Sprite", some ⟨none, some spriteReporter⟩)])
        (newArgInput spriteArg) exampleWorld).map
      (fun p => (p.input.targetBlock, p.world.nextBlockId,
        p.connectionMap.map fun cm => cm.map fun e => (e.1, e.2.map fun i => i.block)))
      = some (some ⟨100, "argument_reporter_custom", true, [("VALUE", "s")]⟩, 101,
          some [("a_Sprite", some (some spriteReporter))]) ∧
    attachments definitionBuilt.block
      = [(some "", none), (some "function_name", none), (some "a", some 100),
          (some "b_Sprite", some 101), (some "STACK", none)] ∧
    attachments (updateDisplay_ definitionBuilt).st.block
      = [(some "", none), (some "function_name", none), (some "a", some 100),
          (some "b_Sprite", some 102), (some "STACK", none)] ∧
    (updateDisplay_ definitionBuilt).st.world.disposed = [101] :=
  ⟨rfl, rfl, by decide, by decide, by decide⟩

/-- Claim C28, evaluated where the code breaks it. On a call, the argument with id `a` and type
`number` has its placeholder (shadow block 100) on the slot `a`; on a definition it has its
reporter (shadow block 100) there. The type changes to a custom type and `updateDisplay_`
runs and completes: the Rebuild phase reattaches block 100 to the new slot (`a_Sprite`,
`a_Image`), clearing the map under the new key only, and the Prune phase disposes block 100,
which is still recorded under `a`. -/
theorem updateDisplay_disposes_reattached :
    (updateDisplay_ numberCallBuiltRetyped).value = some () ∧
    attachments (updateDisplay_ numberCallBuiltRetyped).st.block
      = [(some "", none), (some "function_name", none), (some "a_Sprite", some 100)] ∧
    (updateDisplay_ numberCallBuiltRetyped).st.world.disposed = [100] ∧
    (updateDisplay_ definitionRetyped).value = some () ∧
    attachments (updateDisplay_ definitionRetyped).st.block
      = [(some "", none), (some "function_name", none), (some "a_Image", some 100),
          (some "b_Sprite", some 102), (some "STACK", none)] ∧
    (updateDisplay_ definitionRetyped).st.world.disposed = [100, 101] := by
  decide

theorem shadowBlockOf_shadow (sh : Option Node) (b : ChildBlock) (hb : b.isShadow = true) :
    shadowBlockOf (some ⟨sh, some b⟩) = some b := by
  simp [shadowBlockOf, hb]

theorem shadowBlockOf_user (sh : Option Node) (b : ChildBlock) (hb : ¬ b.isShadow = true) :
    shadowBlockOf (some ⟨sh, some b⟩) = none := by
  simp [shadowBlockOf, hb]

theorem deleteShadowEntries_eq (cm : ConnectionMap) :
    ∀ w : World,
      (deleteShadowEntries cm w).1
        = cm.map (fun e => if (shadowBlockOf e.2).isSome then (e.1, none) else e) ∧
      (deleteShadowEntries cm w).2
        = { w with disposed :=
              w.disposed ++ (cm.filterMap fun e => shadowBlockOf e.2).map ChildBlock.id } := by
  induction cm with
  | nil => intro w; simp [deleteShadowEntries]
  | cons e rest ih =>
    intro w
    obtain ⟨k, v⟩ := e
    cases v with
    | none =>
      obtain ⟨h1, h2⟩ := ih w
      have e1 : shadowBlockOf (none : Option SaveInfo) = none := rfl
      simp only [deleteShadowEntries, List.map_cons, List.filterMap_cons, e1, h1, h2]
      simp
    | some info =>
      obtain ⟨sh, blk⟩ := info
      cases blk with
      | none =>
        obtain ⟨h1, h2⟩ := ih w
        have e1 : shadowBlockOf (some (⟨sh, none⟩ : SaveInfo)) = none := rfl
        simp only [deleteShadowEntries, List.map_cons, List.filterMap_cons, e1, h1, h2]
        simp
      | some b =>
        by_cases hb : b.isShadow = true
        · obtain ⟨h1, h2⟩ := ih (w.dispose b)
          have e1 := shadowBlockOf_shadow sh b hb
          simp only [deleteShadowEntries, hb, if_true, List.map_cons, List.filterMap_cons, e1,
            h1, h2]
          simp [World.dispose]
        · obtain ⟨h1, h2⟩ := ih w
          have e1 := shadowBlockOf_user sh b hb
          simp only [deleteShadowEntries, hb, List.map_cons, List.filterMap_cons, e1, h1, h2]
          simp

/-- Claim C14. Prune. `deleteShadows_` goes through the entries of the connection map: an
entry that is not `null` and records a shadow block gets that block disposed and is set to
`null`; every other entry stays as it is. The blocks disposed are exactly the shadow blocks
of the entries, so an entry with a user-authored block stays in the map and its block is
disposed by this call only if a shadow block of the map has the same identity. -/
theorem deleteShadows_prunes (cm : ConnectionMap) (w : World) :
    (deleteShadows_ (some cm) w).1
      = some (cm.map fun e => if (shadowBlockOf e.2).isSome then (e.1, none) else e) ∧
    (deleteShadows_ (some cm) w).2
      = { w with disposed :=
            w.disposed ++ (cm.filterMap fun e => shadowBlockOf e.2).map ChildBlock.id } ∧
    (∀ n, n ∈ (deleteShadows_ (some cm) w).2.disposed ↔
      n ∈ w.disposed ∨ ∃ e ∈ cm, ∃ b, shadowBlockOf e.2 = some b ∧ b.id = n) ∧
    (∀ k sh b, (k, some (⟨sh, some b⟩ : SaveInfo)) ∈ cm → b.isShadow = false →
      (k, some (⟨sh, some b⟩ : SaveInfo)) ∈
        ((deleteShadows_ (some cm) w).1.getD [])) := by
  obtain ⟨h1, h2⟩ := deleteShadowEntries_eq cm w
  refine ⟨by simp [deleteShadows_, h1], by simp [deleteShadows_, h2], ?_, ?_⟩
  · intro n
    simp only [deleteShadows_, h2, List.mem_append, List.mem_map, List.mem_filterMap]
    constructor
    · rintro (h | ⟨b, ⟨e, he, hb⟩, hn⟩)
      · exact Or.inl h
      · exact Or.inr ⟨e, he, b, hb, hn⟩
    · rintro (h | ⟨e, he, b, hb, hn⟩)
      · exact Or.inl h
      · exact Or.inr ⟨b, ⟨e, he, hb⟩, hn⟩
  · intro k sh b hmem hb
    simp only [deleteShadows_, h1, Option.getD_some, List.mem_map]
    exact ⟨(k, some ⟨sh, some b⟩), hmem, by simp [shadowBlockOf, hb]⟩

/-- C14 on a map with a placeholder under `a` and a user expression under `b`: block 5 is
disposed and its entry cleared, the entry of block 7 stays. -/
theorem deleteShadows_prunes_witness :
    (deleteShadows_ (some [("a", some ⟨none, some ⟨5, "math_number", true, []⟩⟩),
        ("b", some ⟨none, some numberExpression⟩)]) exampleWorld).2.disposed = [5] ∧
    ("b", some (⟨none, some numberExpression⟩ : SaveInfo)) ∈
      ((deleteShadows_ (some [("a", some ⟨none, some ⟨5, "math_number", true, []⟩⟩),
        ("b", some ⟨none, some numberExpression⟩)]) exampleWorld).1.getD []) :=
  ⟨by
    rw [(deleteShadows_prunes [("a", some ⟨none, some ⟨5, "math_number", true, []⟩⟩),
      ("b", some ⟨none, some numberExpression⟩)] exampleWorld).2.1]
    rfl,
   (deleteShadows_prunes [("a", some ⟨none, some ⟨5, "math_number", true, []⟩⟩),
      ("b", some ⟨none, some numberExpression⟩)] exampleWorld).2.2.2 "b" none numberExpression
      (by simp) rfl⟩

/-- Claim C24. Each of `attachShadow_`, `createArgumentReporter_` and `createArgumentEditor_`
creates its block after `Blockly.Events.disable()` and lets `finally` call
`Blockly.Events.enable()`: whether `workspace.newBlock` succeeds or throws, the suppression
depth on return equals the depth on entry and no creation was notified. When `newBlock`
succeeds the result is the one of the embedding without exception. -/
theorem creators_restore_events (fails : String → Bool) (input : Input)
    (arg : FunctionParameter) (argumentType displayName : Option String) (w : World) :
    ((attachShadow_E fails input argumentType w).2.eventsDisabled = w.eventsDisabled ∧
      (attachShadow_E fails input argumentType w).2.fired = w.fired) ∧
    ((createArgumentReporter_E fails arg w).2.eventsDisabled = w.eventsDisabled ∧
      (createArgumentReporter_E fails arg w).2.fired = w.fired) ∧
    ((createArgumentEditor_E fails argumentType displayName w).2.eventsDisabled
        = w.eventsDisabled ∧
      (createArgumentEditor_E fails argumentType displayName w).2.fired = w.fired) ∧
    ((∀ t, fails t = false) →
      attachShadow_E fails input argumentType w
        = (some (attachShadow_ input argumentType w).1, (attachShadow_ input argumentType w).2) ∧
      createArgumentReporter_E fails arg w
        = (some (createArgumentReporter_ arg w).1, (createArgumentReporter_ arg w).2) ∧
      createArgumentEditor_E fails argumentType displayName w
        = (some (createArgumentEditor_ argumentType displayName w).1,
            (createArgumentEditor_ argumentType displayName w).2)) := by
  have key : ∀ (t : String),
      (match w.disableEvents.newBlockE fails t with
        | none => w.disableEvents.enableEvents
        | some r => r.2.enableEvents).eventsDisabled = w.eventsDisabled ∧
      (match w.disableEvents.newBlockE fails t with
        | none => w.disableEvents.enableEvents
        | some r => r.2.enableEvents).fired = w.fired := by
    intro t
    by_cases hf : fails t = true
    · simp [World.newBlockE, hf, World.disableEvents, World.enableEvents]
    · simp [World.newBlockE, hf, World.newBlock, World.disableEvents, World.enableEvents]
  refine ⟨?_, ?_, ?_, ?_⟩
  · have := key (getShadowBlockInfoFromType_ argumentType w).1
    unfold attachShadow_E
    cases hc : w.disableEvents.newBlockE fails (getShadowBlockInfoFromType_ argumentType w).1 <;>
      simpa [hc] using this
  · unfold createArgumentReporter_E
    simp only
    generalize (if arg.type = some "boolean" then "argument_reporter_boolean"
      else if arg.type = some "number" then "argument_reporter_number"
      else if arg.type = some "string" then "argument_reporter_string"
      else "argument_reporter_custom") = t
    have := key t
    cases hc : w.disableEvents.newBlockE fails t <;> simpa [hc] using this
  · unfold createArgumentEditor_E
    simp only
    generalize (if argumentType = some "boolean" then "argument_editor_boolean"
      else if argumentType = some "string" then "argument_editor_string"
      else if argumentType = some "number" then "argument_editor_number"
      else "argument_editor_custom") = t
    have := key t
    cases hc : w.disableEvents.newBlockE fails t <;> simpa [hc] using this
  · intro hf
    refine ⟨?_, ?_, ?_⟩
    · simp [attachShadow_E, attachShadow_, World.newBlockE, hf]
    · simp [createArgumentReporter_E, createArgumentReporter_, World.newBlockE, hf]
    · simp only [createArgumentEditor_E, createArgumentEditor_, World.newBlockE, hf]
      by_cases h1 : argumentType = some "boolean"
      · simp [h1]
      · by_cases h2 : argumentType = some "string"
        · simp [h1, h2]
        · by_cases h3 : argumentType = some "number"
          · simp [h1, h2, h3]
          · simp [h1, h2, h3]

/-- C24 where every `newBlock` succeeds: the three results are those of the embedding without
exception. -/
theorem creators_restore_events_witness :
    attachShadow_E (fun _ => false) (newArgInput spriteArg) (some "Sprite") exampleWorld
      = (some (attachShadow_ (newArgInput spriteArg) (some "Sprite") exampleWorld).1,
          (attachShadow_ (newArgInput spriteArg) (some "Sprite") exampleWorld).2) :=
  ((creators_restore_events (fun _ => false) (newArgInput spriteArg) spriteArg (some "Sprite")
    (some "s") exampleWorld).2.2.2 (fun _ => rfl)).1

/-! ## What the Disconnect phase records -/

theorem disconnectInputs_lookup_other (xs : List Input) (k : String) :
    ∀ cm : ConnectionMap, (∀ j ∈ xs, jsString j.name ≠ k) →
      (disconnectInputs xs cm).1.lookup k = cm.lookup k := by
  induction xs with
  | nil => intro cm _; rfl
  | cons x rest ih =>
    intro cm h
    have hx : jsString x.name ≠ k := h x (List.mem_cons_self _ _)
    have hrest : ∀ j ∈ rest, jsString j.name ≠ k := fun j hj => h j (List.mem_cons_of_mem _ hj)
    cases hc : x.connection with
    | none => simpa [disconnectInputs, hc] using ih cm hrest
    | some c =>
      by_cases hn : x.name = some "STACK"
      · simpa [disconnectInputs, hc, hn] using ih cm hrest
      · simp only [disconnectInputs, hc, hn, ne_eq, not_false_eq_true, if_true]
        rw [ih _ hrest, lookup_assocSet, if_neg (Ne.symm hx)]

/-- With pairwise different input names, the map of the Disconnect phase holds under the name
of every connected input not named `STACK` what was on that input. -/
theorem disconnectInputs_lookup_mem (xs : List Input) :
    ∀ cm : ConnectionMap, xs.Pairwise (fun i j => jsString i.name ≠ jsString j.name) →
      ∀ i ∈ xs, ∀ c, i.connection = some c → i.name ≠ some "STACK" →
        (disconnectInputs xs cm).1.lookup (jsString i.name)
          = some (some ⟨c.shadowDom, c.targetBlock⟩) := by
  induction xs with
  | nil => intro cm _ i hi; cases hi
  | cons x rest ih =>
    intro cm hp i hi c hc hn
    obtain ⟨hx, hrest⟩ := List.pairwise_cons.1 hp
    rcases List.mem_cons.1 hi with rfl | hi
    · simp only [disconnectInputs, hc, hn, ne_eq, not_false_eq_true, if_true]
      rw [disconnectInputs_lookup_other rest _ _ (fun j hj => Ne.symm (hx j hj)),
        lookup_assocSet, if_pos rfl]
    · cases hcx : x.connection with
      | none => simpa [disconnectInputs, hcx] using ih cm hrest i hi c hc hn
      | some cx =>
        by_cases hnx : x.name = some "STACK"
        · simpa [disconnectInputs, hcx, hnx] using ih cm hrest i hi c hc hn
        · simpa [disconnectInputs, hcx, hnx] using ih _ hrest i hi c hc hn

theorem lookup_mem {β : Type} (m : List (String × β)) (k : String) (v : β)
    (h : m.lookup k = some v) : (k, v) ∈ m := by
  induction m with
  | nil => simp [List.lookup] at h
  | cons p rest ih =>
    obtain ⟨k0, v0⟩ := p
    by_cases hk : k = k0
    · subst hk
      simp [List.lookup] at h
      subst h
      exact List.mem_cons_self _ _
    · have h2 : (k == k0) = false := by simpa using hk
      simp only [List.lookup, h2] at h
      exact List.mem_cons_of_mem _ (ih h)

theorem Input.targetBlock_connection (i : Input) (b : ChildBlock)
    (h : i.targetBlock = some b) : ∃ c, i.connection = some c ∧ c.targetBlock = some b := by
  unfold Input.targetBlock at h
  cases hc : i.connection with
  | none => simp [hc] at h
  | some c => exact ⟨c, rfl, by simpa [hc] using h⟩

theorem moveStackToEnd_mem (xs : List Input) :
    ∀ ys, moveStackToEnd xs = some ys → ∀ j, j ∈ xs → j ∈ ys := by
  induction xs with
  | nil => intro ys h; simp [moveStackToEnd] at h
  | cons x rest ih =>
    intro ys h j hj
    by_cases hx : x.name = some "STACK"
    · simp only [moveStackToEnd, hx, if_true, Option.some.injEq] at h
      subst h
      rcases List.mem_cons.1 hj with rfl | hj
      · simp
      · simp [hj]
    · simp only [moveStackToEnd, hx, if_false, Option.map_eq_some'] at h
      obtain ⟨zs, hz, rfl⟩ := h
      rcases List.mem_cons.1 hj with rfl | hj
      · exact List.mem_cons_self _ _
      · exact List.mem_cons_of_mem _ (ih zs hz j hj)

/-- The run of `updateDisplay_` written out: the argument loop on the cleared block, then the
move of the statement input, then the Prune phase. -/
theorem updateDisplay_unfold (st : St) :
    updateDisplay_ st = finishDisplay st.block.rendered (moveStackInput
      (createArgInputs st.block.arguments_
        (some (disconnectInputs st.block.inputList []).1)
        ⟨addFunctionLabel_ ((removeAllInputs_ (disconnectOldBlocks_
            { st.block with rendered := false }).2).appendInput
            (titleInput st.world.msg st.block.type)) st.block.name_, st.world⟩)) := rfl

/-- An input that the argument loop left on the block is on the block when `updateDisplay_`
has completed. -/
theorem updateDisplay_mem (st : St) (h : (updateDisplay_ st).value = some ()) (j : Input)
    (hj : j ∈ (createArgInputs st.block.arguments_
        (some (disconnectInputs st.block.inputList []).1)
        ⟨addFunctionLabel_ ((removeAllInputs_ (disconnectOldBlocks_
            { st.block with rendered := false }).2).appendInput
            (titleInput st.world.msg st.block.type)) st.block.name_,
          st.world⟩).st.block.inputList) :
    j ∈ (updateDisplay_ st).st.block.inputList := by
  rw [updateDisplay_unfold] at h ⊢
  rcases hc : createArgInputs st.block.arguments_
        (some (disconnectInputs st.block.inputList []).1)
        ⟨addFunctionLabel_ ((removeAllInputs_ (disconnectOldBlocks_
            { st.block with rendered := false }).2).appendInput
            (titleInput st.world.msg st.block.type)) st.block.name_, st.world⟩ with ⟨v, st1⟩
  rw [hc] at h hj
  cases v with
  | none => simp [moveStackInput, finishDisplay] at h
  | some cm1 =>
    simp only [moveStackInput] at h ⊢
    by_cases hs : st1.block.hasStatements_ = some true
    · simp only [hs, if_true] at h ⊢
      cases hm : moveStackToEnd st1.block.inputList with
      | none => simp [hm, finishDisplay] at h
      | some moved =>
        simp only [finishDisplay]
        exact moveStackToEnd_mem _ _ hm j hj
    · simp only [hs, if_false, finishDisplay]
      exact hj

theorem moveStackInput_world (r : Outcome (Option ConnectionMap)) :
    (moveStackInput r).st.world = r.st.world ∧
      ((moveStackInput r).value = none ∨ (moveStackInput r).value = r.value) := by
  obtain ⟨v, st⟩ := r
  cases v with
  | none => exact ⟨rfl, Or.inl rfl⟩
  | some cm =>
    simp only [moveStackInput]
    split
    · split
      · exact ⟨rfl, Or.inr rfl⟩
      · exact ⟨rfl, Or.inl rfl⟩
    · exact ⟨rfl, Or.inr rfl⟩

theorem finishDisplay_world (b : Bool) (r : Outcome (Option ConnectionMap))
    (h : (finishDisplay b r).value = some ()) :
    ∃ cm, r.value = some cm ∧ (finishDisplay b r).st.world = (deleteShadows_ cm r.st.world).2 := by
  obtain ⟨v, st⟩ := r
  cases v with
  | none => simp [finishDisplay] at h
  | some cm => exact ⟨cm, rfl, rfl⟩

/-- The editor state after a completed `updateDisplay_`: the Prune phase applied to the map and
the state that the argument loop left. -/
theorem updateDisplay_world (st : St) (h : (updateDisplay_ st).value = some ()) :
    ∃ cm, (createArgInputs st.block.arguments_
        (some (disconnectInputs st.block.inputList []).1)
        ⟨addFunctionLabel_ ((removeAllInputs_ (disconnectOldBlocks_
            { st.block with rendered := false }).2).appendInput
            (titleInput st.world.msg st.block.type)) st.block.name_, st.world⟩).value = some cm ∧
      (updateDisplay_ st).st.world = (deleteShadows_ cm (createArgInputs st.block.arguments_
        (some (disconnectInputs st.block.inputList []).1)
        ⟨addFunctionLabel_ ((removeAllInputs_ (disconnectOldBlocks_
            { st.block with rendered := false }).2).appendInput
            (titleInput st.world.msg st.block.type)) st.block.name_, st.world⟩).st.world).2 := by
  rw [updateDisplay_unfold] at h ⊢
  obtain ⟨cm, hcm, hw⟩ := finishDisplay_world _ _ h
  obtain ⟨hmw, hmv⟩ := moveStackInput_world (createArgInputs st.block.arguments_
        (some (disconnectInputs st.block.inputList []).1)
        ⟨addFunctionLabel_ ((removeAllInputs_ (disconnectOldBlocks_
            { st.block with rendered := false }).2).appendInput
            (titleInput st.world.msg st.block.type)) st.block.name_, st.world⟩)
  rcases hmv with hmv | hmv
  · rw [hmv] at hcm; cases hcm
  · exact ⟨cm, by rw [← hmv]; exact hcm, by rw [hw, hmw]⟩

/-! ## Declaration strategy -/

theorem createArgumentEditor_eq (arg : FunctionParameter) (w : World) :
    createArgumentEditor_ arg.type arg.name w
      = (argumentEditor w.nextBlockId arg, { w with nextBlockId := w.nextBlockId + 1 }) := by
  unfold createArgumentEditor_ argumentEditor
  by_cases h1 : arg.type = some "boolean"
  · simp [h1, World.newBlock, World.disableEvents, World.enableEvents]
  · by_cases h2 : arg.type = some "string"
    · simp [h1, h2, World.newBlock, World.disableEvents, World.enableEvents]
    · by_cases h3 : arg.type = some "number"
      · simp [h1, h2, h3, World.newBlock, World.disableEvents, World.enableEvents]
      · simp [h1, h2, h3, World.newBlock, World.disableEvents, World.enableEvents]

theorem populateArgumentOnDeclaration_eq (arg : FunctionParameter) (cm : ConnectionMap)
    (input : Input) (w : World) (h : cm.lookup (jsString arg.id) ≠ some none) :
    populateArgumentOnDeclaration_ arg (some cm) input w
      = some ⟨some cm, input.connect (argumentEditor w.nextBlockId arg),
          { w with nextBlockId := w.nextBlockId + 1 }⟩ := by
  obtain ⟨old, hold⟩ := readSaved_some cm arg.id h
  simp only [populateArgumentOnDeclaration_, hold, createArgumentEditor_eq]

/-- On a declaration the argument loop hands the connection map on as it got it. -/
theorem createArgInputs_declaration (args : List FunctionParameter) :
    ∀ (cm : Option ConnectionMap) (st : St), st.block.type = BlockKind.function_declaration →
      ∀ cm1, (createArgInputs args cm st).value = some cm1 → cm1 = cm := by
  induction args with
  | nil => intro cm st _ cm1 h; simpa [createArgInputs] using h.symm
  | cons a rest ih =>
    intro cm st ht cm1 h
    obtain ⟨i, _, _, _, hi4⟩ := createArgInput_block a cm st
    cases hp : populateArgument_ st.block.type a cm (newArgInput a) st.world with
    | none => simp [createArgInputs, createArgInput, hp] at h
    | some p =>
      have hpc : p.connectionMap = cm := by
        rw [ht] at hp
        simp only [populateArgument_, populateArgumentOnDeclaration_] at hp
        cases hr : readSaved cm a.id with
        | none => simp [hr] at hp
        | some old =>
          simp only [hr, Option.some.injEq] at hp
          rw [← hp]
      simp only [createArgInputs, createArgInput, hp] at h
      rw [hpc] at h
      exact ih cm _ (by simpa [Block.appendInput] using ht) cm1 h

/-- On a declaration, when the argument loop completes, every argument has on the block an
input named by its slot key that holds an argument editor with a new identity. -/
theorem createArgInputs_declaration_fresh (args : List FunctionParameter) :
    ∀ (cm : ConnectionMap) (st : St), st.block.type = BlockKind.function_declaration →
      (createArgInputs args (some cm) st).value.isSome = true →
      ∀ a ∈ args, ∃ n, st.world.nextBlockId ≤ n ∧
        ∃ j ∈ (createArgInputs args (some cm) st).st.block.inputList,
          j.name = inputName a ∧ j.targetBlock = some (argumentEditor n a) := by
  induction args with
  | nil => intro cm st _ _ a ha; cases ha
  | cons x rest ih =>
    intro cm st ht hv a ha
    cases hr : readSaved (some cm) x.id with
    | none =>
      simp [createArgInputs, createArgInput, populateArgument_, ht,
        populateArgumentOnDeclaration_, hr] at hv
    | some old =>
      have hstep : createArgInput x (some cm) st
          = ⟨some (some cm),
              ⟨st.block.appendInput ((newArgInput x).connect (argumentEditor st.world.nextBlockId x)),
                { st.world with nextBlockId := st.world.nextBlockId + 1 }⟩⟩ := by
        simp only [createArgInput, populateArgument_, ht, populateArgumentOnDeclaration_, hr,
          createArgumentEditor_eq]
      have hrun : createArgInputs (x :: rest) (some cm) st
          = createArgInputs rest (some cm)
              ⟨st.block.appendInput ((newArgInput x).connect (argumentEditor st.world.nextBlockId x)),
                { st.world with nextBlockId := st.world.nextBlockId + 1 }⟩ := by
        simp only [createArgInputs, hstep]
      rw [hrun] at hv ⊢
      obtain ⟨l, hl, _, _⟩ := createArgInputs_block rest (some cm)
        ⟨st.block.appendInput ((newArgInput x).connect (argumentEditor st.world.nextBlockId x)),
          { st.world with nextBlockId := st.world.nextBlockId + 1 }⟩
      rcases List.mem_cons.1 ha with rfl | ha
      · refine ⟨st.world.nextBlockId, le_refl _,
          (newArgInput a).connect (argumentEditor st.world.nextBlockId a), ?_, ?_, ?_⟩
        · rw [hl]; simp [Block.appendInput]
        · rw [Input.connect_name, newArgInput_name]
        · exact newArgInput_connect_targetBlock a _
      · obtain ⟨n, hn, j, hj, hj1, hj2⟩ := ih cm _ (by simpa [Block.appendInput] using ht) hv a ha
        exact ⟨n, Nat.le_of_succ_le hn, j, hj, hj1, hj2⟩

/-- Claim C13, evaluated where the code breaks it. The only argument of a declaration has the
id `STACK`. After the first rebuild its editor (block 100) sits on a value input named
`STACK`. The next rebuild completes; the Disconnect phase passes that input over because of
its name, so the editor is not in the map, and the Prune phase disposes nothing: block 100
is not disposed, although the slot now holds a new editor (block 101). -/
theorem updateDisplay_keeps_stack_editor :
    attachments stackDeclarationOnce.block
      = [(some "", none), (some "function_name", none), (some "STACK", some 100),
          (some "STACK", none)] ∧
    (updateDisplay_ stackDeclarationOnce).value = some () ∧
    attachments (updateDisplay_ stackDeclarationOnce).st.block
      = [(some "", none), (some "function_name", none), (some "STACK", some 101),
          (some "STACK", none)] ∧
    (updateDisplay_ stackDeclarationOnce).st.world.disposed = [] := by
  decide

/-- Claim C13, amended. Take a declaration whose inputs have pairwise different names, whose
argument ids do not clash with earlier slot keys, and which has an input named `STACK` if
`hasStatements_` is set. `updateDisplay_` completes. Every argument then has an input named
by its slot key that holds a newly created argument editor: a shadow block with a new
identity, of the kind `argument_editor_boolean`, `_string`, `_number` or `_custom` after
the argument's type, its `TEXT` field showing the argument's name. Every shadow block that
was attached before to an input not named `STACK` is disposed when `updateDisplay_`
returns. -/
theorem updateDisplay_declaration_editors (st : St)
    (ht : st.block.type = BlockKind.function_declaration)
    (hnames : st.block.inputList.Pairwise fun i j => jsString i.name ≠ jsString j.name)
    (hk : keysDistinct st.block.arguments_)
    (hflag : st.block.hasStatements_ = some true →
      ∃ i ∈ st.block.inputList, i.name = some "STACK") :
    (updateDisplay_ st).value = some () ∧
    (∀ a ∈ st.block.arguments_, ∃ n, st.world.nextBlockId ≤ n ∧
      ∃ j ∈ (updateDisplay_ st).st.block.inputList,
        j.name = inputName a ∧ j.targetBlock = some (argumentEditor n a)) ∧
    (∀ i ∈ st.block.inputList, i.name ≠ some "STACK" → ∀ b, i.targetBlock = some b →
      b.isShadow = true → b.id ∈ (updateDisplay_ st).st.world.disposed) := by
  have h := updateDisplay_complete st hk hflag
  obtain ⟨cm1, hcm1, hw⟩ := updateDisplay_world st h
  have ht0 : (⟨addFunctionLabel_ ((removeAllInputs_ (disconnectOldBlocks_
            { st.block with rendered := false }).2).appendInput
            (titleInput st.world.msg st.block.type)) st.block.name_, st.world⟩ : St).block.type
      = BlockKind.function_declaration := by
    obtain ⟨f, _, _, _, hf⟩ := addFunctionLabel_eq ((removeAllInputs_ (disconnectOldBlocks_
            { st.block with rendered := false }).2).appendInput
            (titleInput st.world.msg st.block.type)) st.block.name_
    show (addFunctionLabel_ _ _).type = _
    rw [hf]
    exact ht
  refine ⟨h, ?_, ?_⟩
  · intro a ha
    obtain ⟨n, hn, j, hj, hj1, hj2⟩ := createArgInputs_declaration_fresh st.block.arguments_
      (disconnectInputs st.block.inputList []).1 _ ht0 (by rw [hcm1]; rfl) a ha
    exact ⟨n, hn, j, updateDisplay_mem st h j hj, hj1, hj2⟩
  · intro i hi hn b hb hsh
    have hcm := createArgInputs_declaration st.block.arguments_
      (some (disconnectInputs st.block.inputList []).1) _ ht0 cm1 hcm1
    subst hcm
    obtain ⟨c, hc, hcb⟩ := Input.targetBlock_connection i b hb
    have hl := disconnectInputs_lookup_mem st.block.inputList [] hnames i hi c hc hn
    rw [hcb] at hl
    have hmem := lookup_mem _ _ _ hl
    rw [hw]; simp only [deleteShadows_, (deleteShadowEntries_eq _ _).2]
    simp only [List.mem_append, List.mem_map, List.mem_filterMap]
    exact Or.inr ⟨b, ⟨_, hmem, shadowBlockOf_shadow _ b hsh⟩, rfl⟩

/-- The amended C13 on the declaration of `foo(x: number, s: Sprite)` after its first rebuild:
the next rebuild completes and the editor of `x` from the first one (block 100) is
disposed. -/
theorem updateDisplay_declaration_editors_witness :
    (updateDisplay_ declarationBuilt).value = some () ∧
    100 ∈ (updateDisplay_ declarationBuilt).st.world.disposed :=
  have h := updateDisplay_declaration_editors declarationBuilt rfl
    (by decide) (by unfold keysDistinct; decide)
    (fun _ => by
      have hany : declarationBuilt.block.inputList.any (fun i =>
          decide (i.name = some "STACK")) = true := by decide
      obtain ⟨i, hi, hn⟩ := List.any_eq_true.1 hany
      exact ⟨i, hi, of_decide_eq_true hn⟩)
  ⟨h.1, h.2.2 (declarationBuilt.block.inputList.get ⟨2, by decide⟩) (List.get_mem _ _ _)
    (by decide) (argumentEditor 100 ⟨some "a", some "x", some "number"⟩) (by decide) rfl⟩

/-! ## Call strategy: bindings follow the argument id -/

theorem Input.setShadowDom_targetBlock (input : Input) (dom : Option Node) :
    (input.setShadowDom dom).targetBlock = input.targetBlock := by
  obtain ⟨t, n, c, f⟩ := input
  cases c <;> rfl

theorem inputName_primitive (a : FunctionParameter) (h : isPrimitiveType a.type = true) :
    inputName a = a.id := by
  unfold isPrimitiveType at h
  unfold inputName
  by_cases h1 : a.type = some "boolean"
  · simp [h1]
  · by_cases h2 : a.type = some "string"
    · simp [h2]
    · by_cases h3 : a.type = some "number"
      · simp [h3]
      · simp [h1, h2, h3] at h

/-- The reattach branch of `populateArgumentOnCaller_`, taken when the map records a block under
the argument's id: the block goes to the input, the entry under the input's name is cleared,
the shadow DOM is the saved one or a newly built one, and no block is created. -/
theorem populateArgumentOnCaller_reattach_eq (arg : FunctionParameter) (cm : ConnectionMap)
    (input : Input) (w : World) (sh : Option Node) (b : ChildBlock)
    (hl : cm.lookup (jsString arg.id) = some (some ⟨sh, some b⟩)) :
    populateArgumentOnCaller_ arg (some cm) input w
      = some ⟨some (assocSet cm (jsString input.name) none),
          (input.connect b).setShadowDom (some (sh.getD (buildShadowDom_ w arg.type))), w⟩ := by
  simp only [populateArgumentOnCaller_, readSaved, hl]
  cases sh <;> rfl

/-- On a call whose argument ids do not clash with earlier slot keys, when the argument loop
completes, the block recorded in the map under an argument's id is attached to the input of
that argument, which has the argument's slot key and type check. -/
theorem createArgInputs_reattach (args : List FunctionParameter) :
    ∀ (cm : ConnectionMap) (st : St), st.block.type = BlockKind.function_call →
      keysDistinct args →
      (createArgInputs args (some cm) st).value.isSome = true →
      ∀ a ∈ args, ∀ sh b, cm.lookup (jsString a.id) = some (some ⟨sh, some b⟩) →
        ∃ j ∈ (createArgInputs args (some cm) st).st.block.inputList,
          j.name = inputName a ∧ j.check = checkOfType a.type ∧ j.targetBlock = some b := by
  induction args with
  | nil => intro cm st _ _ _ a ha; cases ha
  | cons x rest ih =>
    intro cm st ht hk hv a ha sh b hl
    have hidx := List.pairwise_cons.1 hk
    by_cases hnull : cm.lookup (jsString x.id) = some none
    · simp [createArgInputs, createArgInput, populateArgument_, ht,
        populateArgumentOnCaller_, readSaved, hnull] at hv
    · obtain ⟨cm1, st1, hstep, hcm1⟩ := createArgInput_complete x cm st hnull
      obtain ⟨i, _, _, _, hi4⟩ := createArgInput_block x (some cm) st
      rw [hstep] at hi4
      simp only at hi4
      have hrun : createArgInputs (x :: rest) (some cm) st
          = createArgInputs rest (some cm1) st1 := by
        simp only [createArgInputs, hstep]
      rw [hrun] at hv ⊢
      obtain ⟨l, hlst, _, _⟩ := createArgInputs_block rest (some cm1) st1
      by_cases hax : a = x
      · subst hax
        have hin : (createArgInput a (some cm) st).st.block.inputList
            = st.block.inputList ++ [((newArgInput a).connect b).setShadowDom
                (some (sh.getD (buildShadowDom_ st.world a.type)))] := by
          simp only [createArgInput, populateArgument_, ht,
            populateArgumentOnCaller_reattach_eq a cm _ st.world sh b hl, Block.appendInput]
        rw [hstep] at hin
        simp only at hin
        refine ⟨((newArgInput a).connect b).setShadowDom
          (some (sh.getD (buildShadowDom_ st.world a.type))), ?_, ?_, ?_, ?_⟩
        · rw [hlst, hin]; simp
        · exact (Input.setShadowDom_name _ _).trans
            ((Input.connect_name _ _).trans (newArgInput_name a))
        · exact (Input.setShadowDom_check _ _).trans
            ((Input.connect_check _ _).trans (newArgInput_check a))
        · exact (Input.setShadowDom_targetBlock _ _).trans (newArgInput_connect_targetBlock a b)
      · have ha1 : a ∈ rest := by
          rcases List.mem_cons.1 ha with h | h
          · exact absurd h hax
          · exact h
        have hne : jsString a.id ≠ jsString (inputName x) := hidx.1 a ha1
        have hl1 : cm1.lookup (jsString a.id) = some (some ⟨sh, some b⟩) := by
          rcases hcm1 with rfl | rfl
          · exact hl
          · rw [lookup_assocSet, if_neg hne]; exact hl
        have ht1 : st1.block.type = BlockKind.function_call := by
          rw [hi4]; exact ht
        exact ih cm1 st1 ht1 hidx.2 hv a ha1 sh b hl1

theorem keysDistinct_of_nodup (args : List FunctionParameter)
    (hids : (args.map fun a => jsString a.id).Nodup)
    (hprim : ∀ a ∈ args, isPrimitiveType a.type = true) : keysDistinct args := by
  unfold keysDistinct
  induction args with
  | nil => exact List.Pairwise.nil
  | cons x rest ih =>
    have hidx : jsString x.id ∉ rest.map (fun a => jsString a.id) ∧
        (rest.map fun a => jsString a.id).Nodup := List.nodup_cons.1 hids
    refine List.Pairwise.cons ?_ (ih hidx.2 fun c hc => hprim c (List.mem_cons_of_mem _ hc))
    intro b hb heq
    rw [inputName_primitive x (hprim x (List.mem_cons_self _ _))] at heq
    exact hidx.1 (List.mem_map.2 ⟨b, hb, heq⟩)

/-- On a call whose inputs have pairwise different names and whose argument ids do not clash
with earlier slot keys, `updateDisplay_` completes, and a block that was attached to an input
not named `STACK` whose name is the id of an argument is afterwards attached to the input of
that argument. -/
theorem updateDisplay_reattach (st : St)
    (ht : st.block.type = BlockKind.function_call)
    (hnames : st.block.inputList.Pairwise fun i j => jsString i.name ≠ jsString j.name)
    (hk : keysDistinct st.block.arguments_)
    (hflag : st.block.hasStatements_ = some true →
      ∃ i ∈ st.block.inputList, i.name = some "STACK") :
    (updateDisplay_ st).value = some () ∧
    (∀ i ∈ st.block.inputList, i.name ≠ some "STACK" → ∀ b, i.targetBlock = some b →
      ∀ a ∈ st.block.arguments_, jsString a.id = jsString i.name →
        ∃ j ∈ (updateDisplay_ st).st.block.inputList,
          j.name = inputName a ∧ j.check = checkOfType a.type ∧ j.targetBlock = some b) := by
  have h := updateDisplay_complete st hk hflag
  obtain ⟨cm1, hcm1, _⟩ := updateDisplay_world st h
  have ht0 : (⟨addFunctionLabel_ ((removeAllInputs_ (disconnectOldBlocks_
            { st.block with rendered := false }).2).appendInput
            (titleInput st.world.msg st.block.type)) st.block.name_, st.world⟩ : St).block.type
      = BlockKind.function_call := by
    obtain ⟨f, _, _, _, hf⟩ := addFunctionLabel_eq ((removeAllInputs_ (disconnectOldBlocks_
            { st.block with rendered := false }).2).appendInput
            (titleInput st.world.msg st.block.type)) st.block.name_
    show (addFunctionLabel_ _ _).type = _
    rw [hf]
    exact ht
  refine ⟨h, ?_⟩
  intro i hi hn b hb a ha hai
  obtain ⟨c, hc, hcb⟩ := Input.targetBlock_connection i b hb
  have hl := disconnectInputs_lookup_mem st.block.inputList [] hnames i hi c hc hn
  rw [hcb, ← hai] at hl
  obtain ⟨j, hj, hj1, hj2, hj3⟩ := createArgInputs_reattach st.block.arguments_
    (disconnectInputs st.block.inputList []).1 _ ht0 hk (by rw [hcm1]; rfl) a ha
    c.shadowDom b hl
  exact ⟨j, updateDisplay_mem st h j hj, hj1, hj2, hj3⟩

/-- Claim C6, amended. Take a call whose inputs have pairwise different names and whose argument
ids do not clash with earlier slot keys. `updateDisplay_` completes, and the block that was
attached to the input named by an argument's id is afterwards attached to the input of that
argument, whatever the argument's type now is: when the type changed from `number` to a
custom type, that input has the new slot key, id, underscore and type, and accepts every
type. In the reattach branch `populateArgumentOnCaller_` creates no placeholder block. -/
theorem updateDisplay_retype_reattaches (st : St)
    (ht : st.block.type = BlockKind.function_call)
    (hnames : st.block.inputList.Pairwise fun i j => jsString i.name ≠ jsString j.name)
    (hk : keysDistinct st.block.arguments_)
    (hflag : st.block.hasStatements_ = some true →
      ∃ i ∈ st.block.inputList, i.name = some "STACK") :
    (updateDisplay_ st).value = some () ∧
    (∀ i ∈ st.block.inputList, i.name ≠ some "STACK" → ∀ b, i.targetBlock = some b →
      ∀ a ∈ st.block.arguments_, jsString a.id = jsString i.name →
        ∃ j ∈ (updateDisplay_ st).st.block.inputList,
          j.name = inputName a ∧ j.check = checkOfType a.type ∧ j.targetBlock = some b ∧
          (isPrimitiveType a.type = false →
            j.name = some (jsString a.id ++ "_" ++ jsString a.type) ∧ j.check = none)) ∧
    (∀ (arg : FunctionParameter) (cm : ConnectionMap) (input : Input) (w : World)
        (sh : Option Node) (b : ChildBlock),
      cm.lookup (jsString arg.id) = some (some ⟨sh, some b⟩) →
      populateArgumentOnCaller_ arg (some cm) input w
        = some ⟨some (assocSet cm (jsString input.name) none),
            (input.connect b).setShadowDom (some (sh.getD (buildShadowDom_ w arg.type))), w⟩) := by
  obtain ⟨h, hre⟩ := updateDisplay_reattach st ht hnames hk hflag
  refine ⟨h, ?_, fun arg cm input w sh b hl =>
    populateArgumentOnCaller_reattach_eq arg cm input w sh b hl⟩
  intro i hi hn b hb a ha hai
  obtain ⟨j, hj, hj1, hj2, hj3⟩ := hre i hi hn b hb a ha hai
  refine ⟨j, hj, hj1, hj2, hj3, ?_⟩
  intro hp
  have hnp : a.type ≠ some "boolean" ∧ a.type ≠ some "string" ∧ a.type ≠ some "number" := by
    unfold isPrimitiveType at hp
    refine ⟨fun h1 => ?_, fun h2 => ?_, fun h3 => ?_⟩
    · simp [h1] at hp
    · simp [h2] at hp
    · simp [h3] at hp
  constructor
  · rw [hj1]; simp [inputName, hnp.1, hnp.2.1, hnp.2.2]
  · rw [hj2]; simp [checkOfType, hnp.1, hnp.2.1, hnp.2.2]

/-- The amended C6 on the call of `foo(x)` with a user expression (block 7) on the `number` slot
`a`, after the type of the argument changed to `Sprite`: the rebuild completes and the
input `a_Sprite`, which accepts every type, holds block 7. -/
theorem updateDisplay_retype_reattaches_witness :
    (updateDisplay_ numberCallRetyped).value = some () ∧
    ∃ j ∈ (updateDisplay_ numberCallRetyped).st.block.inputList,
      j.name = some "a_Sprite" ∧ j.check = none ∧ j.targetBlock = some numberExpression :=
  have h := updateDisplay_retype_reattaches numberCallRetyped rfl
    (by decide) (by unfold keysDistinct; decide) (fun hs => by cases hs)
  have h2 := h.2.1 (numberCallRetyped.block.inputList.get ⟨2, by decide⟩) (List.get_mem _ _ _)
    (by decide) numberExpression (by decide)
    ⟨some "a", some "x", some "Sprite"⟩ (by simp [numberCallRetyped]) (by decide)
  ⟨h.1, h2.elim fun j hj => ⟨j, hj.1, (hj.2.2.2.2 (by decide)).1, (hj.2.2.2.2 (by decide)).2,
    hj.2.2.2.1⟩⟩

/-- Claim C15, evaluated where the claim fails. The only argument of a call has the id `STACK`
and the type `number`; a user expression (block 7) is plugged into its slot. The argument
is renamed, with id and type unchanged, and the display rebuilt, twice. The Disconnect
phase passes the slot over because of its name, so the expression is never recorded: the
first rebuild leaves it on the old input and gives the argument a new slot with a
placeholder (block 101), and after the second rebuild, which completes and disposes
nothing, no input of the call holds block 7. -/
theorem updateDisplay_stack_binding_lost :
    attachments stackCallRenamed.block
      = [(some "", none), (some "function_name", none), (some "STACK", some 7)] ∧
    attachments (updateDisplay_ stackCallRenamed).st.block
      = [(some "STACK", some 7), (some "", none), (some "function_name", none),
          (some "STACK", some 101)] ∧
    (updateDisplay_ stackCallRenamedAgain).value = some () ∧
    attachments (updateDisplay_ stackCallRenamedAgain).st.block
      = [(some "STACK", some 101), (some "", none), (some "function_name", none),
          (some "STACK", some 102)] ∧
    (updateDisplay_ stackCallRenamedAgain).st.world.disposed = [] := by
  decide

/-- Claim C15, amended. Take a call whose inputs have pairwise different names and which has
an input named `STACK` if `hasStatements_` is set, and a new signature whose arguments are of
primitive types and have pairwise different ids. `updateDisplay_` completes. Let an input
not named `STACK` be the slot of an argument `o` of the signature before (named by the id of
`o`, with the type check of the type of `o`), and let the new signature hold an argument
with the id and the type of `o`, under any display name and at any position. Every block
that was attached to that input is afterwards attached to the input named by that id, whose
type check is the one of the old slot. -/
theorem updateDisplay_call_keeps_bindings (st : St)
    (ht : st.block.type = BlockKind.function_call)
    (hnames : st.block.inputList.Pairwise fun i j => jsString i.name ≠ jsString j.name)
    (hids : (st.block.arguments_.map fun a => jsString a.id).Nodup)
    (hprim : ∀ a ∈ st.block.arguments_, isPrimitiveType a.type = true)
    (hflag : st.block.hasStatements_ = some true →
      ∃ i ∈ st.block.inputList, i.name = some "STACK") :
    (updateDisplay_ st).value = some () ∧
    (∀ i ∈ st.block.inputList, i.name ≠ some "STACK" → ∀ b, i.targetBlock = some b →
      ∀ o : FunctionParameter, i.name = o.id → i.check = checkOfType o.type →
      ∀ a ∈ st.block.arguments_, a.id = o.id → a.type = o.type →
        ∃ j ∈ (updateDisplay_ st).st.block.inputList,
          j.name = a.id ∧ j.check = i.check ∧ j.targetBlock = some b) := by
  obtain ⟨h, hre⟩ := updateDisplay_reattach st ht hnames
    (keysDistinct_of_nodup _ hids hprim) hflag
  refine ⟨h, ?_⟩
  intro i hi hn b hb o hio hco a ha hid hty
  obtain ⟨j, hj, hj1, hj2, hj3⟩ := hre i hi hn b hb a ha (by rw [hid, hio])
  exact ⟨j, hj, hj1.trans (inputName_primitive a (hprim a ha)),
    by rw [hj2, hco, hty], hj3⟩

/-- The amended C15 on the call of `foo(x: number)` with a user expression (block 7) on the
slot of `x`, after the argument was renamed to `y` with its id and type unchanged: the
rebuild completes and an input named `a` with the check `Number` holds block 7. -/
theorem updateDisplay_call_keeps_bindings_witness :
    (updateDisplay_ ⟨{ numberCallFilled.block with
        arguments_ := [⟨some "a", some "y", some "number"⟩] }, numberCallFilled.world⟩).value
      = some () ∧
    ∃ j ∈ (updateDisplay_ ⟨{ numberCallFilled.block with
        arguments_ := [⟨some "a", some "y", some "number"⟩] },
        numberCallFilled.world⟩).st.block.inputList,
      j.name = some "a" ∧ j.check = some "Number" ∧ j.targetBlock = some numberExpression :=
  have h := updateDisplay_call_keeps_bindings ⟨{ numberCallFilled.block with
      arguments_ := [⟨some "a", some "y", some "number"⟩] }, numberCallFilled.world⟩ rfl
    (by decide) (by decide) (by decide) (fun hs => by cases hs)
  ⟨h.1, h.2 (numberCallFilled.block.inputList.get ⟨2, by decide⟩) (List.get_mem _ _ _)
    (by decide) numberExpression (by decide)
    ⟨some "a", some "x", some "number"⟩ (by decide) (by decide)
    ⟨some "a", some "y", some "number"⟩ (by simp) rfl rfl⟩

/-! ## Enforcement on change events: theorems -/

theorem hasArgumentFrom_iff (env : Env) (argName : Option String) (reporterType : String)
    (args : List FunctionParameter) :
    hasArgumentFrom env argName reporterType args = true ↔
      ∃ a ∈ args, a.name = argName ∧ env.isReporterOfType a.type reporterType = true := by
  induction args with
  | nil => simp [hasArgumentFrom]
  | cons x rest ih =>
    by_cases hx : x.name = argName ∧ env.isReporterOfType x.type reporterType = true
    · simp only [hasArgumentFrom, hx, and_self, if_true, true_iff]
      exact ⟨x, List.mem_cons_self _ _, hx⟩
    · simp only [hasArgumentFrom, hx, if_false, ih, List.mem_cons]
      constructor
      · rintro ⟨a, ha, h⟩
        exact ⟨a, Or.inr ha, h⟩
      · rintro ⟨a, rfl | ha, h⟩
        · exact absurd h hx
        · exact ⟨a, ha, h⟩

/-- Claim C21. The method `hasArgument(argName, reporterType)` returns `true` exactly when some
argument of the block has a name identical to `argName` and a type that `isReporterOfType`
accepts for `reporterType`. On an empty argument list it returns `false`, and the block,
with its signature, is afterwards what it was. -/
theorem hasArgument_iff (env : Env) (this : Block) (argName : Option String)
    (reporterType : String) :
    ((hasArgument env this argName reporterType).1 = true ↔
      ∃ a ∈ this.arguments_,
        a.name = argName ∧ env.isReporterOfType a.type reporterType = true) ∧
    (hasArgument env { this with arguments_ := [] } argName reporterType).1 = false ∧
    (hasArgument env this argName reporterType).2 = this ∧
    (hasArgument env this argName reporterType).2.signature = this.signature :=
  ⟨hasArgumentFrom_iff env argName reporterType this.arguments_, rfl, rfl, rfl⟩

theorem sortByName_eq (env : Env) (args : List FunctionParameter)
    (h : ∀ a ∈ args, a.name.isSome = true) :
    sortByName env args = some (args.insertionSort fun a b =>
      env.localeCompare (jsString a.name) (jsString b.name) ≤ 0) := by
  unfold sortByName
  by_cases hl : args.length < 2
  · rw [if_pos hl]
    match args, hl with
    | [], _ => rfl
    | [a], _ => rfl
    | _ :: _ :: _, hl => simp at hl; omega
  · rw [if_neg hl, if_pos (List.all_eq_true.2 h)]

/-- Two permutations of a list of arguments with pairwise different names are sorted into the
same list, under a comparator that is total, transitive and antisymmetric. -/
theorem insertionSort_perm_eq (cmp : String → String → Int)
    (htot : ∀ x y, cmp x y ≤ 0 ∨ cmp y x ≤ 0)
    (htrans : ∀ x y z, cmp x y ≤ 0 → cmp y z ≤ 0 → cmp x z ≤ 0)
    (hanti : ∀ x y, cmp x y ≤ 0 → cmp y x ≤ 0 → x = y)
    (l1 l2 : List FunctionParameter) (hp : l1.Perm l2)
    (hnd : (l2.map fun a => jsString a.name).Nodup) :
    (l1.insertionSort fun a b => cmp (jsString a.name) (jsString b.name) ≤ 0)
      = l2.insertionSort fun a b => cmp (jsString a.name) (jsString b.name) ≤ 0 := by
  haveI : IsTotal FunctionParameter
      (fun a b => cmp (jsString a.name) (jsString b.name) ≤ 0) := ⟨fun a b => htot _ _⟩
  haveI : IsTrans FunctionParameter
      (fun a b => cmp (jsString a.name) (jsString b.name) ≤ 0) :=
    ⟨fun a b c => htrans _ _ _⟩
  haveI : IsAntisymm FunctionParameter
      (fun a b => cmp (jsString a.name) (jsString b.name) ≤ 0 ∧
        jsString a.name ≠ jsString b.name) :=
    ⟨fun a b h1 h2 => absurd (hanti _ _ h1.1 h2.1) h1.2⟩
  have hsorted : ∀ l : List FunctionParameter, l.Perm l2 →
      List.Sorted (fun a b => cmp (jsString a.name) (jsString b.name) ≤ 0 ∧
        jsString a.name ≠ jsString b.name)
        (l.insertionSort fun a b => cmp (jsString a.name) (jsString b.name) ≤ 0) := by
    intro l hl
    have h1 := List.sorted_insertionSort
      (fun a b : FunctionParameter => cmp (jsString a.name) (jsString b.name) ≤ 0) l
    have h2 : ((l.insertionSort fun a b =>
        cmp (jsString a.name) (jsString b.name) ≤ 0).map fun a => jsString a.name).Nodup :=
      (((List.perm_insertionSort _ l).trans hl).map _).nodup_iff.2 hnd
    exact List.Pairwise.and h1 (List.pairwise_map.1 h2)
  exact List.eq_of_perm_of_sorted
    (((List.perm_insertionSort _ l1).trans hp).trans (List.perm_insertionSort _ l2).symm)
    (hsorted l1 hp) (hsorted l2 (List.Perm.refl _))

/-- Claim C16, evaluated where the claim fails. The definition of `foo` has the argument
`x: number` with id `a`; a call of `foo` is created with the argument `x: number` with id
`b`. The (name, type) pairs of the two are the same, and `onCallerChange` propagates the
definition's signature all the same, because the compared records hold the ids; with the id
`a` on the call it does not. -/
theorem onCallerChange_compares_ids :
    (exampleCaller "foo" "F1" [⟨some "b", some "x", some "number"⟩]
        (some fooWorkspace)).block.arguments_.map (fun a => (a.name, a.type))
      = fooDefinition.arguments_.map (fun a => (a.name, a.type)) ∧
    (onCallerChange exampleEnv
        (exampleCaller "foo" "F1" [⟨some "b", some "x", some "number"⟩] (some fooWorkspace))
        createEvent exampleEditor).map Editor.summary
      = some ("g0", [some "foo"], [("g0", "mutate")]) ∧
    (onCallerChange exampleEnv
        (exampleCaller "foo" "F1" [⟨some "a", some "x", some "number"⟩] (some fooWorkspace))
        createEvent exampleEditor).map Editor.summary
      = some ("g0", [some "foo"], []) := by
  decide

/-- Claim C16, amended. Take a call in a workspace that is not a flyout, a creation event
naming it, and a definition found for its name, the argument names of both being strings.
`onCallerChange` completes; it calls `mutateCallersAndDefinition` with the definition's name
and serialized signature exactly when the name-sorted list of the call's argument records
(id, name and type) differs from the name-sorted list of the definition's, and changes
nothing otherwise. When the names of the definition's arguments are pairwise different and
the comparator is total, transitive and antisymmetric, a call whose argument records are
those of the definition in another order is not propagated to. -/
theorem onCallerChange_propagates (env : Env) (this : Caller) (event : Event) (ed : Editor)
    (ws : Workspace) (definition : Block)
    (hws : this.workspace = some ws) (hfly : ws.isFlyout = false)
    (hty : event.type = EventType.BLOCK_CREATE) (hid : this.id ∈ event.ids)
    (hdef : env.getDefinition this.block.name_ ws = some definition)
    (hn1 : ∀ a ∈ this.block.arguments_, a.name.isSome = true)
    (hn2 : ∀ a ∈ definition.arguments_, a.name.isSome = true) :
    onCallerChange env this event ed
      = some (if (this.block.arguments_.insertionSort fun a b =>
              env.localeCompare (jsString a.name) (jsString b.name) ≤ 0)
            ≠ (definition.arguments_.insertionSort fun a b =>
              env.localeCompare (jsString a.name) (jsString b.name) ≤ 0)
          then (ed.lookup this.block.name_).change
            (Change.mutateCallersAndDefinition definition.name_ (mutationToDom definition))
          else ed.lookup this.block.name_) ∧
    ((∀ x y, env.localeCompare x y ≤ 0 ∨ env.localeCompare y x ≤ 0) →
      (∀ x y z, env.localeCompare x y ≤ 0 → env.localeCompare y z ≤ 0 →
        env.localeCompare x z ≤ 0) →
      (∀ x y, env.localeCompare x y ≤ 0 → env.localeCompare y x ≤ 0 → x = y) →
      this.block.arguments_.Perm definition.arguments_ →
      (definition.arguments_.map fun a => jsString a.name).Nodup →
      onCallerChange env this event ed = some (ed.lookup this.block.name_)) := by
  have hrun : onCallerChange env this event ed
      = some (if (this.block.arguments_.insertionSort fun a b =>
              env.localeCompare (jsString a.name) (jsString b.name) ≤ 0)
            ≠ (definition.arguments_.insertionSort fun a b =>
              env.localeCompare (jsString a.name) (jsString b.name) ≤ 0)
          then (ed.lookup this.block.name_).change
            (Change.mutateCallersAndDefinition definition.name_ (mutationToDom definition))
          else ed.lookup this.block.name_) := by
    simp only [onCallerChange, hws, hfly, hty, hid, hdef, sortByName_eq env _ hn1,
      sortByName_eq env _ hn2]
    simp
    split <;> rfl
  refine ⟨hrun, ?_⟩
  intro htot htrans hanti hp hnd
  rw [hrun, insertionSort_perm_eq env.localeCompare htot htrans hanti _ _ hp hnd]
  simp

/-- The amended C16 on the call of `foo` with the argument record of the definition: nothing is
propagated. -/
theorem onCallerChange_propagates_witness :
    onCallerChange exampleEnv
        (exampleCaller "foo" "F1" [⟨some "a", some "x", some "number"⟩] (some fooWorkspace))
        createEvent exampleEditor
      = some (exampleEditor.lookup (some "foo")) :=
  (onCallerChange_propagates exampleEnv
    (exampleCaller "foo" "F1" [⟨some "a", some "x", some "number"⟩] (some fooWorkspace))
    createEvent exampleEditor fooWorkspace fooDefinition rfl rfl rfl (by decide) rfl
    (by decide) (by decide)).1.trans (by simp [exampleCaller, fooDefinition])

/-- Claim C17, evaluated where the claim fails. Two calls with the function id `F1` of the
definition `foo`, one named `foo` and one named `bar`, see a deletion event. Each asks
`getDefinition` for its own name: the first finds the definition and stays, the second finds
none and is disposed. -/
theorem onCallerChange_looks_up_name :
    (exampleCaller "foo" "F1" [] (some fooWorkspace)).block.functionId_
      = (exampleCaller "bar" "F1" [] (some fooWorkspace)).block.functionId_ ∧
    fooDefinition.functionId_ = some "F1" ∧
    (onCallerChange exampleEnv (exampleCaller "foo" "F1" [] (some fooWorkspace)) deleteEvent
        exampleEditor).map Editor.summary
      = some ("g0", [some "foo"], []) ∧
    (onCallerChange exampleEnv (exampleCaller "bar" "F1" [] (some fooWorkspace)) deleteEvent
        exampleEditor).map Editor.summary
      = some ("", [some "bar"], [("g1", "dispose")]) := by
  decide

/-- Claim C17, amended. On a creation event naming the call and on a deletion event, a call in
a workspace that is not a flyout looks its definition up by the function's name: whenever
`onCallerChange` completes, `getDefinition` was asked once, for `name_`. Two calls with the
same name in the same workspace therefore resolve to the same lookup, whatever their
function ids; on a deletion event the handler always completes. -/
theorem onCallerChange_lookup (env : Env) (this other : Caller) (event : Event) (ed : Editor)
    (ws : Workspace)
    (hws : this.workspace = some ws) (hws2 : other.workspace = some ws)
    (hfly : ws.isFlyout = false)
    (hname : other.block.name_ = this.block.name_)
    (hev : (event.type = EventType.BLOCK_CREATE ∧ this.id ∈ event.ids ∧ other.id ∈ event.ids) ∨
      event.type = EventType.BLOCK_DELETE) :
    (∀ ed1, onCallerChange env this event ed = some ed1 →
      ed1.lookups = ed.lookups ++ [this.block.name_]) ∧
    (∀ ed2, onCallerChange env other event ed = some ed2 →
      ed2.lookups = ed.lookups ++ [this.block.name_]) ∧
    (event.type = EventType.BLOCK_DELETE →
      ∃ ed1 ed2, onCallerChange env this event ed = some ed1 ∧
        onCallerChange env other event ed = some ed2) := by
  have key : ∀ c : Caller, c.workspace = some ws →
      ((event.type = EventType.BLOCK_CREATE ∧ c.id ∈ event.ids) ∨
        event.type = EventType.BLOCK_DELETE) →
      (∀ ed1, onCallerChange env c event ed = some ed1 →
        ed1.lookups = ed.lookups ++ [c.block.name_]) ∧
      (event.type = EventType.BLOCK_DELETE → ∃ ed1, onCallerChange env c event ed = some ed1) := by
    intro c hc hev
    rcases hev with ⟨hty, hid⟩ | hty
    · refine ⟨?_, fun h => by rw [hty] at h; cases h⟩
      intro ed1 h
      simp only [onCallerChange, hc, hfly, hty, hid] at h
      cases hd : env.getDefinition c.block.name_ ws with
      | none =>
        simp only [hd] at h
        simp at h
        rw [← h]; rfl
      | some d =>
        simp only [hd] at h
        cases hs1 : sortByName env d.arguments_ with
        | none => simp [hs1] at h
        | some defArgs =>
          cases hs2 : sortByName env c.block.arguments_ with
          | none => simp [hs1, hs2] at h
          | some thisArgs =>
            simp only [hs1, hs2] at h
            by_cases hne : thisArgs ≠ defArgs
            · rw [if_pos hne] at h
              rw [← Option.some.inj h]; rfl
            · rw [if_neg hne] at h
              rw [← Option.some.inj h]; rfl
    · have hnc : ¬ (event.type = EventType.BLOCK_CREATE ∧ c.id ∈ event.ids) := by
        rw [hty]; simp
      cases hd : env.getDefinition c.block.name_ ws with
      | none =>
        refine ⟨?_, fun _ => ⟨_, by simp only [onCallerChange, hc, hfly, hnc, hty, hd]; simp; rfl⟩⟩
        intro ed1 h
        simp only [onCallerChange, hc, hfly, hnc, hty, hd] at h
        simp at h
        rw [← h]; rfl
      | some d =>
        refine ⟨?_, fun _ => ⟨_, by simp only [onCallerChange, hc, hfly, hnc, hty, hd]; simp; rfl⟩⟩
        intro ed1 h
        simp only [onCallerChange, hc, hfly, hnc, hty, hd] at h
        simp at h
        rw [← h]; rfl
  have k1 := key this hws (hev.imp (fun h => ⟨h.1, h.2.1⟩) id)
  have k2 := key other hws2 (hev.imp (fun h => ⟨h.1, h.2.2⟩) id)
  rw [hname] at k2
  refine ⟨k1.1, k2.1, fun h => ?_⟩
  obtain ⟨ed1, h1⟩ := k1.2 h
  obtain ⟨ed2, h2⟩ := k2.2 h
  exact ⟨ed1, ed2, h1, h2⟩

/-- The amended C17 on two calls named `foo` with the function ids `F1` and `F2`, on a deletion
event: both complete, having asked for `foo`. -/
theorem onCallerChange_lookup_witness :
    ∃ ed1 ed2,
      onCallerChange exampleEnv (exampleCaller "foo" "F1" [] (some fooWorkspace)) deleteEvent
        exampleEditor = some ed1 ∧
      onCallerChange exampleEnv (exampleCaller "foo" "F2" [] (some fooWorkspace)) deleteEvent
        exampleEditor = some ed2 :=
  (onCallerChange_lookup exampleEnv (exampleCaller "foo" "F1" [] (some fooWorkspace))
    (exampleCaller "foo" "F2" [] (some fooWorkspace)) deleteEvent exampleEditor fooWorkspace
    rfl rfl rfl rfl (Or.inr rfl)).2.2 rfl

/-- Claim C18, evaluated where the claim fails. A call of `foo` sits in a flyout in which no
definition of `foo` exists, and a creation event names it: `onCallerChange` returns at once,
asks for no definition and inserts none. -/
theorem onCallerChange_flyout_inserts_nothing :
    exampleEnv.getDefinition (some "foo") flyoutWorkspace = none ∧
    "c1" ∈ createEvent.ids ∧ createEvent.type = EventType.BLOCK_CREATE ∧
    (onCallerChange exampleEnv (exampleCaller "foo" "F1" [] (some flyoutWorkspace)) createEvent
        exampleEditor).map Editor.summary
      = some ("g0", [], []) :=
  ⟨rfl, by decide, rfl, rfl⟩

/-- Claim C18, amended. Take a call in a workspace that is not a flyout, a creation event naming
it, and no definition found for its name. `onCallerChange` completes and makes exactly one
change, under the group of the event: it hands to `domToWorkspace` an `xml` element with one
`block` child of type `function_definition`, at `x` = the call's `x` plus `SNAP_RADIUS`
(minus `SNAP_RADIUS` when `RTL`) and `y` = the call's `y` plus twice `SNAP_RADIUS`, whose only
child is the call's `mutationToDom()`. Afterwards the ambient group is empty. -/
theorem onCallerChange_creates_definition (env : Env) (this : Caller) (event : Event)
    (ed : Editor) (ws : Workspace)
    (hws : this.workspace = some ws) (hfly : ws.isFlyout = false)
    (hty : event.type = EventType.BLOCK_CREATE) (hid : this.id ∈ event.ids)
    (hdef : env.getDefinition this.block.name_ ws = none) :
    onCallerChange env this event ed
      = some { group := ""
               lookups := ed.lookups ++ [this.block.name_]
               changes := ed.changes ++ [(event.group, Change.domToWorkspace
                 (.element "xml" []
                   [.element "block"
                     [("type", "function_definition"),
                      ("x", toString (if this.RTL then this.x - env.SNAP_RADIUS
                        else this.x + env.SNAP_RADIUS)),
                      ("y", toString (this.y + 2 * env.SNAP_RADIUS))]
                     [mutationToDom this.block]]))] } := by
  have hx : this.x + env.SNAP_RADIUS * (if this.RTL then -1 else 1)
      = if this.RTL then this.x - env.SNAP_RADIUS else this.x + env.SNAP_RADIUS := by
    split <;> ring
  have hy : this.y + env.SNAP_RADIUS * 2 = this.y + 2 * env.SNAP_RADIUS := by ring
  simp only [onCallerChange, hws, hfly, hty, hid, hdef, definitionXml, hx, hy]
  rfl

/-- The amended C18 on a call of `foo` at `(10, 20)` in an empty workspace, with `SNAP_RADIUS`
48: the definition goes to `(58, 116)`, in the group `g1` of the event. -/
theorem onCallerChange_creates_definition_witness :
    onCallerChange exampleEnv (exampleCaller "foo" "F1" [] (some emptyWorkspace)) createEvent
        exampleEditor
      = some { group := ""
               lookups := [some "foo"]
               changes := [("g1", Change.domToWorkspace
                 (.element "xml" []
                   [.element "block"
                     [("type", "function_definition"), ("x", "58"), ("y", "116")]
                     [.element "mutation" [("name", "foo"), ("functionid", "F1")] []]]))] } :=
  (onCallerChange_creates_definition exampleEnv (exampleCaller "foo" "F1" [] (some emptyWorkspace))
    createEvent exampleEditor emptyWorkspace rfl rfl rfl (by decide) rfl).trans rfl

/-- Claim C19, evaluated where the claim fails. The workspace holds the definition `foo` of the
function `F1`, and a call of the same function `F1` that is named `bar`. On a deletion event
the call asks for a definition named `bar`, finds none and is disposed, although the
definition for its function exists in the workspace. -/
theorem onCallerChange_delete_ignores_function_id :
    fooWorkspace.isFlyout = false ∧
    fooWorkspace.blocks.any (fun b => decide (b.type = BlockKind.function_definition ∧
      b.functionId_ = (exampleCaller "bar" "F1" [] (some fooWorkspace)).block.functionId_))
      = true ∧
    deleteEvent.type = EventType.BLOCK_DELETE ∧
    (onCallerChange exampleEnv (exampleCaller "bar" "F1" [] (some fooWorkspace)) deleteEvent
        exampleEditor).map Editor.summary
      = some ("", [some "bar"], [("g1", "dispose")]) :=
  ⟨rfl, by decide, rfl, rfl⟩

/-- Claim C19, amended. On a deletion event, of whatever block, a call in a workspace that is
not a flyout asks `getDefinition` for the definition of its name. If there is none, the call
is disposed, under the group of the event, and the ambient group is empty afterwards; if
there is one, nothing is changed. When `getDefinition` finds a definition exactly when the
workspace holds a definition block of that name, the call is disposed exactly when the
workspace holds no definition block with the call's name, whatever the function ids. -/
theorem onCallerChange_delete (env : Env) (this : Caller) (event : Event) (ed : Editor)
    (ws : Workspace)
    (hws : this.workspace = some ws) (hfly : ws.isFlyout = false)
    (hty : event.type = EventType.BLOCK_DELETE) :
    onCallerChange env this event ed
      = some (if (env.getDefinition this.block.name_ ws).isNone = true then
          { group := ""
            lookups := ed.lookups ++ [this.block.name_]
            changes := ed.changes ++ [(event.group, Change.dispose this.id true)] }
        else { ed with lookups := ed.lookups ++ [this.block.name_] }) ∧
    (((env.getDefinition this.block.name_ ws).isNone = true ↔
      ∃ ed1, onCallerChange env this event ed = some ed1 ∧
        ed1.changes = ed.changes ++ [(event.group, Change.dispose this.id true)]) ∧
     ((env.getDefinition this.block.name_ ws).isSome = true ↔
      ∃ ed1, onCallerChange env this event ed = some ed1 ∧ ed1.changes = ed.changes)) ∧
    ((∀ name w, (env.getDefinition name w).isSome = true ↔
        ∃ b ∈ w.blocks, b.type = BlockKind.function_definition ∧ b.name_ = name) →
      ((¬ ∃ b ∈ ws.blocks, b.type = BlockKind.function_definition ∧
          b.name_ = this.block.name_) ↔
        ∃ ed1, onCallerChange env this event ed = some ed1 ∧
          ed1.changes = ed.changes ++ [(event.group, Change.dispose this.id true)])) := by
  have hnc : ¬ (event.type = EventType.BLOCK_CREATE ∧ this.id ∈ event.ids) := by
    rw [hty]; simp
  have main : onCallerChange env this event ed
      = some (if (env.getDefinition this.block.name_ ws).isNone = true then
          { group := ""
            lookups := ed.lookups ++ [this.block.name_]
            changes := ed.changes ++ [(event.group, Change.dispose this.id true)] }
        else { ed with lookups := ed.lookups ++ [this.block.name_] }) ∧
      (((env.getDefinition this.block.name_ ws).isNone = true ↔
        ∃ ed1, onCallerChange env this event ed = some ed1 ∧
          ed1.changes = ed.changes ++ [(event.group, Change.dispose this.id true)]) ∧
       ((env.getDefinition this.block.name_ ws).isSome = true ↔
        ∃ ed1, onCallerChange env this event ed = some ed1 ∧ ed1.changes = ed.changes)) := by
    cases hd : env.getDefinition this.block.name_ ws with
    | none =>
      have hrun : onCallerChange env this event ed
          = some { group := ""
                   lookups := ed.lookups ++ [this.block.name_]
                   changes := ed.changes ++ [(event.group, Change.dispose this.id true)] } := by
        simp only [onCallerChange, hws, hfly, hnc, hty, hd]
        rfl
      refine ⟨by rw [hrun]; rfl, ?_, ?_⟩
      · simp only [Option.isNone_none, true_iff]
        exact ⟨_, hrun, rfl⟩
      · simp only [Option.isSome_none, Bool.false_eq_true, false_iff]
        rintro ⟨ed1, h1, h2⟩
        rw [hrun] at h1
        rw [← Option.some.inj h1] at h2
        have := congrArg List.length h2
        simp at this
    | some d =>
      have hrun : onCallerChange env this event ed
          = some { ed with lookups := ed.lookups ++ [this.block.name_] } := by
        simp only [onCallerChange, hws, hfly, hnc, hty, hd]
        rfl
      refine ⟨by rw [hrun]; rfl, ?_, ?_⟩
      · simp only [Option.isNone_some, Bool.false_eq_true, false_iff]
        rintro ⟨ed1, h1, h2⟩
        rw [hrun] at h1
        rw [← Option.some.inj h1] at h2
        have := congrArg List.length h2
        simp at this
      · simp only [Option.isSome_some, true_iff]
        exact ⟨_, hrun, rfl⟩
  refine ⟨main.1, main.2, ?_⟩
  intro hget
  rw [← main.2.1, ← hget this.block.name_ ws]
  cases env.getDefinition this.block.name_ ws <;> simp

/-- The amended C19 with a `getDefinition` that searches the workspace by name, on a call of
`foo` in a workspace without blocks: the call is disposed in the group `g1` of the deletion
event. -/
theorem onCallerChange_delete_witness :
    ∃ ed1, onCallerChange exampleEnv (exampleCaller "foo" "F1" [] (some emptyWorkspace))
        deleteEvent exampleEditor = some ed1 ∧
      ed1.changes = exampleEditor.changes ++ [("g1", Change.dispose "c1" true)] :=
  ((onCallerChange_delete exampleEnv (exampleCaller "foo" "F1" [] (some emptyWorkspace))
    deleteEvent exampleEditor emptyWorkspace rfl rfl rfl).2.2
    (fun name w => by simp [exampleEnv, List.find?_isSome])).1
    (by simp [emptyWorkspace])

/-- Claim C20, evaluated where the claim fails. A number reporter labelled `x` sits in a flyout;
its root is a `math_number` block that is not a shadow block, so it is neither a shadow
reporter copy nor a definition. A creation event names the reporter: `onReporterChange`
returns at once and the reporter is not disposed, as it is in a workspace that is not a
flyout. -/
theorem onReporterChange_flyout_keeps :
    exampleEnv.isShadowArgumentReporter (Root.other "math_number" false) = false ∧
    (Root.other "math_number" false).isDefinition = false ∧
    "c1" ∈ createEvent.ids ∧ createEvent.type = EventType.BLOCK_CREATE ∧
    (onReporterChange exampleEnv
        (exampleReporter (Root.other "math_number" false) (some flyoutWorkspace)) createEvent
        exampleEditor).summary = ("g0", [], []) ∧
    (onReporterChange exampleEnv
        (exampleReporter (Root.other "math_number" false) (some emptyWorkspace)) createEvent
        exampleEditor).summary = ("", [], [("g1", "dispose")]) :=
  ⟨rfl, rfl, by decide, rfl, rfl, rfl⟩

/-- Claim C20, amended. Take an argument reporter in a workspace that is not a flyout. On a
creation event whose `ids` hold the reporter, or a drag-end event whose `allNestedIds` hold
it, `onReporterChange` changes nothing if the root block is a shadow argument reporter, or
is a definition for which `hasArgument` holds of the reporter's label and block type; in
every other case it disposes the reporter, under the group of the event, and leaves the
ambient group empty. On every other event it changes nothing. -/
theorem onReporterChange_enforces (env : Env) (this : Reporter) (event : Event) (ed : Editor)
    (ws : Workspace)
    (hws : this.workspace = some ws) (hfly : ws.isFlyout = false) :
    onReporterChange env this event ed
      = if (event.type = EventType.BLOCK_CREATE ∧ this.id ∈ event.ids) ∨
            (event.type = EventType.END_DRAG ∧ this.id ∈ event.allNestedIds) then
          if env.isShadowArgumentReporter this.root = true ∨
              (this.root.isDefinition = true ∧
                this.root.hasArgument env this.value this.type = true) then ed
          else { group := ""
                 lookups := ed.lookups
                 changes := ed.changes ++ [(event.group, Change.dispose this.id false)] }
        else ed := by
  simp only [onReporterChange, hws, hfly]
  by_cases hev : (event.type = EventType.BLOCK_CREATE ∧ this.id ∈ event.ids) ∨
      (event.type = EventType.END_DRAG ∧ this.id ∈ event.allNestedIds)
  · rw [if_pos hev]
    simp only [Bool.false_eq_true, if_false, hev, if_true]
    cases h1 : env.isShadowArgumentReporter this.root <;>
      cases h2 : this.root.isDefinition <;>
      cases h3 : this.root.hasArgument env this.value this.type <;>
      simp [Editor.setGroup, Editor.change]
  · rw [if_neg hev]
    simp [hev]

/-- The amended C20 on a reporter labelled `x` whose root is the definition of `foo(x: number)`:
a creation event naming it changes nothing. -/
theorem onReporterChange_enforces_witness :
    (onReporterChange exampleEnv
        (exampleReporter (Root.function fooDefinition) (some emptyWorkspace)) createEvent
        exampleEditor).summary = ("g0", [], []) :=
  (congrArg Editor.summary (onReporterChange_enforces exampleEnv
    (exampleReporter (Root.function fooDefinition) (some emptyWorkspace)) createEvent
    exampleEditor emptyWorkspace rfl rfl)).trans rfl

/-- Claim C22. A call or an argument reporter that has no workspace, or whose workspace is a
flyout, is passed over by its handler: for every event, `onCallerChange` and
`onReporterChange` return the editor as it was, with no lookup made, no change made and the
ambient group unchanged. -/
theorem handlers_exempt_flyout (env : Env) (caller : Caller) (reporter : Reporter)
    (event : Event) (ed : Editor)
    (hc : caller.workspace = none ∨ ∃ ws, caller.workspace = some ws ∧ ws.isFlyout = true)
    (hr : reporter.workspace = none ∨
      ∃ ws, reporter.workspace = some ws ∧ ws.isFlyout = true) :
    onCallerChange env caller event ed = some ed ∧
    onReporterChange env reporter event ed = ed := by
  constructor
  · rcases hc with hc | ⟨ws, hc, hf⟩
    · simp [onCallerChange, hc]
    · simp [onCallerChange, hc, hf]
  · rcases hr with hr | ⟨ws, hr, hf⟩
    · simp [onReporterChange, hr]
    · simp [onReporterChange, hr, hf]

/-- C22 on a call without workspace and a reporter in a flyout, on a creation event naming
both. -/
theorem handlers_exempt_flyout_witness :
    onCallerChange exampleEnv (exampleCaller "foo" "F1" [] none) createEvent exampleEditor
      = some exampleEditor ∧
    onReporterChange exampleEnv
        (exampleReporter (Root.other "math_number" false) (some flyoutWorkspace)) createEvent
        exampleEditor = exampleEditor :=
  handlers_exempt_flyout exampleEnv (exampleCaller "foo" "F1" [] none)
    (exampleReporter (Root.other "math_number" false) (some flyoutWorkspace)) createEvent
    exampleEditor (Or.inl rfl) (Or.inr ⟨flyoutWorkspace, rfl, rfl⟩)

/-- Claim C23, evaluated where the code breaks it. The ambient group is `g0` when the handlers
run on events of group `g1`. A call of `foo` without arguments is created where the
definition `foo(x: number)` exists: `onCallerChange` calls `mutateCallersAndDefinition`
without setting the group first, so the propagation is made under `g0`. The other
cascades set the group of the event first: the definition created for a call without
definition, the disposal of a call without definition and the disposal of a reporter are
made under `g1`. -/
theorem onCallerChange_propagates_outside_group :
    exampleEditor.group = "g0" ∧ createEvent.group = "g1" ∧
    (onCallerChange exampleEnv (exampleCaller "foo" "F1" [] (some fooWorkspace)) createEvent
        exampleEditor).map Editor.summary
      = some ("g0", [some "foo"], [("g0", "mutate")]) ∧
    (onCallerChange exampleEnv (exampleCaller "foo" "F1" [] (some emptyWorkspace)) createEvent
        exampleEditor).map Editor.summary
      = some ("", [some "foo"], [("g1", "insert")]) ∧
    (onCallerChange exampleEnv (exampleCaller "foo" "F1" [] (some emptyWorkspace)) deleteEvent
        exampleEditor).map Editor.summary
      = some ("", [some "foo"], [("g1", "dispose")]) ∧
    (onReporterChange exampleEnv
        { exampleReporter (Root.function fooDefinition) (some emptyWorkspace) with
          value := some "y" } createEvent
        exampleEditor).summary = ("", [], [("g1", "dispose")]) :=
  ⟨rfl, rfl, rfl, rfl, rfl, rfl⟩

/-! ## Editing the declaration: theorems -/

theorem editorInput_type (m : Nat) (a : FunctionParameter) :
    (editorInput m a).type = InputType.INPUT_VALUE :=
  (Input.connect_type _ _).trans (newArgInput_type a)

theorem editorInput_name (m : Nat) (a : FunctionParameter) :
    (editorInput m a).name = inputName a :=
  (Input.connect_name _ _).trans (newArgInput_name a)

theorem editorInput_targetBlock (m : Nat) (a : FunctionParameter) :
    (editorInput m a).targetBlock = some (argumentEditor m a) :=
  newArgInput_connect_targetBlock a _

theorem argumentEditor_id (m : Nat) (a : FunctionParameter) : (argumentEditor m a).id = m := by
  unfold argumentEditor
  cases a.name <;> rfl

theorem argumentEditor_isShadow (m : Nat) (a : FunctionParameter) :
    (argumentEditor m a).isShadow = true := rfl

/-- The editor of an argument shows the argument's name in its `TEXT` field when the name is a
string. -/
theorem argumentEditor_text (m : Nat) (a : FunctionParameter) (n : String)
    (hn : a.name = some n) :
    (argumentEditor m a).getFieldValue "TEXT" = some n := by
  unfold argumentEditor
  by_cases h1 : a.type = some "boolean"
  · simp [h1, hn, ChildBlock.setFieldValue, ChildBlock.setShadow, ChildBlock.getFieldValue,
      initialFields, assocSet]
  · by_cases h2 : a.type = some "string"
    · simp [h1, h2, hn, ChildBlock.setFieldValue, ChildBlock.setShadow,
        ChildBlock.getFieldValue, initialFields, assocSet]
    · by_cases h3 : a.type = some "number"
      · simp [h1, h2, h3, hn, ChildBlock.setFieldValue, ChildBlock.setShadow,
          ChildBlock.getFieldValue, initialFields, assocSet]
      · simp [h1, h2, h3, hn, ChildBlock.setFieldValue, ChildBlock.setShadow,
          ChildBlock.getFieldValue, initialFields, assocSet]

theorem argumentEditor_type (m : Nat) (a : FunctionParameter) :
    (argumentEditor m a).type
      = if a.type = some "boolean" then "argument_editor_boolean"
        else if a.type = some "string" then "argument_editor_string"
        else if a.type = some "number" then "argument_editor_number"
        else "argument_editor_custom" := by
  unfold argumentEditor
  cases a.name <;> rfl

/-- The slot key of a custom-typed argument with an id of 20 characters is read back into the
id and the type. -/
theorem substr_key (i t : String) (h : i.length = 20) :
    substrLength (i ++ "_" ++ t) 0 20 = i ∧ substr (i ++ "_" ++ t) 21 = t := by
  have hl : i.data.length = 20 := h
  have hd : (i ++ "_" ++ t).data = i.data ++ ('_' :: t.data) := by
    simp [String.data_append]
  constructor
  · unfold substrLength
    rw [hd, List.drop_zero, List.take_left' hl]
  · unfold substr
    rw [hd]
    have : List.drop 21 (i.data ++ ('_' :: t.data)) = t.data := by
      rw [List.drop_append_eq_append_drop]
      simp [hl]
    rw [this]

/-- One round of the loop of `updateDeclarationMutation_` on the input of an argument that holds
the argument's editor: the argument is read back as it is, when its properties are strings
and, for a custom type, its id has 20 characters. -/
theorem readDeclarationInputs_editor (m : Nat) (a : FunctionParameter) (rest : List Input)
    (this : Block) (hs : a.isStrings = true)
    (h20 : isPrimitiveType a.type = false → (jsString a.id).length = 20) :
    readDeclarationInputs (editorInput m a :: rest) this
      = readDeclarationInputs rest { this with arguments_ := this.arguments_ ++ [a] } := by
  obtain ⟨id, name, type⟩ := a
  cases id with
  | none => simp [FunctionParameter.isStrings] at hs
  | some i =>
    cases name with
    | none => simp [FunctionParameter.isStrings] at hs
    | some n =>
      cases type with
      | none => simp [FunctionParameter.isStrings] at hs
      | some t =>
        have htext := argumentEditor_text m ⟨some i, some n, some t⟩ n rfl
        have hty := argumentEditor_type m ⟨some i, some n, some t⟩
        have hname := editorInput_name m ⟨some i, some n, some t⟩
        simp only [readDeclarationInputs, editorInput_type, editorInput_targetBlock, htext, hty,
          hname]
        by_cases h1 : t = "boolean"
        · subst h1
          simp [inputName]
        · by_cases h2 : t = "string"
          · subst h2
            simp [inputName]
          · by_cases h3 : t = "number"
            · subst h3
              simp [inputName]
            · have hk := substr_key i t (h20 (by simp [isPrimitiveType, h1, h2, h3]))
              simp [inputName, h1, h2, h3, jsString, hk.1, hk.2]

theorem readDeclarationInputs_statements (tail : List Input) (this : Block)
    (h : ∀ i ∈ tail, i.type = InputType.NEXT_STATEMENT) :
    readDeclarationInputs tail this = (some (), this) := by
  induction tail with
  | nil => rfl
  | cons x rest ih =>
    simp only [readDeclarationInputs, h x (List.mem_cons_self _ _)]
    exact ih fun i hi => h i (List.mem_cons_of_mem _ hi)

/-- The loop of `updateDeclarationMutation_` over the inputs of arguments holding their
editors, followed by statement inputs, reads the arguments back. -/
theorem readDeclarationInputs_editors (args : List FunctionParameter) :
    ∀ (ms : List Nat) (tail : List Input) (this : Block), ms.length = args.length →
      (∀ a ∈ args, a.isStrings = true) →
      (∀ a ∈ args, isPrimitiveType a.type = false → (jsString a.id).length = 20) →
      (∀ i ∈ tail, i.type = InputType.NEXT_STATEMENT) →
      readDeclarationInputs (List.zipWith editorInput ms args ++ tail) this
        = (some (), { this with arguments_ := this.arguments_ ++ args }) := by
  induction args with
  | nil =>
    intro ms tail this _ _ _ ht
    simp [readDeclarationInputs_statements tail this ht]
  | cons a rest ih =>
    intro ms tail this hl hs h20 ht
    match ms, hl with
    | m :: ms1, hl =>
      simp only [List.zipWith_cons_cons, List.cons_append]
      rw [readDeclarationInputs_editor m a _ this (hs a (List.mem_cons_self _ _))
        (h20 a (List.mem_cons_self _ _)),
        ih ms1 tail _ (by simpa using hl) (fun c hc => hs c (List.mem_cons_of_mem _ hc))
          (fun c hc => h20 c (List.mem_cons_of_mem _ hc)) ht]
      simp

/-- On a declaration the argument loop, when no entry under an argument's id is `null`, appends
for every argument its input with a newly created editor, the identities being taken in
order from the next one on, and hands the map on. -/
theorem createArgInputs_declaration_eq (args : List FunctionParameter) :
    ∀ (cm : Option ConnectionMap) (st : St), st.block.type = BlockKind.function_declaration →
      (∀ a ∈ args, (readSaved cm a.id).isSome = true) →
      createArgInputs args cm st
        = ⟨some cm,
            ⟨{ st.block with inputList := st.block.inputList
                ++ List.zipWith editorInput (List.range' st.world.nextBlockId args.length) args },
              { st.world with nextBlockId := st.world.nextBlockId + args.length }⟩⟩ := by
  induction args with
  | nil => intro cm st _ _; simp [createArgInputs]
  | cons a rest ih =>
    intro cm st ht hr
    have hra := hr a (List.mem_cons_self _ _)
    cases hrs : readSaved cm a.id with
    | none => rw [hrs] at hra; cases hra
    | some old =>
      have hstep : createArgInput a cm st
          = ⟨some cm, ⟨st.block.appendInput (editorInput st.world.nextBlockId a),
              { st.world with nextBlockId := st.world.nextBlockId + 1 }⟩⟩ := by
        simp only [createArgInput, populateArgument_, ht, populateArgumentOnDeclaration_, hrs,
          createArgumentEditor_eq, editorInput]
      simp only [createArgInputs, hstep]
      rw [ih cm _ (by simpa [Block.appendInput] using ht)
        (fun c hc => hr c (List.mem_cons_of_mem _ hc))]
      simp [Block.appendInput, List.range'_succ, Nat.add_assoc, Nat.add_comm 1]

/-- On a declaration whose input list holds at most the statement input, `createAllInputs_`
completes and builds the title row, the name editor and one input with a new editor per
argument, in front of the statement input. -/
theorem createAllInputs_declaration (cm : Option ConnectionMap) (st : St)
    (ht : st.block.type = BlockKind.function_declaration)
    (hr : ∀ a ∈ st.block.arguments_, (readSaved cm a.id).isSome = true)
    (hin : (st.block.inputList = [] ∧ st.block.hasStatements_ ≠ some true) ∨
      (∃ s, st.block.inputList = [s] ∧ s.name = some "STACK" ∧
        st.block.hasStatements_ = some true)) :
    createAllInputs_ cm st
      = ⟨some cm,
          ⟨{ st.block with inputList := (titleInput st.world.msg BlockKind.function_declaration
                :: dummyInput "function_name"
                    ⟨"function_name", some (st.block.name_.getD ""), true⟩
                :: List.zipWith editorInput
                    (List.range' st.world.nextBlockId st.block.arguments_.length)
                    st.block.arguments_
                ++ st.block.inputList) },
            { st.world with
              nextBlockId := st.world.nextBlockId + st.block.arguments_.length }⟩⟩ := by
  have hlabel : addFunctionLabel_ (st.block.appendInput (titleInput st.world.msg st.block.type))
      st.block.name_
      = { st.block with inputList := st.block.inputList ++
          [titleInput st.world.msg BlockKind.function_declaration,
            dummyInput "function_name"
              ⟨"function_name", some (st.block.name_.getD ""), true⟩] } := by
    simp [addFunctionLabel_, Block.appendInput, ht, addLabelEditor_]
  unfold createAllInputs_
  simp only [hlabel]
  rw [createArgInputs_declaration_eq st.block.arguments_ cm
    ⟨{ st.block with inputList := st.block.inputList ++
        [titleInput st.world.msg BlockKind.function_declaration,
          dummyInput "function_name"
            ⟨"function_name", some (st.block.name_.getD ""), true⟩] }, st.world⟩ ht hr]
  rcases hin with ⟨hl, hs⟩ | ⟨s, hl, hn, hs⟩
  · simp [moveStackInput, hs, hl]
  · have hm := moveStackToEnd_cons_stack s
      (titleInput st.world.msg BlockKind.function_declaration
        :: dummyInput "function_name" ⟨"function_name", some (st.block.name_.getD ""), true⟩
        :: List.zipWith editorInput
            (List.range' st.world.nextBlockId st.block.arguments_.length)
            st.block.arguments_) hn
    simp only [moveStackInput, hs, hl, if_true]
    simp only [List.singleton_append, List.cons_append, List.nil_append, List.append_assoc] at hm ⊢
    rw [hm]

/-- Claim C26. Take a declaration whose input list holds at most the statement input, and a
signature `S` whose properties are strings and whose custom-typed arguments have ids of
exactly 20 characters. `createAllInputs_` completes and builds the slots from `S`. Whatever
argument list and name the block holds when `updateDeclarationMutation_` is then called, the
call completes and recomputes from the slots an argument list equal to the one of `S`: same
ids, names, types and order. A custom slot key `UUID_TYPE` is decoded into the first 20
characters as id and everything after character 21 as type. The name is read back from the
name editor, and the function id is not touched. -/
theorem updateDeclarationMutation_createAllInputs (cm : Option ConnectionMap) (st : St)
    (stored : List FunctionParameter) (storedName : Option String)
    (ht : st.block.type = BlockKind.function_declaration)
    (hs : ∀ a ∈ st.block.arguments_, a.isStrings = true)
    (h20 : ∀ a ∈ st.block.arguments_,
      isPrimitiveType a.type = false → (jsString a.id).length = 20)
    (hr : ∀ a ∈ st.block.arguments_, (readSaved cm a.id).isSome = true)
    (hin : (st.block.inputList = [] ∧ st.block.hasStatements_ ≠ some true) ∨
      (∃ s, st.block.inputList = [s] ∧ s.name = some "STACK" ∧
        s.type = InputType.NEXT_STATEMENT ∧ st.block.hasStatements_ = some true)) :
    (createAllInputs_ cm st).value = some cm ∧
    (updateDeclarationMutation_ { (createAllInputs_ cm st).st.block with
        arguments_ := stored, name_ := storedName }).1 = some () ∧
    (updateDeclarationMutation_ { (createAllInputs_ cm st).st.block with
        arguments_ := stored, name_ := storedName }).2.arguments_
      = st.block.arguments_ ∧
    (updateDeclarationMutation_ { (createAllInputs_ cm st).st.block with
        arguments_ := stored, name_ := storedName }).2.name_
      = some (st.block.name_.getD "") ∧
    (updateDeclarationMutation_ { (createAllInputs_ cm st).st.block with
        arguments_ := stored, name_ := storedName }).2.functionId_
      = st.block.functionId_ ∧
    (updateDeclarationMutation_ { (createAllInputs_ cm st).st.block with
        arguments_ := stored, name_ := storedName }).2.inputList
      = (createAllInputs_ cm st).st.block.inputList ∧
    (∀ i t : String, i.length = 20 →
      substrLength (i ++ "_" ++ t) 0 20 = i ∧ substr (i ++ "_" ++ t) 21 = t) := by
  have hin2 : (st.block.inputList = [] ∧ st.block.hasStatements_ ≠ some true) ∨
      (∃ s, st.block.inputList = [s] ∧ s.name = some "STACK" ∧
        st.block.hasStatements_ = some true) :=
    hin.imp id fun ⟨s, h1, h2, _, h4⟩ => ⟨s, h1, h2, h4⟩
  have htail : ∀ i ∈ st.block.inputList, i.type = InputType.NEXT_STATEMENT := by
    rcases hin with ⟨hl, _⟩ | ⟨s, hl, _, hty, _⟩
    · rw [hl]; simp
    · rw [hl]; simpa using hty
  have hread : updateDeclarationMutation_ { (createAllInputs_ cm st).st.block with
        arguments_ := stored, name_ := storedName }
      = (some (), { (createAllInputs_ cm st).st.block with
          arguments_ := st.block.arguments_
          name_ := some (st.block.name_.getD "") }) := by
    rw [createAllInputs_declaration cm st ht hr hin2]
    simp only [updateDeclarationMutation_, List.drop_succ_cons, List.drop_zero,
      List.cons_append, readDeclarationInputs, dummyInput]
    exact readDeclarationInputs_editors st.block.arguments_ _ _ _ (by simp) hs h20 htail
  refine ⟨by rw [createAllInputs_declaration cm st ht hr hin2], by rw [hread], by rw [hread],
    by rw [hread], ?_, by rw [hread], substr_key⟩
  rw [hread, createAllInputs_declaration cm st ht hr hin2]

/-- C26 on a new declaration given the signature `foo(x: number, s: Sprite)`, the custom-typed
argument having an id of 20 characters: the slots are built, and from a block whose stored
argument list was replaced by another one they are read back into the argument list of the
signature. -/
theorem updateDeclarationMutation_createAllInputs_witness :
    (updateDeclarationMutation_ { (createAllInputs_ none
        ⟨{ freshCall with
            type := BlockKind.function_declaration
            name_ := some "foo"
            functionId_ := some "F1"
            arguments_ := [⟨some "a", some "x", some "number"⟩,
              ⟨some "abcdefghijklmnopqrst", some "s", some "Sprite"⟩] },
          exampleWorld⟩).st.block with
        arguments_ := [⟨some "q", some "old", some "boolean"⟩], name_ := none }).2.arguments_
      = [⟨some "a", some "x", some "number"⟩,
          ⟨some "abcdefghijklmnopqrst", some "s", some "Sprite"⟩] :=
  (updateDeclarationMutation_createAllInputs none
    ⟨{ freshCall with
        type := BlockKind.function_declaration
        name_ := some "foo"
        functionId_ := some "F1"
        arguments_ := [⟨some "a", some "x", some "number"⟩,
          ⟨some "abcdefghijklmnopqrst", some "s", some "Sprite"⟩] },
      exampleWorld⟩ [⟨some "q", some "old", some "boolean"⟩] none
    rfl (by decide) (by decide) (by decide) (Or.inl ⟨rfl, by decide⟩)).2.2.1

/-- On a declaration that has the statement input exactly when `hasStatements_` is set,
`updateDisplay_` completes and leaves the title row, the name editor and one input with a
new editor per argument, in front of the statement input. -/
theorem updateDisplay_declaration_eq (st : St)
    (ht : st.block.type = BlockKind.function_declaration)
    (hin : (findStackInput st.block.inputList = none ∧ st.block.hasStatements_ ≠ some true) ∨
      ((∃ i ∈ st.block.inputList, i.name = some "STACK") ∧
        st.block.hasStatements_ = some true)) :
    (updateDisplay_ st).value = some () ∧
    (updateDisplay_ st).st.block.inputList
      = titleInput st.world.msg BlockKind.function_declaration
          :: dummyInput "function_name" ⟨"function_name", some (st.block.name_.getD ""), true⟩
          :: List.zipWith editorInput
              (List.range' st.world.nextBlockId st.block.arguments_.length) st.block.arguments_
          ++ (removeAllInputs_ st.block).inputList := by
  have hu : updateDisplay_ st = finishDisplay st.block.rendered
      (createAllInputs_ (some (disconnectInputs st.block.inputList []).1)
        ⟨{ st.block with
            rendered := false
            inputList := (removeAllInputs_ st.block).inputList }, st.world⟩) := by
    have := removeAllInputs_disconnectOldBlocks { st.block with rendered := false }
    unfold updateDisplay_
    simp only [this]
    rfl
  have hr : ∀ a ∈ st.block.arguments_,
      (readSaved (some (disconnectInputs st.block.inputList []).1) a.id).isSome = true := by
    intro a _
    obtain ⟨old, hold⟩ := readSaved_some (disconnectInputs st.block.inputList []).1 a.id
      (disconnectInputs_lookup _ [] (by simp [List.lookup]) _)
    rw [hold]; rfl
  have hin2 : ((removeAllInputs_ st.block).inputList = [] ∧
        st.block.hasStatements_ ≠ some true) ∨
      (∃ s, (removeAllInputs_ st.block).inputList = [s] ∧ s.name = some "STACK" ∧
        st.block.hasStatements_ = some true) := by
    rcases hin with ⟨hf, hs⟩ | ⟨hex, hs⟩
    · exact Or.inl ⟨by simp [removeAllInputs_, hf], hs⟩
    · obtain ⟨s, hfs⟩ := findStackInput_isSome _ hex
      exact Or.inr ⟨s, by simp [removeAllInputs_, hfs], (findStackInput_some _ _ hfs).2, hs⟩
  have hc := createAllInputs_declaration (some (disconnectInputs st.block.inputList []).1)
    ⟨{ st.block with
        rendered := false
        inputList := (removeAllInputs_ st.block).inputList }, st.world⟩ ht hr hin2
  rw [hu, hc]
  exact ⟨rfl, rfl⟩

theorem focusLastEditor_editor (pre : List Input) (m : Nat) (a : FunctionParameter)
    (s : Input) (this : Block) (n : String) (hn : a.name = some n)
    (hl : this.inputList = pre ++ [editorInput m a, s]) :
    focusLastEditor_ this = some () := by
  have hlen : this.inputList.length = pre.length + 2 := by rw [hl]; simp
  have hget : this.inputList.get? (this.inputList.length - 2) = some (editorInput m a) := by
    rw [hlen, hl, List.get?_eq_getElem?, Nat.add_sub_cancel,
      List.getElem?_append_right (le_refl _)]
    simp
  have htext : ((argumentEditor m a).fields.lookup "TEXT").isSome = true := by
    have := argumentEditor_text m a n hn
    unfold ChildBlock.getFieldValue at this
    rw [this]; rfl
  unfold focusLastEditor_
  rw [hget]
  simp [hlen, editorInput_type, editorInput_targetBlock, htext]

/-- Claim C25. In every outcome `addParam_(typeName, defaultName)` appends one argument at the
end of the argument list: its type is `typeName`, its id the generated one and its name the
one `findUniqueParamName` returns for `defaultName` and the names of the arguments so far.
The arguments that were there stay as they are, in their order, and so do the function's
name and id. When the generator returns `flag` for `flag` on no names, adding a boolean
parameter with that default name to an empty argument list gives one argument, named `flag`,
of type `boolean`; `addBooleanExternal` is `addParam_` of `boolean` and the default boolean
name. On a declaration that has its statement input the call completes. -/
theorem addParam_appends (env : Env) (uid typeName defaultName : String) (st : St) :
    (addParam_ env uid typeName defaultName st).st.block.signature
      = ⟨st.block.name_, st.block.functionId_,
          st.block.arguments_ ++ [⟨some uid,
            some (env.findUniqueParamName defaultName (st.block.arguments_.map fun a => a.name)),
            some typeName⟩]⟩ ∧
    (st.block.arguments_ = [] → env.findUniqueParamName "flag" [] = "flag" →
      (addParam_ env uid "boolean" "flag" st).st.block.arguments_
        = [⟨some uid, some "flag", some "boolean"⟩]) ∧
    addBooleanExternal env uid st
      = addParam_ env uid "boolean" env.FUNCTIONS_DEFAULT_BOOLEAN_ARG_NAME st ∧
    (st.block.type = BlockKind.function_declaration →
      st.block.hasStatements_ = some true →
      (∃ i ∈ st.block.inputList, i.name = some "STACK") →
      (addParam_ env uid typeName defaultName st).value = some ()) := by
  have hst : ∀ (t d : String), (addParam_ env uid t d st).st
      = (updateDisplay_ ⟨{ st.block with
          arguments_ := st.block.arguments_ ++ [⟨some uid,
            some (env.findUniqueParamName d (st.block.arguments_.map fun a => a.name)),
            some t⟩] }, st.world⟩).st := by
    intro t d
    unfold addParam_
    dsimp only
    rcases hu : updateDisplay_ ⟨{ st.block with
          arguments_ := st.block.arguments_ ++ [⟨some uid,
            some (env.findUniqueParamName d (st.block.arguments_.map fun a => a.name)),
            some t⟩] }, st.world⟩ with ⟨v, st1⟩
    cases v <;> rfl
  refine ⟨?_, ?_, rfl, ?_⟩
  · rw [hst, updateDisplay_signature]
    rfl
  · intro hargs hflag
    have := congrArg Signature.arguments
      ((congrArg (fun s => s.block.signature) (hst "boolean" "flag")).trans
        (updateDisplay_signature _))
    simp only [Block.signature, hargs, List.map_nil, hflag, List.nil_append] at this
    exact this
  · intro ht hs hex
    obtain ⟨hv, hl⟩ := updateDisplay_declaration_eq ⟨{ st.block with
          arguments_ := st.block.arguments_ ++ [⟨some uid,
            some (env.findUniqueParamName defaultName (st.block.arguments_.map fun a => a.name)),
            some typeName⟩] }, st.world⟩ ht (Or.inr ⟨hex, hs⟩)
    obtain ⟨s, hfs⟩ := findStackInput_isSome _ hex
    have hkeep : (removeAllInputs_ { st.block with
          arguments_ := st.block.arguments_ ++ [⟨some uid,
            some (env.findUniqueParamName defaultName (st.block.arguments_.map fun a => a.name)),
            some typeName⟩] }).inputList = [s] := by
      simp [removeAllInputs_, hfs]
    rw [hkeep] at hl
    simp only [List.length_append, List.length_singleton, List.range'_concat, Nat.one_mul] at hl
    rw [List.zipWith_append _ _ _ _ _ (by simp)] at hl
    unfold addParam_
    dsimp only
    rcases hu : updateDisplay_ ⟨{ st.block with
          arguments_ := st.block.arguments_ ++ [⟨some uid,
            some (env.findUniqueParamName defaultName (st.block.arguments_.map fun a => a.name)),
            some typeName⟩] }, st.world⟩ with ⟨v, st1⟩
    rw [hu] at hv hl
    simp only at hv hl
    subst hv
    simp only
    exact focusLastEditor_editor
      (titleInput st.world.msg BlockKind.function_declaration
        :: dummyInput "function_name" ⟨"function_name", some (st.block.name_.getD ""), true⟩
        :: List.zipWith editorInput
            (List.range' st.world.nextBlockId st.block.arguments_.length) st.block.arguments_)
      (st.world.nextBlockId + st.block.arguments_.length)
      ⟨some uid,
        some (env.findUniqueParamName defaultName (st.block.arguments_.map fun a => a.name)),
        some typeName⟩ s st1.block _ rfl (by rw [hl]; simp)

/-- C25 on a new declaration of `foo` without arguments, with a generator that returns `flag`:
the call completes and the signature holds the one argument `flag: boolean` with the
generated id `u1`. -/
theorem addParam_appends_witness :
    (addParam_ exampleEnv "u1" "boolean" "flag"
        ⟨{ freshDeclaration with name_ := some "foo", functionId_ := some "F1" },
          exampleWorld⟩).value = some () ∧
    (addParam_ exampleEnv "u1" "boolean" "flag"
        ⟨{ freshDeclaration with name_ := some "foo", functionId_ := some "F1" },
          exampleWorld⟩).st.block.arguments_
      = [⟨some "u1", some "flag", some "boolean"⟩] :=
  have h := addParam_appends exampleEnv "u1" "boolean" "flag"
    ⟨{ freshDeclaration with name_ := some "foo", functionId_ := some "F1" }, exampleWorld⟩
  ⟨h.2.2.2 rfl rfl (by
      have hany : freshDeclaration.inputList.any (fun i =>
          decide (i.name = some "STACK")) = true := by decide
      obtain ⟨i, hi, hn⟩ := List.any_eq_true.1 hany
      exact ⟨i, hi, of_decide_eq_true hn⟩),
    h.2.1 rfl rfl⟩

/-! ## Removing an argument from the declaration -/

theorem fieldOnInput_editorInput (m m1 : Nat) (nm : String) (c : FunctionParameter) :
    fieldOnInput ⟨some m, nm⟩ (editorInput m1 c)
      = (decide (m = m1) && ((argumentEditor m1 c).fields.lookup nm).isSome) := by
  have hid := argumentEditor_id m1 c
  unfold fieldOnInput editorInput newArgInput
  cases checkOfType c.type <;>
    simp [valueInput, Input.connect, Input.setCheck, hid]

theorem findInputName_truthy (field : FieldRef) (xs : List Input) (acc : Option String)
    (h : isTruthy acc = true) : findInputName field xs acc = acc := by
  cases xs with
  | nil => rfl
  | cons x rest => simp [findInputName, h]

/-- The search loop passes over the inputs that hold editors with other identities. -/
theorem findInputName_editors (m : Nat) (nm : String) (cs : List FunctionParameter) :
    ∀ (ms : List Nat) (rest : List Input), m ∉ ms →
      findInputName ⟨some m, nm⟩ (List.zipWith editorInput ms cs ++ rest) none
        = findInputName ⟨some m, nm⟩ rest none := by
  induction cs with
  | nil => intro ms rest _; simp
  | cons c cs1 ih =>
    intro ms rest hm
    cases ms with
    | nil => simp
    | cons m1 ms1 =>
      have hne : m ≠ m1 := fun h => hm (by rw [h]; exact List.mem_cons_self _ _)
      have hms : m ∉ ms1 := fun h => hm (List.mem_cons_of_mem _ h)
      simp only [List.zipWith_cons_cons, List.cons_append, findInputName, isTruthy,
        fieldOnInput_editorInput, hne, decide_False, Bool.false_and, Bool.false_eq_true,
        if_false]
      exact ih ms1 rest hms

/-- The call `removeInput(name)` passes over the inputs of arguments with other slot keys. -/
theorem removeInput_editors (name : String) (w : World) (cs : List FunctionParameter) :
    ∀ (ms : List Nat) (rest rest1 : List Input) (w1 : World),
      (∀ c ∈ cs, inputName c ≠ some name) →
      removeInput name rest w = some (rest1, w1) →
      removeInput name (List.zipWith editorInput ms cs ++ rest) w
        = some (List.zipWith editorInput ms cs ++ rest1, w1) := by
  induction cs with
  | nil => intro ms rest rest1 w1 _ h; simpa using h
  | cons c cs1 ih =>
    intro ms rest rest1 w1 hk h
    cases ms with
    | nil => simpa using h
    | cons m1 ms1 =>
      have hc := hk c (List.mem_cons_self _ _)
      simp only [List.zipWith_cons_cons, List.cons_append, removeInput, editorInput_name, hc,
        if_false]
      show Option.map _ (removeInput name (List.zipWith editorInput ms1 cs1 ++ rest) w) = _
      rw [ih ms1 rest rest1 w1 (fun d hd => hk d (List.mem_cons_of_mem _ hd)) h]
      rfl

/-- Claim C27, evaluated where the claim fails. The declaration of `foo(x: number, s: Sprite)`
has its editors (blocks 100 and 101) on the slots `a` and `b_Sprite`, the id `b` of the
custom-typed argument not having 20 characters. `removeFieldCallback` is called with the
`TEXT` field of the editor of `x`. It completes and removes `x`, and the argument that
stays is read back from its slot key as id `b_Sprite` and type the empty string: it is not
unchanged. -/
theorem removeFieldCallback_mangles_short_id :
    declarationBuilt.block.arguments_
      = [⟨some "a", some "x", some "number"⟩, ⟨some "b", some "s", some "Sprite"⟩] ∧
    attachments declarationBuilt.block
      = [(some "", none), (some "function_name", none), (some "a", some 100),
          (some "b_Sprite", some 101), (some "STACK", none)] ∧
    (removeFieldCallback ⟨some 100, "TEXT"⟩ declarationBuilt).value = some () ∧
    (removeFieldCallback ⟨some 100, "TEXT"⟩ declarationBuilt).st.block.arguments_
      = [⟨some "b_Sprite", some "s", some ""⟩] := by
  decide

/-- Claim C27, amended. Take a declaration whose inputs are the title row, the name editor, one
input per argument holding the argument's editor, and statement inputs, the properties of
the arguments being strings and the ids of the custom-typed ones having 20 characters.
`removeFieldCallback` is called with the `TEXT` field of the editor of an argument whose
slot key is not empty, is not `function_name` and is not the slot key of an argument before
it, the editors before it having other identities. In every outcome the resulting argument
list is the previous one without that argument, the others unchanged and in their order; the
name is the text of the name editor and the function id is unchanged. The call completes
when the block has its statement input. When the field is found on no input, nothing
changes. -/
theorem removeFieldCallback_removes (st : St) (t : String) (pre post : List FunctionParameter)
    (a : FunctionParameter) (mpre mpost : List Nat) (m : Nat) (tail : List Input)
    (hargs : st.block.arguments_ = pre ++ a :: post)
    (hl : st.block.inputList
      = titleInput st.world.msg BlockKind.function_declaration
          :: dummyInput "function_name" ⟨"function_name", some t, true⟩
          :: (List.zipWith editorInput (mpre ++ m :: mpost) (pre ++ a :: post) ++ tail))
    (hlen1 : mpre.length = pre.length) (hlen2 : mpost.length = post.length)
    (hm : m ∉ mpre)
    (hs : ∀ c ∈ pre ++ a :: post, c.isStrings = true)
    (h20 : ∀ c ∈ pre ++ a :: post, isPrimitiveType c.type = false → (jsString c.id).length = 20)
    (hkey : ∀ c ∈ pre, inputName c ≠ inputName a)
    (htruthy : isTruthy (inputName a) = true)
    (hname : inputName a ≠ some "function_name")
    (htail : ∀ i ∈ tail, i.type = InputType.NEXT_STATEMENT) :
    (removeFieldCallback ⟨some m, "TEXT"⟩ st).st.block.signature
      = ⟨some t, st.block.functionId_, st.block.arguments_.eraseIdx pre.length⟩ ∧
    st.block.arguments_.eraseIdx pre.length = pre ++ post ∧
    (st.block.type = BlockKind.function_declaration → st.block.hasStatements_ = some true →
      (∃ i ∈ tail, i.name = some "STACK") →
      (removeFieldCallback ⟨some m, "TEXT"⟩ st).value = some ()) ∧
    (∀ field : FieldRef, isTruthy (findInputName field st.block.inputList none) = false →
      removeFieldCallback field st = ⟨some (), st⟩) := by
  obtain ⟨key, hkeyeq⟩ : ∃ key, inputName a = some key := by
    cases h : inputName a with
    | none => rw [h] at htruthy; cases htruthy
    | some k => exact ⟨k, rfl⟩
  have hkne : key ≠ "" := by
    rw [hkeyeq] at htruthy
    simpa [isTruthy] using htruthy
  have hsa := hs a (by simp)
  obtain ⟨n, hn⟩ : ∃ n, a.name = some n := by
    cases h : a.name with
    | none => simp [FunctionParameter.isStrings, h] at hsa
    | some n => exact ⟨n, rfl⟩
  have hzip : List.zipWith editorInput (mpre ++ m :: mpost) (pre ++ a :: post)
      = List.zipWith editorInput mpre pre
        ++ editorInput m a :: List.zipWith editorInput mpost post := by
    rw [List.zipWith_append _ _ _ _ _ hlen1]
    rfl
  have hzip2 : List.zipWith editorInput (mpre ++ mpost) (pre ++ post)
      = List.zipWith editorInput mpre pre ++ List.zipWith editorInput mpost post :=
    List.zipWith_append _ _ _ _ _ hlen1
  -- the search finds the slot of the argument
  have hfind : findInputName ⟨some m, "TEXT"⟩ st.block.inputList none = some key := by
    have htext : ((argumentEditor m a).fields.lookup "TEXT").isSome = true := by
      have := argumentEditor_text m a n hn
      unfold ChildBlock.getFieldValue at this
      rw [this]; rfl
    rw [hl, hzip]
    simp only [findInputName, isTruthy, fieldOnInput, titleInput, dummyInput, Bool.false_eq_true,
      if_false, List.append_assoc]
    simp only [reduceCtorEq, decide_False, Bool.false_and, Bool.false_eq_true, if_false]
    rw [findInputName_editors m "TEXT" pre mpre _ hm]
    simp only [List.cons_append, findInputName, isTruthy, fieldOnInput_editorInput,
      decide_True, Bool.true_and, htext, if_true, Bool.false_eq_true, if_false,
      editorInput_name, hkeyeq]
    exact findInputName_truthy _ _ _ (by simpa [isTruthy] using hkne)
  -- the removal takes that slot out
  have hremove : removeInput key st.block.inputList st.world
      = some (titleInput st.world.msg BlockKind.function_declaration
          :: dummyInput "function_name" ⟨"function_name", some t, true⟩
          :: (List.zipWith editorInput (mpre ++ mpost) (pre ++ post) ++ tail),
          st.world.dispose (argumentEditor m a)) := by
    have hfn : (some "function_name" : Option String) ≠ some key := by
      rw [← hkeyeq]; exact fun h => hname h.symm
    have hempty : (some "" : Option String) ≠ some key := by
      intro h; exact hkne (Option.some.inj h).symm
    have hrest : removeInput key
        (editorInput m a :: (List.zipWith editorInput mpost post ++ tail)) st.world
        = some (List.zipWith editorInput mpost post ++ tail,
            st.world.dispose (argumentEditor m a)) := by
      simp [removeInput, editorInput_name, hkeyeq, editorInput_targetBlock,
        argumentEditor_isShadow]
    have hpre := removeInput_editors key st.world pre mpre _ _ _
      (fun c hc => by rw [← hkeyeq]; exact hkey c hc) hrest
    rw [hl, hzip, hzip2]
    simp only [removeInput, titleInput, dummyInput, hfn, hempty, if_false, List.append_assoc,
      List.cons_append]
    simp only [List.cons_append] at hpre
    rw [hpre]
    rfl
  -- the remaining slots are read back
  have hread : updateDeclarationMutation_ { st.block with
        inputList := (titleInput st.world.msg BlockKind.function_declaration
          :: dummyInput "function_name" ⟨"function_name", some t, true⟩
          :: (List.zipWith editorInput (mpre ++ mpost) (pre ++ post) ++ tail)) }
      = (some (), { st.block with
          inputList := (titleInput st.world.msg BlockKind.function_declaration
            :: dummyInput "function_name" ⟨"function_name", some t, true⟩
            :: (List.zipWith editorInput (mpre ++ mpost) (pre ++ post) ++ tail))
          arguments_ := pre ++ post
          name_ := some t }) := by
    simp only [updateDeclarationMutation_, List.drop_succ_cons, List.drop_zero,
      readDeclarationInputs, dummyInput]
    exact readDeclarationInputs_editors (pre ++ post) (mpre ++ mpost) tail _
      (by simp [hlen1, hlen2])
      (fun c hc => hs c (by
        rcases List.mem_append.1 hc with h | h
        · exact List.mem_append_left _ h
        · exact List.mem_append_right _ (List.mem_cons_of_mem _ h)))
      (fun c hc => h20 c (by
        rcases List.mem_append.1 hc with h | h
        · exact List.mem_append_left _ h
        · exact List.mem_append_right _ (List.mem_cons_of_mem _ h)))
      htail
  have hrun : removeFieldCallback ⟨some m, "TEXT"⟩ st
      = updateDisplay_ ⟨{ st.block with
          inputList := (titleInput st.world.msg BlockKind.function_declaration
            :: dummyInput "function_name" ⟨"function_name", some t, true⟩
            :: (List.zipWith editorInput (mpre ++ mpost) (pre ++ post) ++ tail))
          arguments_ := pre ++ post
          name_ := some t }, st.world.dispose (argumentEditor m a)⟩ := by
    unfold removeFieldCallback
    simp only [hfind, hkne, ne_eq, not_false_eq_true, if_true, hremove, hread]
  have herase : st.block.arguments_.eraseIdx pre.length = pre ++ post := by
    rw [hargs, List.eraseIdx_append_of_length_le (le_refl _)]
    simp
  refine ⟨?_, herase, ?_, ?_⟩
  · rw [hrun, updateDisplay_signature, herase]
    rfl
  · intro ht hst hex
    rw [hrun]
    refine (updateDisplay_declaration_eq ⟨{ st.block with
          inputList := (titleInput st.world.msg BlockKind.function_declaration
            :: dummyInput "function_name" ⟨"function_name", some t, true⟩
            :: (List.zipWith editorInput (mpre ++ mpost) (pre ++ post) ++ tail))
          arguments_ := pre ++ post
          name_ := some t }, st.world.dispose (argumentEditor m a)⟩ ht (Or.inr ⟨?_, hst⟩)).1
    obtain ⟨i, hi, hin⟩ := hex
    exact ⟨i, by simp [hi], hin⟩
  · intro field hf
    unfold removeFieldCallback
    cases hres : findInputName field st.block.inputList none with
    | none => rfl
    | some k =>
      rw [hres] at hf
      have hk : k = "" := by simpa [isTruthy] using hf
      simp [hk]

/-- The amended C27 on the declaration of `foo(x: number, s: Sprite)` whose custom-typed
argument has an id of 20 characters, with the `TEXT` field of the editor of `x` (block 100):
the call completes and the signature keeps the argument `s` as it was. -/
theorem removeFieldCallback_removes_witness :
    (removeFieldCallback ⟨some 100, "TEXT"⟩ declarationLongId).value = some () ∧
    (removeFieldCallback ⟨some 100, "TEXT"⟩ declarationLongId).st.block.signature
      = ⟨some "foo", some "F1", [⟨some "abcdefghijklmnopqrst", some "s", some "Sprite"⟩]⟩ :=
  have h := removeFieldCallback_removes declarationLongId "foo" []
    [⟨some "abcdefghijklmnopqrst", some "s", some "Sprite"⟩] ⟨some "a", some "x", some "number"⟩
    [] [101] 100 [statementInput "STACK"] rfl rfl rfl rfl (by decide) (by decide) (by decide)
    (by decide) (by decide) (by decide) (by decide)
  ⟨h.2.2.1 rfl rfl ⟨statementInput "STACK", by simp, rfl⟩, h.1.trans rfl⟩

end FunctionUtils
